import Mathlib

/-!
# Minesweeper (`Two_frontend/src/App.js`): a shallow embedding

The class `Minesweeper` of `App.js` keeps a board of tile objects, a list of
mine positions and a subtitle (the status line).  Its methods mutate the tile
objects in place.  Here the object state is an explicit record that every
method takes and returns; a tile object is named by its place `board[row][col]`
(a `Ref`), and reading a field of a tile object reads the current board.

`revealTile` and `checkGameStatus` call each other.  They are modelled with a
fuel counter that is decremented at every nested call of `revealTile`; a
result `none` means the fuel ran out (or a reference that names no tile was
dereferenced, where JavaScript throws).  Totality for enough fuel is proved
separately.  `#render` only paints the state and is left out.
-/

namespace Minesweeper

/-- The values of `TILE_STATUSES`: "hidden", "marked", "number", "mine". -/
inductive TileStatus where
  | HIDDEN
  | MARKED
  | NUMBER
  | MINE
  deriving DecidableEq, Repr

/-- An object with fields `x` and `y` (an entry of `this.mines`). -/
structure Point where
  x : Nat
  y : Nat
  deriving DecidableEq, Repr

/-- A tile object.  `mineCount` and `disabled` are absent (`undefined`) until
they are assigned; an absent `disabled` is falsy. -/
structure Tile where
  x : Nat
  y : Nat
  mine : Bool
  status : TileStatus
  mineCount : Option Nat
  disabled : Bool
  deriving DecidableEq, Repr

/-- A reference to the tile object stored at `board[row][col]`. -/
structure Ref where
  row : Nat
  col : Nat
  deriving DecidableEq, Repr

end Minesweeper

open Minesweeper in
/-- The fields of a `Minesweeper` instance. -/
structure Minesweeper where
  BOARD_SIZE : Nat
  NUMBER_OF_MINES : Nat
  mines : List Point
  board : List (List Tile)
  subtitle : String
  deriving DecidableEq, Repr

namespace Minesweeper

open TileStatus

/-! ## Arrays -/

/-- In-place update of the element at index `n` (nothing happens past the end). -/
def modifyAt {α : Type} (f : α → α) : Nat → List α → List α
  | _, [] => []
  | 0, a :: l => f a :: l
  | n + 1, a :: l => a :: modifyAt f n l

/-- The method `forEach` with a callback that threads the object state and may fail. -/
def forEach {α σ : Type} (xs : List α) (f : σ → α → Option σ) (s : σ) : Option σ :=
  match xs with
  | [] => some s
  | x :: rest =>
    match f s x with
    | none => none
    | some s1 => forEach rest f s1

/-! ## Reading and writing tiles -/

/-- The tile object behind a reference: `board[row]?.[col]`. -/
def tileAt (s : Minesweeper) (r : Ref) : Option Tile :=
  match s.board[r.row]? with
  | none => none
  | some column => column[r.col]?

/-- Apply a field assignment to the tile object behind `r`. -/
def modifyTile (s : Minesweeper) (r : Ref) (f : Tile → Tile) : Minesweeper :=
  { s with board := modifyAt (modifyAt f r.col) r.row s.board }

/-- The assignment `tile.status = st`. -/
def setStatus (s : Minesweeper) (r : Ref) (st : TileStatus) : Minesweeper :=
  modifyTile s r (fun tile => { tile with status := st })

/-- The assignment `tile.mineCount = k`. -/
def setMineCount (s : Minesweeper) (r : Ref) (k : Nat) : Minesweeper :=
  modifyTile s r (fun tile => { tile with mineCount := some k })

/-- The references of `this.board.flat()`, in the order of the flattened array. -/
def allRefs (s : Minesweeper) : List Ref :=
  (List.range s.board.length).flatMap fun row =>
    (List.range ((s.board[row]?).getD []).length).map fun col => Ref.mk row col

/-! ## Board generation -/

/-- `checkMatch(a, b)`. -/
def checkMatch (a b : Point) : Bool :=
  a.x == b.x && a.y == b.y

/-- A value of `Math.random()`: the Number `num / 2 ^ exp`.  Every Number in `[0, 1)`
has this form with a significand `num < 2 ^ 53`, an exponent `exp ≤ 1074` and
`num < 2 ^ exp`. -/
structure Draw where
  num : Nat
  exp : Nat
  deriving DecidableEq, Repr

/-- The denominator of a draw, so that the draw lies in `[0, 1)` when `num < den`. -/
def Draw.den (u : Draw) : Nat :=
  2 ^ u.exp

/-- The number of low bits of `p` that do not fit a significand of 53 bits: halve `p`
until it is below `2 ^ 53`.  The first argument bounds the number of halvings. -/
def droppedBits : Nat → Nat → Nat
  | 0, _ => 0
  | fuel + 1, p => if p < 2 ^ 53 then 0 else droppedBits fuel (p / 2) + 1

/-- The multiple of `2 ^ shift` nearest to `p`, as a quotient; a tie goes to the even
quotient (the rounding of Number arithmetic). -/
def roundHalfEven (p shift : Nat) : Nat :=
  if 2 * (p % 2 ^ shift) < 2 ^ shift then p / 2 ^ shift
  else if 2 * (p % 2 ^ shift) = 2 ^ shift ∧ (p / 2 ^ shift) % 2 = 0 then p / 2 ^ shift
  else p / 2 ^ shift + 1

/-- The integer with a significand of 53 bits nearest to `p`. -/
def roundToNumber (p : Nat) : Nat :=
  roundHalfEven p (droppedBits p p) * 2 ^ droppedBits p p

/-- `getRandomNumber(size)` on the draw `u`: `Math.floor(u * size)`.  The product of
the Numbers `num / 2 ^ exp` and `size` is the Number nearest to `num * size / 2 ^ exp`,
which is `roundToNumber (num * size) / 2 ^ exp`; `Math.floor` is the division. -/
def getRandomNumber (u : Draw) (size : Nat) : Nat :=
  roundToNumber (u.num * size) / 2 ^ u.exp

/-- The loop of `getMinesPositions`, started with `positions`.  Every iteration
consumes two draws (first for `x`, then for `y`); `none` when the draws run out
before the loop ends. -/
def getMinesPositionsLoop (boardSize numberOfMines : Nat) (draws : List Draw)
    (positions : List Point) : Option (List Point) :=
  if positions.length < numberOfMines then
    match draws with
    | ux :: uy :: rest =>
      let mineTile : Point :=
        { x := getRandomNumber ux boardSize, y := getRandomNumber uy boardSize }
      if !positions.any (checkMatch mineTile) then
        getMinesPositionsLoop boardSize numberOfMines rest (positions ++ [mineTile])
      else
        getMinesPositionsLoop boardSize numberOfMines rest positions
    | _ => none
  else some positions

/-- `getMinesPositions()` for the constants `BOARD_SIZE`, `NUMBER_OF_MINES`. -/
def getMinesPositions (boardSize numberOfMines : Nat) (draws : List Draw) :
    Option (List Point) :=
  getMinesPositionsLoop boardSize numberOfMines draws []

/-- `initializeBoard()`: rows indexed by `y`, tiles within a row by `x`. -/
def initializeBoard (boardSize : Nat) (mines : List Point) : List (List Tile) :=
  (List.range boardSize).map fun y =>
    (List.range boardSize).map fun x =>
      { x := x
        y := y
        mine := mines.any (checkMatch { x := x, y := y })
        status := HIDDEN
        mineCount := none
        disabled := false }

/-! ## Status line -/

/-- The number of tiles of `board.flat()` whose status is "marked". -/
def markedTilesCount (s : Minesweeper) : Nat :=
  (s.board.flatten.filter fun tile => tile.status == MARKED).length

/-- The text that `updateMinesLeft` writes. -/
def minesLeftText (s : Minesweeper) : String :=
  "Mines left: " ++ toString ((s.NUMBER_OF_MINES : Int) - (markedTilesCount s : Int))

/-- `updateMinesLeft()`. -/
def updateMinesLeft (s : Minesweeper) : Minesweeper :=
  { s with subtitle := minesLeftText s }

/-- `initializeMinesweeper()` (the constructor), given the mine positions drawn. -/
def initializeFrom (boardSize numberOfMines : Nat) (mines : List Point) : Minesweeper :=
  updateMinesLeft
    { BOARD_SIZE := boardSize
      NUMBER_OF_MINES := numberOfMines
      mines := mines
      board := initializeBoard boardSize mines
      subtitle := "" }

/-- `initializeMinesweeper()` on a sequence of draws. -/
def initializeMinesweeper (boardSize numberOfMines : Nat) (draws : List Draw) :
    Option Minesweeper :=
  (getMinesPositions boardSize numberOfMines draws).map
    (initializeFrom boardSize numberOfMines)

/-! ## Flagging -/

/-- `markTile(tile)`. -/
def markTile (s : Minesweeper) (r : Ref) : Option Minesweeper :=
  match tileAt s r with
  | none => none
  | some tile =>
    if tile.status = HIDDEN ∨ tile.status = MARKED then
      some (updateMinesLeft
        (setStatus s r (if tile.status = HIDDEN then MARKED else HIDDEN)))
    else some s

/-! ## Revealing -/

/-- One subscript `array[i]` with a possibly negative index. -/
def index? {α : Type} (l : List α) (i : Int) : Option α :=
  if 0 ≤ i then l[i.toNat]? else none

/-- The body of the inner loop of `getNearByTiles`: the reference of
`board[yOffset + y]?.[xOffset + x]` when that tile exists. -/
def nearByTileAt (s : Minesweeper) (x y : Nat) (yOffset xOffset : Int) : Option Ref :=
  match index? s.board (yOffset + y) with
  | none => none
  | some column =>
    match index? column (xOffset + x) with
    | none => none
    | some _ => some (Ref.mk (yOffset + y).toNat (xOffset + x).toNat)

/-- `getNearByTiles({ x, y })`: the tile at `(x, y)` itself is among the result. -/
def getNearByTiles (s : Minesweeper) (x y : Nat) : List Ref :=
  ([-1, 0, 1] : List Int).flatMap fun yOffset =>
    ([-1, 0, 1] : List Int).filterMap fun xOffset => nearByTileAt s x y yOffset xOffset

/-- Whether the tile behind `r` has `mine` set (`false` for a dangling reference). -/
def isMine (s : Minesweeper) (r : Ref) : Bool :=
  match tileAt s r with
  | some tile => tile.mine
  | none => false

/-- `#disableBoard()`. -/
def disableBoard (s : Minesweeper) : Minesweeper :=
  { s with board := s.board.map fun column => column.map fun tile => { tile with disabled := true } }

/-- The constant `win` of `checkGameStatus`. -/
def win (s : Minesweeper) : Bool :=
  s.board.flatten.all fun tile =>
    tile.status == NUMBER || (tile.mine && (tile.status == MARKED || tile.status == HIDDEN))

/-- The constant `lose` of `checkGameStatus`. -/
def lose (s : Minesweeper) : Bool :=
  s.board.flatten.any fun tile => tile.status == MINE

/-- The callback of the `forEach` in the losing branch of `checkGameStatus`. -/
def revealIfMine (reveal : Minesweeper → Ref → Option Minesweeper)
    (s : Minesweeper) (r : Ref) : Option Minesweeper :=
  match tileAt s r with
  | none => none
  | some tile => if tile.mine then reveal s r else some s

/-- `checkGameStatus()`, with the `revealTile` it calls passed in. -/
def checkGameStatusWith (reveal : Minesweeper → Ref → Option Minesweeper)
    (s : Minesweeper) : Option Minesweeper :=
  if win s then
    some (disableBoard { s with subtitle := "You Win!" })
  else if lose s then
    (forEach (allRefs s) (revealIfMine reveal) { s with subtitle := "You Lose!" }).map
      disableBoard
  else some s

/-- `revealTile(tile)`. -/
def revealTile : Nat → Minesweeper → Ref → Option Minesweeper
  | 0, _, _ => none
  | fuel + 1, s, r =>
    match tileAt s r with
    | none => none
    | some tile =>
      if tile.status = HIDDEN then
        if tile.mine then
          checkGameStatusWith (revealTile fuel) (setStatus s r MINE)
        else
          let s1 := setStatus s r NUMBER
          let adjacentTiles := getNearByTiles s1 tile.x tile.y
          let nearByMineTiles := adjacentTiles.filter (isMine s1)
          if nearByMineTiles.length = 0 then
            match forEach adjacentTiles (revealTile fuel) s1 with
            | none => none
            | some s2 => checkGameStatusWith (revealTile fuel) s2
          else
            checkGameStatusWith (revealTile fuel) (setMineCount s1 r nearByMineTiles.length)
      else some s

/-- `checkGameStatus()`. -/
def checkGameStatus (fuel : Nat) (s : Minesweeper) : Option Minesweeper :=
  checkGameStatusWith (revealTile fuel) s

/-- `#handleClick(tile)`. -/
def handleClick (fuel : Nat) (s : Minesweeper) (r : Ref) : Option Minesweeper :=
  match tileAt s r with
  | none => none
  | some tile => if !tile.disabled then revealTile fuel s r else some s

/-- `#handleRightClick(e, tile)`. -/
def handleRightClick (s : Minesweeper) (r : Ref) : Option Minesweeper :=
  match tileAt s r with
  | none => none
  | some tile => if !tile.disabled then markTile s r else some s

/-! ## Player intents -/

/-- A gesture forwarded by the rendered board: a click or a right click on a tile. -/
inductive Intent where
  | click (r : Ref)
  | rightClick (r : Ref)
  deriving DecidableEq, Repr

/-- The tile an intent is aimed at. -/
def Intent.target : Intent → Ref
  | .click r => r
  | .rightClick r => r

/-- The listener that an intent triggers. -/
def handle (fuel : Nat) (s : Minesweeper) : Intent → Option Minesweeper
  | .click r => handleClick fuel s r
  | .rightClick r => handleRightClick s r

/-- A sequence of intents, each handled to completion before the next. -/
def runIntents (fuel : Nat) (s : Minesweeper) (intents : List Intent) : Option Minesweeper :=
  forEach intents (handle fuel) s

/-! ## Vocabulary of the properties -/

/-- The board is a square of side `BOARD_SIZE`, and the tile stored at `board[y][x]`
carries the coordinates `(x, y)`. -/
def WellFormed (s : Minesweeper) : Prop :=
  s.board.length = s.BOARD_SIZE ∧ (∀ column ∈ s.board, column.length = s.BOARD_SIZE) ∧
    ∀ r ∈ allRefs s, ∀ tile ∈ tileAt s r, tile.x = r.col ∧ tile.y = r.row

instance (s : Minesweeper) : Decidable (WellFormed s) := by
  unfold WellFormed
  infer_instance

/-- The number of tiles whose status is "hidden". -/
def hiddenCount (s : Minesweeper) : Nat :=
  (s.board.flatten.filter fun tile => tile.status == HIDDEN).length

/-- Every tile of the board is disabled. -/
def AllDisabled (s : Minesweeper) : Prop :=
  ∀ r tile, tileAt s r = some tile → tile.disabled = true

/-- The states that a game can be in: a fresh board, then any calls of `revealTile`
and `markTile` on tiles of the board. -/
inductive Reachable : Minesweeper → Prop
  | init (boardSize numberOfMines : Nat) (draws : List Draw) (s : Minesweeper) :
      (∀ u ∈ draws, u.num < u.den) →
      initializeMinesweeper boardSize numberOfMines draws = some s → Reachable s
  | reveal (fuel : Nat) (s s1 : Minesweeper) (r : Ref) :
      Reachable s → revealTile fuel s r = some s1 → Reachable s1
  | mark (s s1 : Minesweeper) (r : Ref) :
      Reachable s → markTile s r = some s1 → Reachable s1

/-- The winning condition as the specification words it: every tile is a revealed
non-mine, or a mine that is hidden or flagged. -/
def SpecWon (s : Minesweeper) : Prop :=
  ∀ r tile, tileAt s r = some tile →
    (tile.status = NUMBER ∧ tile.mine = false) ∨
      (tile.mine = true ∧ (tile.status = HIDDEN ∨ tile.status = MARKED))

/-- The neighbours of the tile at `board[r.row][r.col]` as the specification words
them: the tiles of the board at an offset `(dx, dy)` with `|dx| ≤ 1`, `|dy| ≤ 1`, not
both zero. -/
def specNeighbours (s : Minesweeper) (r : Ref) : List Ref :=
  ([(-1, -1), (-1, 0), (-1, 1), (0, -1), (0, 1), (1, -1), (1, 0), (1, 1)] :
      List (Int × Int)).filterMap fun d =>
    if 0 ≤ d.1 + (r.row : Int) ∧ 0 ≤ d.2 + (r.col : Int) then
      match tileAt s (Ref.mk (d.1 + (r.row : Int)).toNat (d.2 + (r.col : Int)).toNat) with
      | some _ => some (Ref.mk (d.1 + (r.row : Int)).toNat (d.2 + (r.col : Int)).toNat)
      | none => none
    else none

/-- The status of the tile behind a reference. -/
def statusAt (s : Minesweeper) (q : Ref) : Option TileStatus :=
  (tileAt s q).map fun tile => tile.status

/-- The fields of a tile that are written once, at construction. -/
def frameAt (s : Minesweeper) (q : Ref) : Option (Nat × Nat × Bool) :=
  (tileAt s q).map fun tile => (tile.x, tile.y, tile.mine)

/-- What a call may do to a board: the tiles stay in place with their coordinates and
mine flags, and a status changes only from "hidden", to "number" on a non-mine and to
"mine" on a mine. -/
def Evolves (s s1 : Minesweeper) : Prop :=
  (∀ q, frameAt s1 q = frameAt s q) ∧
    ∀ q, statusAt s1 q = statusAt s q ∨
      (statusAt s q = some HIDDEN ∧
        ((statusAt s1 q = some NUMBER ∧ isMine s q = false) ∨
          (statusAt s1 q = some MINE ∧ isMine s q = true)))

/-- The tile behind `q` has zero adjacent mines: none of its neighbours is a mine. -/
def zeroAdjacent (s : Minesweeper) (q : Ref) : Prop :=
  ∀ n ∈ specNeighbours s q, isMine s n = false

instance (s : Minesweeper) (q : Ref) : Decidable (zeroAdjacent s q) := by
  unfold zeroAdjacent
  infer_instance

/-- The zero-region of `r` as the specification words it: the tiles reachable from `r`
by steps to a neighbour, through tiles with zero adjacent mines only. -/
inductive ZeroRegion (s : Minesweeper) (r : Ref) : Ref → Prop
  | start : zeroAdjacent s r → ZeroRegion s r r
  | step (q q1 : Ref) : ZeroRegion s r q → q1 ∈ specNeighbours s q → zeroAdjacent s q1 →
      ZeroRegion s r q1

/-- The zero-region of `r` together with its border: every neighbour of a tile of the
region. -/
def RegionWithBorder (s : Minesweeper) (r q : Ref) : Prop :=
  ZeroRegion s r q ∨ ∃ z, ZeroRegion s r z ∧ q ∈ specNeighbours s z

/-- Every tile is hidden, or a non-mine with status "number". -/
def HiddenOrNumber (s : Minesweeper) : Prop :=
  ∀ q, statusAt s q = none ∨ statusAt s q = some HIDDEN ∨
    (statusAt s q = some NUMBER ∧ isMine s q = false)

/-- What one call of the cascade achieves, from `s` to `s1`, on a board whose tiles and
mines are those of `s0`: the board stays hidden-or-number, every number lies in `C`,
and a number with zero adjacent mines that still has a hidden neighbour was a number
before the call. -/
def CascadeStep (s0 : Minesweeper) (C : Ref → Prop) (s s1 : Minesweeper) : Prop :=
  HiddenOrNumber s1 ∧ (∀ q, statusAt s1 q = some NUMBER → C q) ∧
    ∀ z, statusAt s1 z = some NUMBER → zeroAdjacent s0 z →
      (∃ q ∈ specNeighbours s0 z, statusAt s1 q = some HIDDEN) → statusAt s z = some NUMBER

/-- The number of tiles of the board whose status differs between `s` and `s1`. -/
def changedCount (s s1 : Minesweeper) : Nat :=
  (allRefs s).countP fun q => statusAt s1 q != statusAt s q

/-- The number of mines among the neighbours of the tile behind `q`. -/
def adjacentMines (s : Minesweeper) (q : Ref) : Nat :=
  (specNeighbours s q).countP (isMine s)

/-- The tiles carry their coordinates, no mine has status "number", and a tile carries
a `mineCount` exactly when it is a "number" with a mine among its neighbours, the
count being their number. -/
def CountInvariant (s : Minesweeper) : Prop :=
  ∀ q tile, tileAt s q = some tile →
    (tile.x = q.col ∧ tile.y = q.row) ∧ (tile.status = NUMBER → tile.mine = false) ∧
      tile.mineCount =
        if tile.status = NUMBER ∧ adjacentMines s q ≠ 0 then some (adjacentMines s q) else none

/-- The text that `#render` puts into a tile: the `mineCount` of a "number" tile, and
nothing when the count is absent or zero (`tile.mineCount || ""`). -/
def tileText (tile : Tile) : String :=
  if tile.status = NUMBER then
    match tile.mineCount with
    | some k => if k = 0 then "" else toString k
    | none => ""
  else ""

/-- No tile of the board is disabled. -/
def NoneDisabled (s : Minesweeper) : Prop :=
  ∀ r tile, tileAt s r = some tile → tile.disabled = false

/-- The states that a game can be in when the player acts through the two listeners
only: a fresh board with fewer mines than tiles, then any clicks and right clicks. -/
inductive ReachableByIntents : Minesweeper → Prop
  | init (boardSize numberOfMines : Nat) (draws : List Draw) (s : Minesweeper) :
      numberOfMines < boardSize ^ 2 → (∀ u ∈ draws, u.num < u.den) →
      initializeMinesweeper boardSize numberOfMines draws = some s → ReachableByIntents s
  | step (fuel : Nat) (s s1 : Minesweeper) (intent : Intent) :
      ReachableByIntents s → handle fuel s intent = some s1 → ReachableByIntents s1

/-- The board has a tile, and what the state stores agrees with the board: either no
tile is disabled, the board is neither won nor lost and the status line is the "Mines
left" text; or every tile is disabled and the board is won with "You Win!"; or every
tile is disabled and the board is lost with "You Lose!". -/
def PhaseInvariant (s : Minesweeper) : Prop :=
  (∃ q, (tileAt s q).isSome = true) ∧
    ((NoneDisabled s ∧ win s = false ∧ lose s = false ∧ s.subtitle = minesLeftText s) ∨
      (AllDisabled s ∧ win s = true ∧ s.subtitle = "You Win!") ∨
      (AllDisabled s ∧ lose s = true ∧ s.subtitle = "You Lose!"))

end Minesweeper

namespace Minesweeper

open TileStatus

/-! ## Lists -/

theorem getElem?_modifyAt {α : Type} (f : α → α) (n m : Nat) (l : List α) :
    (modifyAt f n l)[m]? = if m = n then (l[m]?).map f else l[m]? := by
  induction l generalizing n m with
  | nil => simp [modifyAt]
  | cons a l ih =>
    cases n with
    | zero => cases m <;> simp [modifyAt]
    | succ n =>
      cases m with
      | zero => simp [modifyAt]
      | succ m => simp [modifyAt, ih]

theorem length_modifyAt {α : Type} (f : α → α) (n : Nat) (l : List α) :
    (modifyAt f n l).length = l.length := by
  induction l generalizing n with
  | nil => simp [modifyAt]
  | cons a l ih => cases n <;> simp [modifyAt, ih]

theorem modifyAt_id_of {α : Type} (f : α → α) (n : Nat) (l : List α)
    (h : ∀ a, l[n]? = some a → f a = a) : modifyAt f n l = l := by
  induction l generalizing n with
  | nil => simp [modifyAt]
  | cons a l ih =>
    cases n with
    | zero => simp [modifyAt, h a (by simp)]
    | succ n =>
      simp only [modifyAt]
      rw [ih n (fun b hb => h b (by simpa using hb))]

theorem modifyAt_modifyAt {α : Type} (f g : α → α) (n : Nat) (l : List α) :
    modifyAt g n (modifyAt f n l) = modifyAt (g ∘ f) n l := by
  induction l generalizing n with
  | nil => simp [modifyAt]
  | cons a l ih => cases n <;> simp [modifyAt, ih]

theorem forEach_nil {α σ : Type} (f : σ → α → Option σ) (s : σ) :
    forEach [] f s = some s := rfl

theorem forEach_cons {α σ : Type} (x : α) (xs : List α) (f : σ → α → Option σ) (s : σ) :
    forEach (x :: xs) f s = (f s x).bind (forEach xs f) := by
  cases h : f s x <;> simp [forEach, h]

/-- A property kept by every successful call of the callback is kept by `forEach`. -/
theorem forEach_preserves {α σ : Type} (P : σ → Prop) (xs : List α)
    (f : σ → α → Option σ)
    (hf : ∀ s x s1, x ∈ xs → P s → f s x = some s1 → P s1) :
    ∀ s s1, P s → forEach xs f s = some s1 → P s1 := by
  induction xs with
  | nil =>
    intro s s1 hs h
    simp only [forEach_nil, Option.some.injEq] at h
    exact h ▸ hs
  | cons x xs ih =>
    intro s s1 hs h
    rw [forEach_cons] at h
    cases hx : f s x with
    | none => simp [hx] at h
    | some s2 =>
      simp only [hx, Option.some_bind] at h
      exact ih (fun s x s1 hmem => hf s x s1 (List.mem_cons_of_mem _ hmem)) s2 s1
        (hf s x s2 (List.mem_cons_self _ _) hs hx) h

/-! ## Tiles of a state -/

theorem tileAt_modifyTile (s : Minesweeper) (r q : Ref) (f : Tile → Tile) :
    tileAt (modifyTile s r f) q = if q = r then (tileAt s q).map f else tileAt s q := by
  obtain ⟨qr, qc⟩ := q
  obtain ⟨rr, rc⟩ := r
  simp only [tileAt, modifyTile, getElem?_modifyAt, Ref.mk.injEq]
  by_cases h1 : qr = rr
  · subst h1
    cases hb : s.board[qr]? with
    | none => simp
    | some column =>
      by_cases h2 : qc = rc <;> simp [h2, getElem?_modifyAt]
  · simp [h1]

theorem tileAt_setStatus (s : Minesweeper) (r q : Ref) (st : TileStatus) :
    tileAt (setStatus s r st) q =
      if q = r then (tileAt s q).map (fun tile => { tile with status := st })
      else tileAt s q :=
  tileAt_modifyTile s r q _

theorem tileAt_setMineCount (s : Minesweeper) (r q : Ref) (k : Nat) :
    tileAt (setMineCount s r k) q =
      if q = r then (tileAt s q).map (fun tile => { tile with mineCount := some k })
      else tileAt s q :=
  tileAt_modifyTile s r q _

theorem tileAt_disableBoard (s : Minesweeper) (q : Ref) :
    tileAt (disableBoard s) q = (tileAt s q).map (fun tile => { tile with disabled := true }) := by
  simp only [tileAt, disableBoard, List.getElem?_map]
  cases s.board[q.row]? <;> simp

theorem tileAt_updateMinesLeft (s : Minesweeper) (q : Ref) :
    tileAt (updateMinesLeft s) q = tileAt s q := rfl

theorem tileAt_subtitle (s : Minesweeper) (txt : String) (q : Ref) :
    tileAt { s with subtitle := txt } q = tileAt s q := rfl

/-- The tiles of `board.flat()` are the tiles behind the references. -/
theorem mem_flatten_iff (s : Minesweeper) (tile : Tile) :
    tile ∈ s.board.flatten ↔ ∃ r, tileAt s r = some tile := by
  constructor
  · intro h
    obtain ⟨column, hc, ht⟩ := List.mem_flatten.mp h
    obtain ⟨i, hi, rfl⟩ := List.getElem_of_mem hc
    obtain ⟨j, hj, rfl⟩ := List.getElem_of_mem ht
    refine ⟨⟨i, j⟩, ?_⟩
    simp [tileAt, List.getElem?_eq_getElem hi, List.getElem?_eq_getElem hj]
  · rintro ⟨r, hr⟩
    unfold tileAt at hr
    cases hb : s.board[r.row]? with
    | none => simp [hb] at hr
    | some column =>
      simp only [hb] at hr
      exact List.mem_flatten.mpr
        ⟨column, List.mem_iff_getElem?.mpr ⟨_, hb⟩, List.mem_iff_getElem?.mpr ⟨_, hr⟩⟩

theorem win_iff (s : Minesweeper) :
    win s = true ↔ ∀ r tile, tileAt s r = some tile →
      tile.status = NUMBER ∨ (tile.mine = true ∧ (tile.status = MARKED ∨ tile.status = HIDDEN)) := by
  simp only [win, List.all_eq_true, mem_flatten_iff, Bool.or_eq_true, Bool.and_eq_true,
    beq_iff_eq]
  constructor
  · intro h r tile hr
    exact h tile ⟨r, hr⟩
  · rintro h tile ⟨r, hr⟩
    exact h r tile hr

theorem lose_iff (s : Minesweeper) :
    lose s = true ↔ ∃ r tile, tileAt s r = some tile ∧ tile.status = MINE := by
  simp only [lose, List.any_eq_true, mem_flatten_iff, beq_iff_eq]
  constructor
  · rintro ⟨tile, ⟨r, hr⟩, ht⟩
    exact ⟨r, tile, hr, ht⟩
  · rintro ⟨r, tile, hr, ht⟩
    exact ⟨tile, ⟨r, hr⟩, ht⟩

theorem mem_allRefs (s : Minesweeper) (r : Ref) :
    r ∈ allRefs s ↔ ∃ tile, tileAt s r = some tile := by
  obtain ⟨i, j⟩ := r
  simp only [allRefs, List.mem_flatMap, List.mem_range, List.mem_map, Ref.mk.injEq, tileAt]
  constructor
  · rintro ⟨row, hrow, col, hcol, rfl, rfl⟩
    rw [List.getElem?_eq_getElem hrow] at hcol ⊢
    simp only [Option.getD_some] at hcol
    exact ⟨_, List.getElem?_eq_getElem hcol⟩
  · rintro ⟨tile, ht⟩
    cases hb : s.board[i]? with
    | none => simp [hb] at ht
    | some column =>
      simp only [hb] at ht
      have hi : i < s.board.length := (List.getElem?_eq_some_iff.mp hb).1
      have hj : j < column.length := (List.getElem?_eq_some_iff.mp ht).1
      exact ⟨i, hi, j, by simpa [hb] using hj, rfl, rfl⟩

end Minesweeper

namespace Minesweeper

open TileStatus

/-! ## Invariants of `checkGameStatus` and `revealTile`

A property of the state that every single assignment made by `revealTile` and
`checkGameStatus` keeps is kept by the whole (mutually recursive) call. -/

theorem revealTile_succ (fuel : Nat) (s : Minesweeper) (r : Ref) :
    revealTile (fuel + 1) s r =
      match tileAt s r with
      | none => none
      | some tile =>
        if tile.status = HIDDEN then
          if tile.mine then
            checkGameStatusWith (revealTile fuel) (setStatus s r MINE)
          else
            if ((getNearByTiles (setStatus s r NUMBER) tile.x tile.y).filter
                (isMine (setStatus s r NUMBER))).length = 0 then
              match forEach (getNearByTiles (setStatus s r NUMBER) tile.x tile.y)
                  (revealTile fuel) (setStatus s r NUMBER) with
              | none => none
              | some s2 => checkGameStatusWith (revealTile fuel) s2
            else
              checkGameStatusWith (revealTile fuel)
                (setMineCount (setStatus s r NUMBER) r
                  ((getNearByTiles (setStatus s r NUMBER) tile.x tile.y).filter
                    (isMine (setStatus s r NUMBER))).length)
        else some s := by
  rfl

theorem revealTile_none (fuel : Nat) (s : Minesweeper) (r : Ref) (h : tileAt s r = none) :
    revealTile fuel s r = none := by
  cases fuel with
  | zero => rfl
  | succ fuel => rw [revealTile_succ, h]

theorem revealTile_not_hidden (fuel : Nat) (s : Minesweeper) (r : Ref) (tile : Tile)
    (ht : tileAt s r = some tile) (hh : tile.status ≠ HIDDEN) :
    revealTile (fuel + 1) s r = some s := by
  rw [revealTile_succ, ht]
  simp only [if_neg hh]

theorem revealTile_mine (fuel : Nat) (s : Minesweeper) (r : Ref) (tile : Tile)
    (ht : tileAt s r = some tile) (hh : tile.status = HIDDEN) (hm : tile.mine = true) :
    revealTile (fuel + 1) s r =
      checkGameStatusWith (revealTile fuel) (setStatus s r MINE) := by
  rw [revealTile_succ, ht]
  simp only [if_pos hh, hm, if_true]

theorem revealTile_cascade (fuel : Nat) (s : Minesweeper) (r : Ref) (tile : Tile)
    (ht : tileAt s r = some tile) (hh : tile.status = HIDDEN) (hm : tile.mine = false)
    (hz : ((getNearByTiles (setStatus s r NUMBER) tile.x tile.y).filter
      (isMine (setStatus s r NUMBER))).length = 0) :
    revealTile (fuel + 1) s r =
      (forEach (getNearByTiles (setStatus s r NUMBER) tile.x tile.y) (revealTile fuel)
        (setStatus s r NUMBER)).bind (checkGameStatusWith (revealTile fuel)) := by
  rw [revealTile_succ, ht]
  simp only [if_pos hh, hm, if_pos hz]
  cases forEach (getNearByTiles (setStatus s r NUMBER) tile.x tile.y) (revealTile fuel)
    (setStatus s r NUMBER) <;> simp

theorem revealTile_number (fuel : Nat) (s : Minesweeper) (r : Ref) (tile : Tile)
    (ht : tileAt s r = some tile) (hh : tile.status = HIDDEN) (hm : tile.mine = false)
    (hz : ((getNearByTiles (setStatus s r NUMBER) tile.x tile.y).filter
      (isMine (setStatus s r NUMBER))).length ≠ 0) :
    revealTile (fuel + 1) s r =
      checkGameStatusWith (revealTile fuel)
        (setMineCount (setStatus s r NUMBER) r
          ((getNearByTiles (setStatus s r NUMBER) tile.x tile.y).filter
            (isMine (setStatus s r NUMBER))).length) := by
  rw [revealTile_succ, ht]
  simp only [if_pos hh, hm, if_neg hz]
  simp

theorem checkGameStatusWith_win (reveal : Minesweeper → Ref → Option Minesweeper)
    (s : Minesweeper) (hw : win s = true) :
    checkGameStatusWith reveal s = some (disableBoard { s with subtitle := "You Win!" }) := by
  unfold checkGameStatusWith
  rw [if_pos hw]

theorem checkGameStatusWith_lose (reveal : Minesweeper → Ref → Option Minesweeper)
    (s : Minesweeper) (hw : win s = false) (hl : lose s = true) :
    checkGameStatusWith reveal s =
      (forEach (allRefs s) (revealIfMine reveal) { s with subtitle := "You Lose!" }).map
        disableBoard := by
  unfold checkGameStatusWith
  rw [if_neg (by simp [hw]), if_pos hl]

theorem checkGameStatusWith_neither (reveal : Minesweeper → Ref → Option Minesweeper)
    (s : Minesweeper) (hw : win s = false) (hl : lose s = false) :
    checkGameStatusWith reveal s = some s := by
  unfold checkGameStatusWith
  rw [if_neg (by simp [hw]), if_neg (by simp [hl])]

theorem revealIfMine_preserves (Inv : Minesweeper → Prop)
    (reveal : Minesweeper → Ref → Option Minesweeper)
    (hReveal : ∀ s r s1, Inv s → isMine s r = true → reveal s r = some s1 → Inv s1) :
    ∀ s r s1, Inv s → revealIfMine reveal s r = some s1 → Inv s1 := by
  intro s r s1 hs h
  unfold revealIfMine at h
  cases ht : tileAt s r with
  | none => simp [ht] at h
  | some tile =>
    simp only [ht] at h
    cases hm : tile.mine with
    | true =>
      simp only [hm, if_true] at h
      exact hReveal s r s1 hs (by simp [isMine, ht, hm]) h
    | false =>
      simp only [hm, Bool.false_eq_true, if_false, Option.some.injEq] at h
      exact h ▸ hs

theorem checkGameStatusWith_preserves (Inv : Minesweeper → Prop)
    (reveal : Minesweeper → Ref → Option Minesweeper)
    (hReveal : ∀ s r s1, Inv s → isMine s r = true → reveal s r = some s1 → Inv s1)
    (hWin : ∀ s, Inv s → win s = true → Inv (disableBoard { s with subtitle := "You Win!" }))
    (hLose : ∀ s, Inv s → win s = false → lose s = true →
      Inv { s with subtitle := "You Lose!" })
    (hDis : ∀ s, Inv s → Inv (disableBoard s)) :
    ∀ s s1, Inv s → checkGameStatusWith reveal s = some s1 → Inv s1 := by
  intro s s1 hs h
  cases hw : win s with
  | true =>
    rw [checkGameStatusWith_win _ _ hw, Option.some.injEq] at h
    exact h ▸ hWin s hs hw
  | false =>
    cases hl : lose s with
    | true =>
      rw [checkGameStatusWith_lose _ _ hw hl, Option.map_eq_some'] at h
      obtain ⟨s2, h2, rfl⟩ := h
      apply hDis
      exact forEach_preserves Inv _ _
        (fun s x s1 _ => revealIfMine_preserves Inv reveal hReveal s x s1) _ _
        (hLose s hs hw hl) h2
    | false =>
      rw [checkGameStatusWith_neither _ _ hw hl, Option.some.injEq] at h
      exact h ▸ hs

theorem revealTile_preserves (Inv : Minesweeper → Prop)
    (hMine : ∀ s r tile, Inv s → tileAt s r = some tile → tile.status = HIDDEN →
      tile.mine = true → Inv (setStatus s r MINE))
    (hNum : ∀ s r tile, Inv s → tileAt s r = some tile → tile.status = HIDDEN →
      tile.mine = false → Inv (setStatus s r NUMBER))
    (hCount : ∀ s r k, Inv s → Inv (setMineCount s r k))
    (hWin : ∀ s, Inv s → win s = true → Inv (disableBoard { s with subtitle := "You Win!" }))
    (hLose : ∀ s, Inv s → win s = false → lose s = true →
      Inv { s with subtitle := "You Lose!" })
    (hDis : ∀ s, Inv s → Inv (disableBoard s)) :
    ∀ fuel s r s1, Inv s → revealTile fuel s r = some s1 → Inv s1 := by
  intro fuel
  induction fuel with
  | zero =>
    intro s r s1 _ h
    simp [revealTile] at h
  | succ fuel ih =>
    intro s r s1 hs h
    have hCheck := checkGameStatusWith_preserves Inv (revealTile fuel)
      (fun s r s1 hs _ => ih s r s1 hs) hWin hLose hDis
    cases ht : tileAt s r with
    | none => rw [revealTile_none _ _ _ ht] at h; cases h
    | some tile =>
      by_cases hh : tile.status = HIDDEN
      · cases hm : tile.mine with
        | true =>
          rw [revealTile_mine _ _ _ _ ht hh hm] at h
          exact hCheck _ _ (hMine s r tile hs ht hh hm) h
        | false =>
          have h1 := hNum s r tile hs ht hh hm
          by_cases hz : ((getNearByTiles (setStatus s r NUMBER) tile.x tile.y).filter
              (isMine (setStatus s r NUMBER))).length = 0
          · rw [revealTile_cascade _ _ _ _ ht hh hm hz, Option.bind_eq_some] at h
            obtain ⟨s2, hf, h⟩ := h
            refine hCheck _ _ ?_ h
            exact forEach_preserves Inv _ _ (fun s x s1 _ => ih s x s1) _ _ h1 hf
          · rw [revealTile_number _ _ _ _ ht hh hm hz] at h
            exact hCheck _ _ (hCount _ _ _ h1) h
      · rw [revealTile_not_hidden _ _ _ _ ht hh, Option.some.injEq] at h
        exact h ▸ hs

/-- The same for a call on a mine: no tile is given a number. -/
theorem revealTile_mine_preserves (Inv : Minesweeper → Prop)
    (hMine : ∀ s r tile, Inv s → tileAt s r = some tile → tile.status = HIDDEN →
      tile.mine = true → Inv (setStatus s r MINE))
    (hWin : ∀ s, Inv s → win s = true → Inv (disableBoard { s with subtitle := "You Win!" }))
    (hLose : ∀ s, Inv s → win s = false → lose s = true →
      Inv { s with subtitle := "You Lose!" })
    (hDis : ∀ s, Inv s → Inv (disableBoard s)) :
    ∀ fuel s r s1, Inv s → isMine s r = true → revealTile fuel s r = some s1 → Inv s1 := by
  intro fuel
  induction fuel with
  | zero =>
    intro s r s1 _ _ h
    simp [revealTile] at h
  | succ fuel ih =>
    intro s r s1 hs hmine h
    cases ht : tileAt s r with
    | none => rw [revealTile_none _ _ _ ht] at h; cases h
    | some tile =>
      have hm : tile.mine = true := by simpa [isMine, ht] using hmine
      by_cases hh : tile.status = HIDDEN
      · rw [revealTile_mine _ _ _ _ ht hh hm] at h
        exact checkGameStatusWith_preserves Inv (revealTile fuel) ih hWin hLose hDis _ _
          (hMine s r tile hs ht hh hm) h
      · rw [revealTile_not_hidden _ _ _ _ ht hh, Option.some.injEq] at h
        exact h ▸ hs

end Minesweeper

namespace Minesweeper

open TileStatus

/-! ## Board generation -/

theorem checkMatch_iff (a b : Point) : checkMatch a b = true ↔ a = b := by
  cases a; cases b
  simp [checkMatch]

theorem any_checkMatch_iff (p : Point) (l : List Point) :
    l.any (checkMatch p) = true ↔ p ∈ l := by
  simp only [List.any_eq_true, checkMatch_iff]
  constructor
  · rintro ⟨q, hq, rfl⟩
    exact hq
  · intro h
    exact ⟨p, h, rfl⟩

theorem droppedBits_lower (fuel p : Nat) (h : 0 < droppedBits fuel p) :
    2 ^ (52 + droppedBits fuel p) ≤ p := by
  induction fuel generalizing p with
  | zero => simp [droppedBits] at h
  | succ fuel ih =>
    unfold droppedBits at h ⊢
    split at h
    · cases h
    · rename_i hp
      rw [if_neg hp]
      rcases Nat.eq_zero_or_pos (droppedBits fuel (p / 2)) with h0 | h0
      · rw [h0]
        omega
      · have := ih (p / 2) h0
        rw [show 52 + (droppedBits fuel (p / 2) + 1) = (52 + droppedBits fuel (p / 2)) + 1
          from by omega, Nat.pow_succ]
        omega

/-- The significand that is left has at most 53 bits. -/
theorem droppedBits_upper (fuel p : Nat) (h : p < 2 ^ 53 * 2 ^ fuel) :
    p / 2 ^ droppedBits fuel p < 2 ^ 53 := by
  induction fuel generalizing p with
  | zero => simpa [droppedBits] using h
  | succ fuel ih =>
    unfold droppedBits
    split
    · simpa using ‹p < 2 ^ 53›
    · rw [Nat.pow_succ, Nat.mul_comm (2 ^ droppedBits fuel (p / 2)) 2, ← Nat.div_div_eq_div_mul]
      apply ih
      rw [Nat.pow_succ] at h
      omega

theorem roundToNumber_significand (p : Nat) :
    p / 2 ^ droppedBits p p < 2 ^ 53 := by
  apply droppedBits_upper
  have h1 : p < 2 ^ p := Nat.lt_two_pow p
  have h2 : 0 < 2 ^ 53 := Nat.two_pow_pos 53
  calc p < 2 ^ p := h1
    _ ≤ 2 ^ 53 * 2 ^ p := Nat.le_mul_of_pos_left _ h2

/-- Rounding moves a value by at most half a unit of the last place. -/
theorem roundHalfEven_le (p shift : Nat) :
    2 * (roundHalfEven p shift * 2 ^ shift) ≤ 2 * p + 2 ^ shift := by
  have hdiv : 2 ^ shift * (p / 2 ^ shift) + p % 2 ^ shift = p := Nat.div_add_mod p (2 ^ shift)
  have hcomm : p / 2 ^ shift * 2 ^ shift = 2 ^ shift * (p / 2 ^ shift) := Nat.mul_comm _ _
  unfold roundHalfEven
  split
  · rw [hcomm]
    omega
  · split
    · rw [hcomm]
      omega
    · rw [Nat.add_mul, hcomm]
      omega

theorem roundToNumber_of_lt (p : Nat) (h : p < 2 ^ 53) : roundToNumber p = p := by
  have h0 : droppedBits p p = 0 := by
    cases p with
    | zero => rfl
    | succ p => rw [droppedBits, if_pos h]
  simp [roundToNumber, roundHalfEven, h0, Nat.mod_one]

theorem getRandomNumber_lt (u : Draw) (size : Nat) (hu : u.num < u.den)
    (hnum : u.num < 2 ^ 53) (hs : 0 < size) : getRandomNumber u size < size := by
  unfold getRandomNumber
  apply Nat.div_lt_of_lt_mul
  unfold Draw.den at hu
  have hone : (u.num + 1) * size ≤ 2 ^ u.exp * size := Nat.mul_le_mul_right _ hu
  rw [Nat.add_mul, Nat.one_mul] at hone
  rcases Nat.eq_zero_or_pos (droppedBits (u.num * size) (u.num * size)) with h0 | h0
  · have hr : roundToNumber (u.num * size) = u.num * size := by
      simp [roundToNumber, roundHalfEven, h0, Nat.mod_one]
    rw [hr]
    omega
  · have hlow := droppedBits_lower _ _ h0
    have hround := roundHalfEven_le (u.num * size) (droppedBits (u.num * size) (u.num * size))
    unfold roundToNumber
    generalize droppedBits (u.num * size) (u.num * size) = shift at h0 hlow hround ⊢
    obtain ⟨k, rfl⟩ : ∃ k, shift = k + 1 := ⟨shift - 1, by omega⟩
    have hsize : 2 ^ k < size := by
      by_contra hle
      have hle : size ≤ 2 ^ k := by omega
      have h1 : u.num * size < 2 ^ 53 * 2 ^ k :=
        Nat.mul_lt_mul_of_lt_of_le hnum hle (Nat.two_pow_pos k)
      rw [show 52 + (k + 1) = 53 + k from by omega, Nat.pow_add] at hlow
      omega
    rw [Nat.pow_succ] at hround ⊢
    omega

/-- The product is rounded, not truncated: `2573485501354569 / 2 ^ 52 * 7` lies half
a unit of the last place below 4 and rounds to 4, while a draw whose product with the
size fits 53 bits is floored exactly. -/
theorem getRandomNumber_rounds :
    getRandomNumber ⟨2573485501354569, 52⟩ 7 = 4 ∧
      2573485501354569 * 7 / 2 ^ 52 = 3 ∧ getRandomNumber ⟨3, 2⟩ 7 = 5 := by
  decide

theorem getMinesPositionsLoop_spec (boardSize numberOfMines : Nat) (Q : Nat → Prop) :
    ∀ (n : Nat) (draws : List Draw) (positions result : List Point), draws.length = n →
      (∀ u ∈ draws, Q (getRandomNumber u boardSize)) →
      positions.Nodup → (∀ p ∈ positions, Q p.x ∧ Q p.y) →
      positions.length ≤ numberOfMines →
      getMinesPositionsLoop boardSize numberOfMines draws positions = some result →
      result.length = numberOfMines ∧ result.Nodup ∧ ∀ p ∈ result, Q p.x ∧ Q p.y := by
  intro n
  induction n using Nat.strong_induction_on with
  | _ n ih =>
    intro draws positions result hn hdraws hnd hin hlen h
    by_cases hlt : positions.length < numberOfMines
    · match draws, hn, hdraws, h with
      | [], _, _, h => rw [getMinesPositionsLoop.eq_def, if_pos hlt] at h; cases h
      | [_], _, _, h => rw [getMinesPositionsLoop.eq_def, if_pos hlt] at h; cases h
      | ux :: uy :: rest, hn, hdraws, h =>
        rw [getMinesPositionsLoop.eq_def, if_pos hlt] at h
        simp only at h
        have hx := hdraws ux (by simp)
        have hy := hdraws uy (by simp)
        have hrest : ∀ u ∈ rest, Q (getRandomNumber u boardSize) :=
          fun u hu => hdraws u (by simp [hu])
        have hlen' : rest.length < n := by simp at hn; omega
        split at h
        · rename_i hnew
          have hnotin : (Point.mk (getRandomNumber ux boardSize)
              (getRandomNumber uy boardSize)) ∉ positions := by
            intro hmem
            have := (any_checkMatch_iff _ _).mpr hmem
            simp [this] at hnew
          refine ih rest.length hlen' rest _ result rfl hrest ?_ ?_ ?_ h
          · exact List.Nodup.append hnd (List.nodup_singleton _) (by simpa using hnotin)
          · intro p hp
            rcases List.mem_append.mp hp with hp | hp
            · exact hin p hp
            · simp only [List.mem_singleton] at hp
              subst hp
              exact ⟨hx, hy⟩
          · simp; omega
        · exact ih rest.length hlen' rest _ result rfl hrest hnd hin hlen h
    · have h' : getMinesPositionsLoop boardSize numberOfMines draws positions =
          some positions := by
        rw [getMinesPositionsLoop.eq_def, if_neg hlt]
      rw [h', Option.some.injEq] at h
      subst h
      exact ⟨by omega, hnd, hin⟩

/-- C7. Mine placement: when `NUMBER_OF_MINES ≤ BOARD_SIZE²` and every draw of
`Math.random()` is a Number in `[0, 1)` (a significand below `2 ^ 53` over a power of
two above it), a run of `getMinesPositions` that finishes returns exactly
`NUMBER_OF_MINES` positions, pairwise different, each with `x` and `y` below
`BOARD_SIZE`; the products `Math.random() * size` are rounded as Numbers are. -/
theorem getMinesPositions_spec (boardSize numberOfMines : Nat) (draws : List Draw)
    (result : List Point) (hcount : numberOfMines ≤ boardSize ^ 2)
    (hdraws : ∀ u ∈ draws, u.num < u.den ∧ u.num < 2 ^ 53)
    (h : getMinesPositions boardSize numberOfMines draws = some result) :
    result.length = numberOfMines ∧ result.Nodup ∧
      ∀ p ∈ result, p.x < boardSize ∧ p.y < boardSize := by
  rcases Nat.eq_zero_or_pos boardSize with h0 | h0
  · subst h0
    have hzero : numberOfMines = 0 := by simpa using hcount
    subst hzero
    have hres : result = [] := by
      simp [getMinesPositions, getMinesPositionsLoop.eq_def] at h
      exact h
    subst hres
    simp
  · exact getMinesPositionsLoop_spec boardSize numberOfMines (fun c => c < boardSize)
      draws.length draws [] result rfl
      (fun u hu => getRandomNumber_lt u boardSize (hdraws u hu).1 (hdraws u hu).2 h0)
      List.nodup_nil (by simp) (Nat.zero_le _) h

/-- C7 at a concrete run: two mines on a 7×7 board.  The first draw is
`2573485501354569 / 2 ^ 52`, whose product with 7 rounds up to 4; the second pair of
draws is rejected as a duplicate. -/
theorem getMinesPositions_spec_witness :
    ([⟨4, 0⟩, ⟨3, 5⟩] : List Point).length = 2 ∧
      ([⟨4, 0⟩, ⟨3, 5⟩] : List Point).Nodup ∧
      ∀ p ∈ ([⟨4, 0⟩, ⟨3, 5⟩] : List Point), p.x < 7 ∧ p.y < 7 :=
  getMinesPositions_spec 7 2
    [⟨2573485501354569, 52⟩, ⟨0, 0⟩, ⟨2573485501354569, 52⟩, ⟨0, 0⟩, ⟨1, 1⟩, ⟨3, 2⟩]
    [⟨4, 0⟩, ⟨3, 5⟩] (by decide) (by decide) (by decide)

theorem flatten_initializeBoard (boardSize : Nat) (mines : List Point) :
    (initializeBoard boardSize mines).flatten =
      ((List.range boardSize).flatMap fun y =>
        (List.range boardSize).map fun x => Point.mk x y).map fun p =>
          { x := p.x, y := p.y, mine := mines.any (checkMatch p), status := HIDDEN,
            mineCount := none, disabled := false } := by
  simp [initializeBoard, List.map_flatMap, List.flatMap_def, Function.comp_def]


theorem nodup_positions (n : Nat) :
    ((List.range n).flatMap fun y => (List.range n).map fun x => Point.mk x y).Nodup := by
  rw [List.nodup_flatMap]
  refine ⟨fun y _ => ?_, ?_⟩
  · refine (List.nodup_range n).map ?_
    intro a b h
    simpa using h
  · refine (List.nodup_range n).pairwise_of_forall_ne ?_
    intro a _ b _ hab
    simp only [Function.onFun, List.disjoint_left, List.mem_map, List.mem_range, not_exists,
      not_and, forall_exists_index, and_imp]
    intro p x _ hx y _ hy
    rw [← hx] at hy
    injection hy with _ h2
    exact hab h2.symm

theorem mem_positions (n : Nat) (p : Point) :
    p ∈ ((List.range n).flatMap fun y => (List.range n).map fun x => Point.mk x y) ↔
      p.x < n ∧ p.y < n := by
  obtain ⟨px, py⟩ := p
  simp only [List.mem_flatMap, List.mem_range, List.mem_map, Point.mk.injEq]
  constructor
  · rintro ⟨y, hy, x, hx, rfl, rfl⟩
    exact ⟨hx, hy⟩
  · rintro ⟨hx, hy⟩
    exact ⟨py, hy, px, hx, rfl, rfl⟩

/-- The number of mine tiles of a fresh board is the number of mine positions, when
these are pairwise different and lie on the board. -/
theorem count_mines_initializeBoard (boardSize : Nat) (mines : List Point)
    (hnd : mines.Nodup) (hin : ∀ p ∈ mines, p.x < boardSize ∧ p.y < boardSize) :
    ((initializeBoard boardSize mines).flatten.filter fun tile => tile.mine).length =
      mines.length := by
  rw [flatten_initializeBoard, List.filter_map, List.length_map]
  apply List.Perm.length_eq
  rw [List.perm_ext_iff_of_nodup ((nodup_positions boardSize).filter _) hnd]
  intro p
  simp only [List.mem_filter, mem_positions, Function.comp_apply, any_checkMatch_iff]
  constructor
  · exact fun h => h.2
  · exact fun h => ⟨hin p h, h⟩

/-- C8. Board construction: `initializeBoard` returns `BOARD_SIZE` rows of `BOARD_SIZE`
tiles, the tile at `board[y][x]` carries the coordinates `(x, y)`, every tile is
"hidden", a tile is a mine exactly when its `(x, y)` occurs in the mine list, and the
board has as many mine tiles as the list has positions when these are pairwise
different and on the board. -/
theorem initializeBoard_spec (boardSize : Nat) (mines : List Point) :
    (initializeBoard boardSize mines).length = boardSize ∧
    (∀ column ∈ initializeBoard boardSize mines, column.length = boardSize) ∧
    (∀ x y, x < boardSize → y < boardSize →
      ∃ column tile, (initializeBoard boardSize mines)[y]? = some column ∧
        column[x]? = some tile ∧ tile.x = x ∧ tile.y = y ∧ tile.status = HIDDEN ∧
        (tile.mine = true ↔ Point.mk x y ∈ mines)) ∧
    (∀ tile ∈ (initializeBoard boardSize mines).flatten, tile.status = HIDDEN) ∧
    (mines.Nodup → (∀ p ∈ mines, p.x < boardSize ∧ p.y < boardSize) →
      ((initializeBoard boardSize mines).flatten.filter fun tile => tile.mine).length =
        mines.length) := by
  refine ⟨by simp [initializeBoard], ?_, ?_, ?_, count_mines_initializeBoard boardSize mines⟩
  · intro column hc
    simp only [initializeBoard, List.mem_map, List.mem_range] at hc
    obtain ⟨y, _, rfl⟩ := hc
    simp
  · intro x y hx hy
    refine ⟨(List.range boardSize).map fun x =>
        (⟨x, y, mines.any (checkMatch ⟨x, y⟩), HIDDEN, none, false⟩ : Tile),
      (⟨x, y, mines.any (checkMatch ⟨x, y⟩), HIDDEN, none, false⟩ : Tile), ?_, ?_, rfl, rfl,
      rfl, any_checkMatch_iff _ _⟩
    · simp only [initializeBoard, List.getElem?_map, List.getElem?_range hy, Option.map_some']
    · simp only [List.getElem?_map, List.getElem?_range hx, Option.map_some']
  · intro tile ht
    rw [flatten_initializeBoard] at ht
    obtain ⟨p, _, rfl⟩ := List.mem_map.mp ht
    rfl

/-- C8 at a concrete input: a 2×2 board with the mines `(1, 0)` and `(0, 1)`. -/
theorem initializeBoard_spec_witness :
    (∃ column tile, (initializeBoard 2 [⟨1, 0⟩, ⟨0, 1⟩])[0]? = some column ∧
        column[1]? = some tile ∧ tile.x = 1 ∧ tile.y = 0 ∧ tile.status = HIDDEN ∧
        (tile.mine = true ↔ Point.mk 1 0 ∈ ([⟨1, 0⟩, ⟨0, 1⟩] : List Point))) ∧
      ((initializeBoard 2 [⟨1, 0⟩, ⟨0, 1⟩]).flatten.filter fun tile => tile.mine).length = 2 :=
  ⟨(initializeBoard_spec 2 [⟨1, 0⟩, ⟨0, 1⟩]).2.2.1 1 0 (by decide) (by decide),
    (initializeBoard_spec 2 [⟨1, 0⟩, ⟨0, 1⟩]).2.2.2.2 (by decide) (by decide)⟩

end Minesweeper

namespace Minesweeper

open TileStatus

/-! ## Counting tiles -/

theorem countP_modifyAt {α : Type} (p : α → Bool) (f : α → α) (n : Nat) (l : List α) (a : α)
    (h : l[n]? = some a) :
    (modifyAt f n l).countP p + (if p a then 1 else 0) =
      l.countP p + (if p (f a) then 1 else 0) := by
  induction l generalizing n with
  | nil => simp at h
  | cons b l ih =>
    cases n with
    | zero =>
      simp only [List.getElem?_cons_zero, Option.some.injEq] at h
      subst h
      simp only [modifyAt, List.countP_cons]
      omega
    | succ n =>
      simp only [List.getElem?_cons_succ] at h
      have := ih n h
      simp only [modifyAt, List.countP_cons]
      omega

theorem countP_flatten_modifyAt {α : Type} (p : α → Bool) (g : List α → List α) (n : Nat)
    (b : List (List α)) (column : List α) (h : b[n]? = some column) (d e : Nat)
    (hg : (g column).countP p + d = column.countP p + e) :
    (modifyAt g n b).flatten.countP p + d = b.flatten.countP p + e := by
  induction b generalizing n with
  | nil => simp at h
  | cons c b ih =>
    cases n with
    | zero =>
      simp only [List.getElem?_cons_zero, Option.some.injEq] at h
      subst h
      simp only [modifyAt, List.flatten_cons, List.countP_append]
      omega
    | succ n =>
      simp only [List.getElem?_cons_succ] at h
      have := ih n h
      simp only [modifyAt, List.flatten_cons, List.countP_append]
      omega

/-- How an assignment to one tile changes the number of tiles with a property. -/
theorem countP_modifyTile (p : Tile → Bool) (s : Minesweeper) (r : Ref) (f : Tile → Tile)
    (tile : Tile) (ht : tileAt s r = some tile) :
    (modifyTile s r f).board.flatten.countP p + (if p tile then 1 else 0) =
      s.board.flatten.countP p + (if p (f tile) then 1 else 0) := by
  unfold tileAt at ht
  cases hb : s.board[r.row]? with
  | none => simp [hb] at ht
  | some column =>
    simp only [hb] at ht
    exact countP_flatten_modifyAt p _ _ _ column hb _ _ (countP_modifyAt p f _ _ tile ht)

theorem countP_disableBoard (p : Tile → Bool) (s : Minesweeper)
    (hp : ∀ tile : Tile, p { tile with disabled := true } = p tile) :
    (disableBoard s).board.flatten.countP p = s.board.flatten.countP p := by
  simp only [disableBoard, ← List.map_flatten, List.countP_map]
  congr 1
  funext tile
  exact hp tile

theorem markedTilesCount_eq (s : Minesweeper) :
    markedTilesCount s = s.board.flatten.countP fun tile => tile.status == MARKED := by
  simp [markedTilesCount, List.countP_eq_length_filter]

theorem hiddenCount_eq (s : Minesweeper) :
    hiddenCount s = s.board.flatten.countP fun tile => tile.status == HIDDEN := by
  simp [hiddenCount, List.countP_eq_length_filter]

end Minesweeper

namespace Minesweeper

open TileStatus

/-! ## Flagging -/

theorem modifyTile_eq_self (s : Minesweeper) (r : Ref) (f : Tile → Tile)
    (h : ∀ tile, tileAt s r = some tile → f tile = tile) : modifyTile s r f = s := by
  unfold modifyTile
  have : modifyAt (modifyAt f r.col) r.row s.board = s.board := by
    apply modifyAt_id_of
    intro column hc
    apply modifyAt_id_of
    intro tile htile
    exact h tile (by simp [tileAt, hc, htile])
  rw [this]

theorem modifyTile_modifyTile (s : Minesweeper) (r : Ref) (f g : Tile → Tile) :
    modifyTile (modifyTile s r f) r g = modifyTile s r (g ∘ f) := by
  simp only [modifyTile, modifyAt_modifyAt]
  congr 2
  funext column
  simp [modifyAt_modifyAt]

theorem markedTilesCount_modifyTile (s : Minesweeper) (r : Ref) (f : Tile → Tile)
    (h : ∀ tile, tileAt s r = some tile → ((f tile).status = MARKED ↔ tile.status = MARKED)) :
    markedTilesCount (modifyTile s r f) = markedTilesCount s := by
  cases ht : tileAt s r with
  | none => rw [modifyTile_eq_self s r f (by simp [ht])]
  | some tile =>
    have hc := countP_modifyTile (fun tile => tile.status == MARKED) s r f tile ht
    rw [markedTilesCount_eq, markedTilesCount_eq]
    have := h tile ht
    by_cases hm : tile.status = MARKED
    · simp only [beq_iff_eq, hm, this.mpr hm, if_true] at hc
      omega
    · have hm' : ¬ (f tile).status = MARKED := fun h' => hm (this.mp h')
      simp only [beq_iff_eq, hm, hm', if_false] at hc
      omega

theorem markedTilesCount_disableBoard (s : Minesweeper) :
    markedTilesCount (disableBoard s) = markedTilesCount s := by
  rw [markedTilesCount_eq, markedTilesCount_eq]
  exact countP_disableBoard _ s (fun _ => rfl)

theorem markTile_hidden (s : Minesweeper) (r : Ref) (tile : Tile)
    (ht : tileAt s r = some tile) (hh : tile.status = HIDDEN) :
    markTile s r = some (updateMinesLeft (setStatus s r MARKED)) := by
  simp [markTile, ht, hh]

theorem markTile_marked (s : Minesweeper) (r : Ref) (tile : Tile)
    (ht : tileAt s r = some tile) (hh : tile.status = MARKED) :
    markTile s r = some (updateMinesLeft (setStatus s r HIDDEN)) := by
  simp [markTile, ht, hh]

theorem markTile_other (s : Minesweeper) (r : Ref) (tile : Tile)
    (ht : tileAt s r = some tile) (hh : tile.status = NUMBER ∨ tile.status = MINE) :
    markTile s r = some s := by
  rcases hh with hh | hh <;> simp [markTile, ht, hh]

/-- C9. Flag toggle and its frame: `markTile` turns a "hidden" tile into "marked" (one
more marked tile) and a "marked" tile into "hidden" (one fewer), and then writes
"Mines left: n" with `n = NUMBER_OF_MINES` minus the number of marked tiles after
the toggle; on a "number" or "mine" tile it changes nothing at all.  Every other
tile is untouched and no tile's mine flag changes. -/
theorem markTile_spec (s : Minesweeper) (r : Ref) (tile : Tile)
    (ht : tileAt s r = some tile) :
    ∃ s1, markTile s r = some s1 ∧
      (tile.status = HIDDEN →
        tileAt s1 r = some { tile with status := MARKED } ∧
        markedTilesCount s1 = markedTilesCount s + 1 ∧
        s1.subtitle = "Mines left: " ++
          toString ((s.NUMBER_OF_MINES : Int) - (markedTilesCount s1 : Int))) ∧
      (tile.status = MARKED →
        tileAt s1 r = some { tile with status := HIDDEN } ∧
        markedTilesCount s1 + 1 = markedTilesCount s ∧
        s1.subtitle = "Mines left: " ++
          toString ((s.NUMBER_OF_MINES : Int) - (markedTilesCount s1 : Int))) ∧
      (tile.status = NUMBER ∨ tile.status = MINE → s1 = s) ∧
      (∀ q, q ≠ r → tileAt s1 q = tileAt s q) ∧
      (∀ q, (tileAt s1 q).map (fun t => t.mine) = (tileAt s q).map (fun t => t.mine)) := by
  have hframe : ∀ st, (∀ q, q ≠ r →
      tileAt (updateMinesLeft (setStatus s r st)) q = tileAt s q) ∧
      (∀ q, (tileAt (updateMinesLeft (setStatus s r st)) q).map (fun t => t.mine) =
        (tileAt s q).map (fun t => t.mine)) := by
    intro st
    refine ⟨fun q hq => ?_, fun q => ?_⟩
    · rw [tileAt_updateMinesLeft, tileAt_setStatus, if_neg hq]
    · rw [tileAt_updateMinesLeft, tileAt_setStatus]
      by_cases hq : q = r
      · rw [if_pos hq]
        cases tileAt s q <;> rfl
      · rw [if_neg hq]
  have hcount : ∀ st, (setStatus s r st).board.flatten.countP (fun t => t.status == MARKED) +
      (if tile.status = MARKED then 1 else 0) =
      s.board.flatten.countP (fun t => t.status == MARKED) +
        (if st = MARKED then 1 else 0) := by
    intro st
    simpa using countP_modifyTile (fun t => t.status == MARKED) s r
      (fun t => { t with status := st }) tile ht
  cases hst : tile.status with
  | HIDDEN =>
    refine ⟨_, markTile_hidden s r tile ht hst, fun _ => ⟨?_, ?_, rfl⟩, ?_, ?_, hframe MARKED⟩
    · rw [tileAt_updateMinesLeft, tileAt_setStatus, if_pos rfl, ht]
      rfl
    · have := hcount MARKED
      simp only [hst, if_true] at this
      simp only [markedTilesCount_eq]
      simpa using this
    · intro h; cases h
    · intro h; rcases h with h | h <;> cases h
  | MARKED =>
    refine ⟨_, markTile_marked s r tile ht hst, ?_, fun _ => ⟨?_, ?_, rfl⟩, ?_, hframe HIDDEN⟩
    · intro h; cases h
    · rw [tileAt_updateMinesLeft, tileAt_setStatus, if_pos rfl, ht]
      rfl
    · have := hcount HIDDEN
      simp only [hst, if_true] at this
      simp only [markedTilesCount_eq]
      simpa using this
    · intro h; rcases h with h | h <;> cases h
  | NUMBER =>
    refine ⟨s, markTile_other s r tile ht (Or.inl hst), ?_, ?_, fun _ => rfl,
      fun _ _ => rfl, fun _ => rfl⟩ <;> intro h <;> cases h
  | MINE =>
    refine ⟨s, markTile_other s r tile ht (Or.inr hst), ?_, ?_, fun _ => rfl,
      fun _ _ => rfl, fun _ => rfl⟩ <;> intro h <;> cases h

/-- C9 at a concrete input: flagging the hidden tile `board[0][1]` of a fresh 2×2 board
with one mine. -/
theorem markTile_spec_witness :
    tileAt (initializeFrom 2 1 [⟨0, 0⟩]) ⟨0, 1⟩ = some ⟨1, 0, false, HIDDEN, none, false⟩ ∧
      ∃ s1, markTile (initializeFrom 2 1 [⟨0, 0⟩]) ⟨0, 1⟩ = some s1 ∧
        tileAt s1 ⟨0, 1⟩ = some ⟨1, 0, false, MARKED, none, false⟩ ∧
        markedTilesCount s1 = markedTilesCount (initializeFrom 2 1 [⟨0, 0⟩]) + 1 :=
  ⟨by decide,
    (markTile_spec (initializeFrom 2 1 [⟨0, 0⟩]) ⟨0, 1⟩ ⟨1, 0, false, HIDDEN, none, false⟩
      (by decide)).imp fun _ h => ⟨h.1, (h.2.1 rfl).1, (h.2.1 rfl).2.1⟩⟩

/-! ## The status line between evaluations -/

theorem win_false_of_hidden (s : Minesweeper) (r : Ref) (tile : Tile)
    (ht : tileAt s r = some tile) (hh : tile.status = HIDDEN) (hm : tile.mine = false) :
    win s = false := by
  cases hw : win s with
  | false => rfl
  | true =>
    rcases (win_iff s).mp hw r tile ht with h | h
    · rw [hh] at h; cases h
    · rw [hm] at h; cases h.1

theorem lose_setStatus_mine (s : Minesweeper) (r : Ref) (tile : Tile)
    (ht : tileAt s r = some tile) : lose (setStatus s r MINE) = true := by
  rw [lose_iff]
  exact ⟨r, { tile with status := MINE }, by rw [tileAt_setStatus, if_pos rfl, ht]; rfl, rfl⟩

theorem lose_modifyTile (s : Minesweeper) (r : Ref) (f : Tile → Tile)
    (hf : ∀ tile, tileAt s r = some tile → tile.status = MINE → (f tile).status = MINE)
    (hl : lose s = true) : lose (modifyTile s r f) = true := by
  rw [lose_iff] at hl ⊢
  obtain ⟨q, tile, hq, hst⟩ := hl
  by_cases hqr : q = r
  · subst hqr
    exact ⟨q, f tile, by rw [tileAt_modifyTile, if_pos rfl, hq]; rfl, hf tile hq hst⟩
  · exact ⟨q, tile, by rw [tileAt_modifyTile, if_neg hqr, hq], hst⟩

theorem win_disableBoard (s : Minesweeper) : win (disableBoard s) = win s := by
  simp only [win, disableBoard, ← List.map_flatten, List.all_map]
  rfl

theorem lose_disableBoard (s : Minesweeper) : lose (disableBoard s) = lose s := by
  simp only [lose, disableBoard, ← List.map_flatten, List.any_map]
  rfl

/-- Between evaluations the status line is the "Mines left" text of the present board,
unless the board is won or lost. -/
theorem statusLine_revealTile (fuel : Nat) (s s1 : Minesweeper) (r : Ref)
    (hs : s.subtitle = minesLeftText s ∨ win s = true ∨ lose s = true)
    (h : revealTile fuel s r = some s1) :
    s1.subtitle = minesLeftText s1 ∨ win s1 = true ∨ lose s1 = true := by
  refine revealTile_preserves
    (fun s => s.subtitle = minesLeftText s ∨ win s = true ∨ lose s = true)
    ?_ ?_ ?_ ?_ ?_ ?_ fuel s r s1 hs h
  · intro s r tile _ ht _ _
    exact Or.inr (Or.inr (lose_setStatus_mine s r tile ht))
  · intro s r tile hs ht hh hm
    rcases hs with hs | hs | hs
    · left
      show s.subtitle = _
      rw [hs]
      simp only [minesLeftText, setStatus]
      rw [markedTilesCount_modifyTile]
      · rfl
      · intro tile1 ht1
        rw [ht] at ht1
        cases ht1
        simp [hh]
    · rw [win_false_of_hidden s r tile ht hh hm] at hs
      cases hs
    · exact Or.inr (Or.inr (lose_modifyTile s r _ (fun t ht1 hst => by
        rw [ht] at ht1; cases ht1; rw [hh] at hst; cases hst) hs))
  · intro s r k hs
    rcases hs with hs | hs | hs
    · left
      show s.subtitle = _
      rw [hs]
      simp only [minesLeftText, setMineCount]
      rw [markedTilesCount_modifyTile]
      · rfl
      · intro _ _
        rfl
    · right; left
      rw [win_iff] at hs ⊢
      intro q tile hq
      rw [tileAt_setMineCount] at hq
      by_cases hqr : q = r
      · rw [if_pos hqr] at hq
        cases hq0 : tileAt s q with
        | none => simp [hq0] at hq
        | some t0 =>
          simp only [hq0, Option.map_some', Option.some.injEq] at hq
          subst hq
          exact hs q t0 hq0
      · rw [if_neg hqr] at hq
        exact hs q tile hq
    · exact Or.inr (Or.inr (lose_modifyTile s r _ (fun _ _ hst => hst) hs))
  · intro s _ hw
    right; left
    rw [win_disableBoard]
    exact hw
  · intro s _ _ hl
    exact Or.inr (Or.inr hl)
  · intro s hs
    rcases hs with hs | hs | hs
    · left
      show s.subtitle = _
      rw [hs]
      simp only [minesLeftText, markedTilesCount_disableBoard]
      rfl
    · right; left
      rw [win_disableBoard]
      exact hs
    · right; right
      rw [lose_disableBoard]
      exact hs

theorem statusLine_reachable (s : Minesweeper) (hr : Reachable s) :
    s.subtitle = minesLeftText s ∨ win s = true ∨ lose s = true := by
  induction hr with
  | init boardSize numberOfMines draws s _ h =>
    left
    simp only [initializeMinesweeper, Option.map_eq_some'] at h
    obtain ⟨mines, _, rfl⟩ := h
    rfl
  | reveal fuel s s1 r _ h ih => exact statusLine_revealTile fuel s s1 r ih h
  | mark s s1 r _ h ih =>
    cases ht : tileAt s r with
    | none => simp [markTile, ht] at h
    | some tile =>
      cases hst : tile.status with
      | HIDDEN =>
        rw [markTile_hidden s r tile ht hst, Option.some.injEq] at h
        subst h
        exact Or.inl rfl
      | MARKED =>
        rw [markTile_marked s r tile ht hst, Option.some.injEq] at h
        subst h
        exact Or.inl rfl
      | NUMBER =>
        rw [markTile_other s r tile ht (Or.inl hst), Option.some.injEq] at h
        exact h ▸ ih
      | MINE =>
        rw [markTile_other s r tile ht (Or.inr hst), Option.some.injEq] at h
        exact h ▸ ih

/-- C10. Flagging is an involution: on a reachable board that is neither won nor lost,
`markTile` on a hidden tile makes it "marked", and a second `markTile` on the same
tile gives back exactly the state before the two calls, the status line included. -/
theorem markTile_markTile (s : Minesweeper) (r : Ref) (tile : Tile) (hr : Reachable s)
    (hw : win s = false) (hl : lose s = false) (ht : tileAt s r = some tile)
    (hh : tile.status = HIDDEN) :
    ∃ s1, markTile s r = some s1 ∧ tileAt s1 r = some { tile with status := MARKED } ∧
      markTile s1 r = some s := by
  have h1 : tileAt (updateMinesLeft (setStatus s r MARKED)) r =
      some { tile with status := MARKED } := by
    rw [tileAt_updateMinesLeft, tileAt_setStatus, if_pos rfl, ht]
    rfl
  refine ⟨_, markTile_hidden s r tile ht hh, h1, ?_⟩
  rw [markTile_marked _ r _ h1 rfl]
  have hboard : setStatus (updateMinesLeft (setStatus s r MARKED)) r HIDDEN =
      { s with subtitle := minesLeftText (setStatus s r MARKED) } := by
    have : setStatus (setStatus s r MARKED) r HIDDEN = s := by
      unfold setStatus
      rw [modifyTile_modifyTile]
      apply modifyTile_eq_self
      intro t hts
      rw [ht] at hts
      cases hts
      cases tile
      simp only at hh
      simp [hh]
    show { setStatus (setStatus s r MARKED) r HIDDEN with
      subtitle := minesLeftText (setStatus s r MARKED) } = _
    rw [this]
  rw [hboard]
  have hsub : s.subtitle = minesLeftText s := by
    rcases statusLine_reachable s hr with h | h | h
    · exact h
    · rw [hw] at h; cases h
    · rw [hl] at h; cases h
  show some (updateMinesLeft s) = some s
  unfold updateMinesLeft
  rw [← hsub]

/-- C10 at a concrete input: the hidden tile `board[0][1]` of a fresh 2×2 board whose
mine was drawn at `(0, 0)`. -/
theorem markTile_markTile_witness :
    ∃ s1, markTile (initializeFrom 2 1 [⟨0, 0⟩]) ⟨0, 1⟩ = some s1 ∧
      tileAt s1 ⟨0, 1⟩ = some ⟨1, 0, false, MARKED, none, false⟩ ∧
      markTile s1 ⟨0, 1⟩ = some (initializeFrom 2 1 [⟨0, 0⟩]) :=
  markTile_markTile (initializeFrom 2 1 [⟨0, 0⟩]) ⟨0, 1⟩ ⟨1, 0, false, HIDDEN, none, false⟩
    (Reachable.init 2 1 [⟨0, 1⟩, ⟨0, 1⟩] _ (by decide) (by decide)) (by decide) (by decide)
    (by decide) rfl

end Minesweeper

namespace Minesweeper

open TileStatus

/-! ## Fresh boards -/

/-- The board has at most as many mine tiles as positions were drawn. -/
theorem count_mines_initializeBoard_le (boardSize : Nat) (mines : List Point) :
    ((initializeBoard boardSize mines).flatten.filter fun tile => tile.mine).length ≤
      mines.length := by
  rw [flatten_initializeBoard, List.filter_map, List.length_map]
  apply List.Subperm.length_le
  apply List.subperm_of_subset ((nodup_positions boardSize).filter _)
  intro p hp
  simp only [List.mem_filter, Function.comp_apply, any_checkMatch_iff] at hp
  exact hp.2

theorem tileAt_initializeFrom (boardSize numberOfMines : Nat) (mines : List Point) (r : Ref) :
    tileAt (initializeFrom boardSize numberOfMines mines) r =
      if r.row < boardSize ∧ r.col < boardSize then
        some ⟨r.col, r.row, mines.any (checkMatch ⟨r.col, r.row⟩), HIDDEN, none, false⟩
      else none := by
  simp only [tileAt, initializeFrom, updateMinesLeft, initializeBoard, List.getElem?_map]
  by_cases hrow : r.row < boardSize
  · rw [List.getElem?_range hrow]
    simp only [Option.map_some', List.getElem?_map]
    by_cases hcol : r.col < boardSize
    · rw [List.getElem?_range hcol]
      simp [hrow, hcol]
    · rw [List.getElem?_eq_none (by simpa using hcol)]
      simp [hcol]
  · rw [List.getElem?_eq_none (by simpa using hrow)]
    simp [hrow]

theorem wellFormed_initializeFrom (boardSize numberOfMines : Nat) (mines : List Point) :
    WellFormed (initializeFrom boardSize numberOfMines mines) := by
  refine ⟨by simp [initializeFrom, updateMinesLeft, initializeBoard], ?_, ?_⟩
  · intro column hc
    simp only [initializeFrom, updateMinesLeft, initializeBoard, List.mem_map,
      List.mem_range] at hc
    obtain ⟨y, _, rfl⟩ := hc
    simp only [List.length_map, List.length_range]
    rfl
  · intro r _ tile ht
    rw [Option.mem_def, tileAt_initializeFrom] at ht
    split at ht
    · cases ht
      exact ⟨rfl, rfl⟩
    · cases ht

theorem wellFormed_coords (s : Minesweeper) (hwf : WellFormed s) (r : Ref) (tile : Tile)
    (ht : tileAt s r = some tile) : tile.x = r.col ∧ tile.y = r.row :=
  hwf.2.2 r ((mem_allRefs s r).mpr ⟨tile, ht⟩) tile ht

/-! ## The evaluation of a win -/

theorem noRevealedMine_revealTile (fuel : Nat) (s s1 : Minesweeper) (r : Ref)
    (hs : ∀ q tile, tileAt s q = some tile → tile.status = NUMBER → tile.mine = false)
    (h : revealTile fuel s r = some s1) :
    ∀ q tile, tileAt s1 q = some tile → tile.status = NUMBER → tile.mine = false := by
  have hmod : ∀ (s : Minesweeper) (r : Ref) (f : Tile → Tile),
      (∀ tile, tileAt s r = some tile → (f tile).status = NUMBER → (f tile).mine = false) →
      (∀ q tile, tileAt s q = some tile → tile.status = NUMBER → tile.mine = false) →
      ∀ q tile, tileAt (modifyTile s r f) q = some tile → tile.status = NUMBER →
        tile.mine = false := by
    intro s r f hf hs q tile hq
    rw [tileAt_modifyTile] at hq
    by_cases hqr : q = r
    · rw [if_pos hqr] at hq
      cases hq0 : tileAt s q with
      | none => simp [hq0] at hq
      | some t0 =>
        simp only [hq0, Option.map_some', Option.some.injEq] at hq
        subst hq
        exact hf t0 (hqr ▸ hq0)
    · rw [if_neg hqr] at hq
      exact hs q tile hq
  have hdis : ∀ s : Minesweeper,
      (∀ q tile, tileAt s q = some tile → tile.status = NUMBER → tile.mine = false) →
      ∀ q tile, tileAt (disableBoard s) q = some tile → tile.status = NUMBER →
        tile.mine = false := by
    intro s hs q tile hq
    rw [tileAt_disableBoard] at hq
    cases hq0 : tileAt s q with
    | none => simp [hq0] at hq
    | some t0 =>
      simp only [hq0, Option.map_some', Option.some.injEq] at hq
      subst hq
      exact hs q t0 hq0
  refine revealTile_preserves
    (fun s => ∀ q tile, tileAt s q = some tile → tile.status = NUMBER → tile.mine = false)
    ?_ ?_ ?_ ?_ ?_ ?_ fuel s r s1 hs h
  · intro s r tile hs _ _ _
    exact hmod s r _ (fun _ _ hst => by cases hst) hs
  · intro s r tile hs ht _ hm
    exact hmod s r _ (fun t ht1 _ => by rw [ht] at ht1; cases ht1; exact hm) hs
  · intro s r k hs
    exact hmod s r _ (fun t ht1 hst => hs r t ht1 hst) hs
  · intro s hs _
    exact hdis _ hs
  · intro s hs _ _
    exact hs
  · exact hdis

theorem noRevealedMine_reachable (s : Minesweeper) (hr : Reachable s) :
    ∀ q tile, tileAt s q = some tile → tile.status = NUMBER → tile.mine = false := by
  induction hr with
  | init boardSize numberOfMines draws s _ h =>
    simp only [initializeMinesweeper, Option.map_eq_some'] at h
    obtain ⟨mines, _, rfl⟩ := h
    intro q tile hq hst
    rw [tileAt_initializeFrom] at hq
    split at hq
    · cases hq
      cases hst
    · cases hq
  | reveal fuel s s1 r _ h ih => exact noRevealedMine_revealTile fuel s s1 r ih h
  | mark s s1 r _ h ih =>
    cases ht : tileAt s r with
    | none => simp [markTile, ht] at h
    | some tile =>
      have hset : ∀ st, st ≠ NUMBER → ∀ q t, tileAt (updateMinesLeft (setStatus s r st)) q =
          some t → t.status = NUMBER → t.mine = false := by
        intro st hst q t hq hnum
        rw [tileAt_updateMinesLeft, tileAt_setStatus] at hq
        by_cases hqr : q = r
        · rw [if_pos hqr] at hq
          cases hq0 : tileAt s q with
          | none => simp [hq0] at hq
          | some t0 =>
            simp only [hq0, Option.map_some', Option.some.injEq] at hq
            subst hq
            exact absurd hnum hst
        · rw [if_neg hqr] at hq
          exact ih q t hq hnum
      cases hst : tile.status with
      | HIDDEN =>
        rw [markTile_hidden s r tile ht hst, Option.some.injEq] at h
        subst h
        exact hset MARKED (by decide)
      | MARKED =>
        rw [markTile_marked s r tile ht hst, Option.some.injEq] at h
        subst h
        exact hset HIDDEN (by decide)
      | NUMBER =>
        rw [markTile_other s r tile ht (Or.inl hst), Option.some.injEq] at h
        exact h ▸ ih
      | MINE =>
        rw [markTile_other s r tile ht (Or.inr hst), Option.some.injEq] at h
        exact h ▸ ih

theorem allDisabled_disableBoard (s : Minesweeper) : AllDisabled (disableBoard s) := by
  intro q tile hq
  rw [tileAt_disableBoard] at hq
  cases hq0 : tileAt s q with
  | none => simp [hq0] at hq
  | some t0 =>
    simp only [hq0, Option.map_some', Option.some.injEq] at hq
    subst hq
    rfl

/-- A board that shows "You Lose!" and has an exploded mine keeps both through a call
of `revealTile` on a mine. -/
theorem revealTile_mine_keeps_lost (fuel : Nat) :
    ∀ s r s1, s.subtitle = "You Lose!" ∧ lose s = true →
      isMine s r = true → revealTile fuel s r = some s1 →
      s1.subtitle = "You Lose!" ∧ lose s1 = true := by
  refine revealTile_mine_preserves
    (fun s => s.subtitle = "You Lose!" ∧ lose s = true) ?_ ?_ ?_ ?_ fuel
  · intro s r tile hs ht _ _
    exact ⟨hs.1, lose_setStatus_mine s r tile ht⟩
  · intro s hs hw
    exfalso
    obtain ⟨q, tile, hq, hst⟩ := (lose_iff s).mp hs.2
    rcases (win_iff s).mp hw q tile hq with h | h
    · rw [hst] at h; cases h
    · rw [hst] at h; rcases h.2 with h | h <;> cases h
  · intro s hs _ _
    exact ⟨rfl, hs.2⟩
  · intro s hs
    exact ⟨hs.1, by rw [lose_disableBoard]; exact hs.2⟩

/-- C3. Win evaluation on a reachable board: the test `win` of `checkGameStatus` holds
exactly when every tile is a revealed non-mine or a mine that is hidden or flagged;
when it holds, `checkGameStatus` writes "You Win!" and disables every tile (no status
changes); when it fails, `checkGameStatus` leaves the state as it is or writes
"You Lose!". -/
theorem checkGameStatus_win_iff (s : Minesweeper) (hr : Reachable s) :
    (win s = true ↔ SpecWon s) ∧
    (win s = true → ∀ fuel, ∃ s1, checkGameStatus fuel s = some s1 ∧
      s1.subtitle = "You Win!" ∧ AllDisabled s1 ∧
      ∀ q, (tileAt s1 q).map (fun t => t.status) = (tileAt s q).map (fun t => t.status)) ∧
    (win s = false → ∀ fuel s1, checkGameStatus fuel s = some s1 →
      s1 = s ∨ s1.subtitle = "You Lose!") := by
  refine ⟨?_, ?_, ?_⟩
  · rw [win_iff]
    constructor
    · intro h q tile hq
      rcases h q tile hq with hn | ⟨hm, hst⟩
      · exact Or.inl ⟨hn, noRevealedMine_reachable s hr q tile hq hn⟩
      · exact Or.inr ⟨hm, hst.symm⟩
    · intro h q tile hq
      rcases h q tile hq with ⟨hn, _⟩ | ⟨hm, hst⟩
      · exact Or.inl hn
      · exact Or.inr ⟨hm, hst.symm⟩
  · intro hw fuel
    refine ⟨_, checkGameStatusWith_win _ s hw, rfl, allDisabled_disableBoard _, ?_⟩
    intro q
    rw [tileAt_disableBoard, tileAt_subtitle]
    cases tileAt s q <;> rfl
  · intro hw fuel s1 h
    cases hl : lose s with
    | true =>
      right
      unfold checkGameStatus at h
      rw [checkGameStatusWith_lose _ s hw hl, Option.map_eq_some'] at h
      obtain ⟨s2, h2, rfl⟩ := h
      exact (forEach_preserves (fun s => s.subtitle = "You Lose!" ∧ lose s = true) _ _
        (fun s x s1 _ => revealIfMine_preserves _ (revealTile fuel)
          (revealTile_mine_keeps_lost fuel) s x s1)
        { s with subtitle := "You Lose!" } s2 ⟨rfl, hl⟩ h2).1
    | false =>
      left
      unfold checkGameStatus at h
      rw [checkGameStatusWith_neither _ s hw hl, Option.some.injEq] at h
      exact h.symm

/-- C3 at a concrete input: the 3×3 board with its only mine at `board[2][2]`, after
`revealTile` on `board[0][0]` has uncovered the eight other tiles.  The board is
reachable, the test `win` holds, every tile is a revealed non-mine or the hidden mine,
and `checkGameStatus` writes "You Win!" and disables every tile. -/
theorem checkGameStatus_win_iff_witness :
    ∃ s, revealTile 10 (initializeFrom 3 1 [⟨2, 2⟩]) ⟨0, 0⟩ = some s ∧ Reachable s ∧
      win s = true ∧ statusAt s ⟨2, 2⟩ = some HIDDEN ∧ SpecWon s ∧
      ∃ s1, checkGameStatus 0 s = some s1 ∧ s1.subtitle = "You Win!" ∧ AllDisabled s1 ∧
        ∀ q, (tileAt s1 q).map (fun t => t.status) = (tileAt s q).map (fun t => t.status) := by
  have h : revealTile 10 (initializeFrom 3 1 [⟨2, 2⟩]) ⟨0, 0⟩ =
      some ⟨3, 1, [⟨2, 2⟩],
        [[⟨0, 0, false, NUMBER, none, true⟩, ⟨1, 0, false, NUMBER, none, true⟩,
            ⟨2, 0, false, NUMBER, none, true⟩],
          [⟨0, 1, false, NUMBER, none, true⟩, ⟨1, 1, false, NUMBER, some 1, true⟩,
            ⟨2, 1, false, NUMBER, some 1, true⟩],
          [⟨0, 2, false, NUMBER, none, true⟩, ⟨1, 2, false, NUMBER, some 1, true⟩,
            ⟨2, 2, true, HIDDEN, none, true⟩]],
        "You Win!"⟩ := by decide
  have hr := Reachable.reveal 10 _ _ ⟨0, 0⟩
    (Reachable.init 3 1 [⟨3, 2⟩, ⟨3, 2⟩] (initializeFrom 3 1 [⟨2, 2⟩]) (by decide) (by decide)) h
  exact ⟨_, h, hr, by decide, by decide,
    (checkGameStatus_win_iff _ hr).1.mp (by decide),
    (checkGameStatus_win_iff _ hr).2.1 (by decide) 0⟩

/-! ## The frozen board -/

theorem handle_allDisabled (fuel : Nat) (s : Minesweeper) (intent : Intent)
    (hd : AllDisabled s) (hv : (tileAt s intent.target).isSome = true) :
    handle fuel s intent = some s := by
  obtain ⟨tile, ht⟩ := Option.isSome_iff_exists.mp hv
  have := hd _ tile ht
  cases intent with
  | click r =>
    simp only [Intent.target] at ht
    simp [handle, handleClick, ht, this]
  | rightClick r =>
    simp only [Intent.target] at ht
    simp [handle, handleRightClick, ht, this]

theorem checkGameStatusWith_allDisabled (reveal : Minesweeper → Ref → Option Minesweeper)
    (s s1 : Minesweeper) (hwl : win s = true ∨ lose s = true)
    (h : checkGameStatusWith reveal s = some s1) : AllDisabled s1 := by
  cases hw : win s with
  | true =>
    rw [checkGameStatusWith_win _ s hw, Option.some.injEq] at h
    exact h ▸ allDisabled_disableBoard _
  | false =>
    have hl : lose s = true := by
      rcases hwl with h | h
      · rw [hw] at h; cases h
      · exact h
    rw [checkGameStatusWith_lose _ s hw hl, Option.map_eq_some'] at h
    obtain ⟨s2, _, rfl⟩ := h
    exact allDisabled_disableBoard _

/-- C6. Frozen board: after `checkGameStatus` has evaluated the board as won or lost,
every sequence of clicks and right clicks on tiles of the board leaves the whole
state (every field of every tile, and the status line) as it is. -/
theorem frozen_board (fuel fuel1 : Nat) (s s1 : Minesweeper) (intents : List Intent)
    (hwl : win s = true ∨ lose s = true) (h : checkGameStatus fuel s = some s1)
    (hv : ∀ i ∈ intents, (tileAt s1 i.target).isSome = true) :
    runIntents fuel1 s1 intents = some s1 := by
  have hd : AllDisabled s1 := checkGameStatusWith_allDisabled _ s s1 hwl h
  unfold runIntents
  induction intents with
  | nil => rfl
  | cons i rest ih =>
    rw [forEach_cons, handle_allDisabled fuel1 s1 i hd (hv i (List.mem_cons_self _ _))]
    exact ih (fun j hj => hv j (List.mem_cons_of_mem _ hj))

/-- C6 at a concrete input: a 2×2 board whose mine at `board[0][0]` has exploded; after
the evaluation a click and a right click change nothing. -/
theorem frozen_board_witness :
    runIntents 5
        (disableBoard { setStatus (initializeFrom 2 1 [⟨0, 0⟩]) ⟨0, 0⟩ MINE with
          subtitle := "You Lose!" })
        [Intent.click ⟨0, 1⟩, Intent.rightClick ⟨1, 1⟩] =
      some (disableBoard { setStatus (initializeFrom 2 1 [⟨0, 0⟩]) ⟨0, 0⟩ MINE with
        subtitle := "You Lose!" }) :=
  frozen_board 2 5 (setStatus (initializeFrom 2 1 [⟨0, 0⟩]) ⟨0, 0⟩ MINE) _ _
    (by decide) (by decide) (by decide)

/-! ## Neighbours -/

theorem nearByTileAt_eq (s : Minesweeper) (x y : Nat) (yOffset xOffset : Int) :
    nearByTileAt s x y yOffset xOffset =
      if 0 ≤ yOffset + (y : Int) ∧ 0 ≤ xOffset + (x : Int) then
        match tileAt s (Ref.mk (yOffset + (y : Int)).toNat (xOffset + (x : Int)).toNat) with
        | some _ => some (Ref.mk (yOffset + (y : Int)).toNat (xOffset + (x : Int)).toNat)
        | none => none
      else none := by
  unfold nearByTileAt index? tileAt
  by_cases hy : 0 ≤ yOffset + (y : Int)
  · simp only [hy, if_true, true_and]
    cases s.board[(yOffset + (y : Int)).toNat]? with
    | none => simp
    | some column =>
      by_cases hx : 0 ≤ xOffset + (x : Int)
      · simp only [hx, if_true]
        cases column[(xOffset + (x : Int)).toNat]? <;> rfl
      · simp only [hx, if_false]
  · simp only [hy, if_false, false_and]

/-- The result of `getNearByTiles`, offset by offset. -/
theorem getNearByTiles_eq (s : Minesweeper) (x y : Nat) :
    getNearByTiles s x y =
      ([(-1, -1), (-1, 0), (-1, 1), (0, -1), (0, 0), (0, 1), (1, -1), (1, 0), (1, 1)] :
          List (Int × Int)).filterMap fun d => nearByTileAt s x y d.1 d.2 := by
  have h9 : ([(-1, -1), (-1, 0), (-1, 1), (0, -1), (0, 0), (0, 1), (1, -1), (1, 0), (1, 1)] :
      List (Int × Int)) =
      [(-1, -1), (-1, 0), (-1, 1)] ++ ([(0, -1), (0, 0), (0, 1)] ++
        ([(1, -1), (1, 0), (1, 1)] ++ [])) := rfl
  rw [h9, List.filterMap_append, List.filterMap_append, List.filterMap_append]
  rfl

end Minesweeper

namespace Minesweeper

open TileStatus

theorem nearByTileAt_modifyTile (s : Minesweeper) (r : Ref) (f : Tile → Tile) (x y : Nat)
    (yOffset xOffset : Int) :
    nearByTileAt (modifyTile s r f) x y yOffset xOffset = nearByTileAt s x y yOffset xOffset := by
  rw [nearByTileAt_eq, nearByTileAt_eq]
  by_cases hc : 0 ≤ yOffset + (y : Int) ∧ 0 ≤ xOffset + (x : Int)
  · rw [if_pos hc, if_pos hc, tileAt_modifyTile]
    by_cases hq : Ref.mk (yOffset + (y : Int)).toNat (xOffset + (x : Int)).toNat = r
    · rw [if_pos hq]
      cases tileAt s _ <;> rfl
    · rw [if_neg hq]
  · rw [if_neg hc, if_neg hc]

theorem getNearByTiles_modifyTile (s : Minesweeper) (r : Ref) (f : Tile → Tile) (x y : Nat) :
    getNearByTiles (modifyTile s r f) x y = getNearByTiles s x y := by
  rw [getNearByTiles_eq, getNearByTiles_eq]
  congr 1
  funext d
  exact nearByTileAt_modifyTile s r f x y d.1 d.2

theorem isMine_modifyTile (s : Minesweeper) (r q : Ref) (f : Tile → Tile)
    (hf : ∀ tile, (f tile).mine = tile.mine) :
    isMine (modifyTile s r f) q = isMine s q := by
  unfold isMine
  rw [tileAt_modifyTile]
  by_cases hqr : q = r
  · rw [if_pos hqr]
    cases tileAt s q with
    | none => rfl
    | some t => exact hf t
  · rw [if_neg hqr]

theorem specNeighbours_eq (s : Minesweeper) (r : Ref) :
    specNeighbours s r =
      ([(-1, -1), (-1, 0), (-1, 1), (0, -1), (0, 1), (1, -1), (1, 0), (1, 1)] :
          List (Int × Int)).filterMap fun d => nearByTileAt s r.col r.row d.1 d.2 := by
  unfold specNeighbours
  congr 1
  funext d
  rw [nearByTileAt_eq]

/-- The tiles that `getNearByTiles` returns for a tile of the board are its eight
neighbours and, in the middle, the tile itself. -/
theorem getNearByTiles_split (s : Minesweeper) (r : Ref) (tile : Tile)
    (ht : tileAt s r = some tile) :
    ∃ before after, getNearByTiles s r.col r.row = before ++ r :: after ∧
      specNeighbours s r = before ++ after := by
  refine ⟨([(-1, -1), (-1, 0), (-1, 1), (0, -1)] : List (Int × Int)).filterMap
      (fun d => nearByTileAt s r.col r.row d.1 d.2),
    ([(0, 1), (1, -1), (1, 0), (1, 1)] : List (Int × Int)).filterMap
      (fun d => nearByTileAt s r.col r.row d.1 d.2), ?_, ?_⟩
  · have h9 : ([(-1, -1), (-1, 0), (-1, 1), (0, -1), (0, 0), (0, 1), (1, -1), (1, 0), (1, 1)] :
        List (Int × Int)) =
        [(-1, -1), (-1, 0), (-1, 1), (0, -1)] ++ ((0, 0) :: [(0, 1), (1, -1), (1, 0), (1, 1)]) :=
      rfl
    have hself : nearByTileAt s r.col r.row 0 0 = some r := by
      rw [nearByTileAt_eq]
      simp [ht]
    have hcons := @List.filterMap_cons_some _ _
      (fun d : Int × Int => nearByTileAt s r.col r.row d.1 d.2) (0, 0)
      [(0, 1), (1, -1), (1, 0), (1, 1)] r hself
    rw [getNearByTiles_eq, h9, List.filterMap_append, hcons]
  · have h8 : ([(-1, -1), (-1, 0), (-1, 1), (0, -1), (0, 1), (1, -1), (1, 0), (1, 1)] :
        List (Int × Int)) =
        [(-1, -1), (-1, 0), (-1, 1), (0, -1)] ++ [(0, 1), (1, -1), (1, 0), (1, 1)] := rfl
    rw [specNeighbours_eq, h8, List.filterMap_append]

theorem length_specNeighbours_le (s : Minesweeper) (r : Ref) :
    (specNeighbours s r).length ≤ 8 := by
  rw [specNeighbours_eq]
  exact List.length_filterMap_le _ _

/-- The mines that `revealTile` counts around a non-mine are the mines among its eight
neighbours. -/
theorem nearByMineTiles_length (s : Minesweeper) (r : Ref) (tile : Tile) (st : TileStatus)
    (hxy : tile.x = r.col ∧ tile.y = r.row) (ht : tileAt s r = some tile)
    (hm : tile.mine = false) :
    ((getNearByTiles (setStatus s r st) tile.x tile.y).filter
        (isMine (setStatus s r st))).length =
      (specNeighbours s r).countP (isMine s) := by
  obtain ⟨hx, hy⟩ := hxy
  have hfun : isMine (setStatus s r st) = isMine s := by
    funext q
    exact isMine_modifyTile s r q _ (fun _ => rfl)
  obtain ⟨before, after, h1, h2⟩ := getNearByTiles_split s r tile ht
  have hself : isMine s r = false := by simp [isMine, ht, hm]
  rw [hfun, hx, hy, setStatus, getNearByTiles_modifyTile, h1, h2, List.filter_append,
    List.filter_cons, hself, List.countP_eq_length_filter, List.filter_append]
  simp

theorem lose_modifyTile_false (s : Minesweeper) (r : Ref) (f : Tile → Tile)
    (hf : ∀ tile, tileAt s r = some tile → (f tile).status ≠ MINE)
    (hl : lose s = false) : lose (modifyTile s r f) = false := by
  cases h : lose (modifyTile s r f) with
  | false => rfl
  | true =>
    obtain ⟨q, tile, hq, hst⟩ := (lose_iff _).mp h
    rw [tileAt_modifyTile] at hq
    by_cases hqr : q = r
    · rw [if_pos hqr] at hq
      cases hq0 : tileAt s q with
      | none => simp [hq0] at hq
      | some t0 =>
        simp only [hq0, Option.map_some', Option.some.injEq] at hq
        subst hq
        exact absurd hst (hf t0 (hqr ▸ hq0))
    · rw [if_neg hqr] at hq
      have : lose s = true := (lose_iff s).mpr ⟨q, tile, hq, hst⟩
      rw [hl] at this
      cases this

/-- C2. Adjacent mine count: on a well-formed board without an exploded mine,
`revealTile` on a hidden non-mine with `k ≥ 1` mines among its (at most eight)
neighbours returns, makes the tile a "number" with `mineCount = k ≤ 8`, and changes
the status of no other tile. -/
theorem revealTile_adjacent_count (fuel : Nat) (s : Minesweeper) (r : Ref) (tile : Tile)
    (hwf : WellFormed s) (hl : lose s = false) (ht : tileAt s r = some tile)
    (hh : tile.status = HIDDEN) (hm : tile.mine = false)
    (hk : 1 ≤ (specNeighbours s r).countP (isMine s)) :
    (specNeighbours s r).countP (isMine s) ≤ 8 ∧
    ∃ s1, revealTile (fuel + 1) s r = some s1 ∧
      (∃ t1, tileAt s1 r = some t1 ∧ t1.status = NUMBER ∧
        t1.mineCount = some ((specNeighbours s r).countP (isMine s))) ∧
      ∀ q, q ≠ r →
        (tileAt s1 q).map (fun t => t.status) = (tileAt s q).map (fun t => t.status) := by
  refine ⟨Nat.le_trans (List.countP_le_length _) (length_specNeighbours_le s r), ?_⟩
  have hlen := nearByMineTiles_length s r tile NUMBER (wellFormed_coords s hwf r tile ht) ht hm
  have hz : ((getNearByTiles (setStatus s r NUMBER) tile.x tile.y).filter
      (isMine (setStatus s r NUMBER))).length ≠ 0 := by
    rw [hlen]; omega
  rw [revealTile_number fuel s r tile ht hh hm hz, hlen]
  generalize (specNeighbours s r).countP (isMine s) = k
  have hl2 : lose (setMineCount (setStatus s r NUMBER) r k) = false := by
    apply lose_modifyTile_false _ _ _ (fun t ht1 => ?_)
    · exact lose_modifyTile_false _ _ _ (fun _ _ => by simp) hl
    · rw [tileAt_setStatus, if_pos rfl, ht] at ht1
      cases ht1
      simp
  have ht2 : tileAt (setMineCount (setStatus s r NUMBER) r k) r =
      some { tile with status := NUMBER, mineCount := some k } := by
    rw [tileAt_setMineCount, if_pos rfl, tileAt_setStatus, if_pos rfl, ht]
    rfl
  have hq2 : ∀ q, q ≠ r → tileAt (setMineCount (setStatus s r NUMBER) r k) q = tileAt s q := by
    intro q hq
    rw [tileAt_setMineCount, if_neg hq, tileAt_setStatus, if_neg hq]
  cases hw : win (setMineCount (setStatus s r NUMBER) r k) with
  | true =>
    refine ⟨_, checkGameStatusWith_win _ _ hw, ?_, ?_⟩
    · exact ⟨_, by rw [tileAt_disableBoard, tileAt_subtitle, ht2]; rfl, rfl, rfl⟩
    · intro q hq
      rw [tileAt_disableBoard, tileAt_subtitle, hq2 q hq]
      cases tileAt s q <;> rfl
  | false =>
    refine ⟨_, checkGameStatusWith_neither _ _ hw hl2, ?_, ?_⟩
    · exact ⟨_, ht2, rfl, rfl⟩
    · intro q hq
      rw [hq2 q hq]

/-- C2 at a concrete input: on a fresh 2×2 board with a mine at `board[0][0]`, revealing
`board[0][1]` shows the count 1. -/
theorem revealTile_adjacent_count_witness :
    (specNeighbours (initializeFrom 2 1 [⟨0, 0⟩]) ⟨0, 1⟩).countP
        (isMine (initializeFrom 2 1 [⟨0, 0⟩])) ≤ 8 ∧
    ∃ s1, revealTile 1 (initializeFrom 2 1 [⟨0, 0⟩]) ⟨0, 1⟩ = some s1 ∧
      (∃ t1, tileAt s1 ⟨0, 1⟩ = some t1 ∧ t1.status = NUMBER ∧
        t1.mineCount = some ((specNeighbours (initializeFrom 2 1 [⟨0, 0⟩]) ⟨0, 1⟩).countP
          (isMine (initializeFrom 2 1 [⟨0, 0⟩])))) ∧
      ∀ q, q ≠ ⟨0, 1⟩ →
        (tileAt s1 q).map (fun t => t.status) =
          (tileAt (initializeFrom 2 1 [⟨0, 0⟩]) q).map (fun t => t.status) :=
  revealTile_adjacent_count 0 (initializeFrom 2 1 [⟨0, 0⟩]) ⟨0, 1⟩
    ⟨1, 0, false, HIDDEN, none, false⟩ (by decide) (by decide) (by decide) rfl rfl (by decide)

end Minesweeper

namespace Minesweeper

open TileStatus

/-! ## How a call changes the board -/

theorem Evolves.refl (s : Minesweeper) : Evolves s s :=
  ⟨fun _ => rfl, fun _ => Or.inl rfl⟩

theorem isMine_eq_of_frameAt (s s1 : Minesweeper) (q : Ref) (h : frameAt s1 q = frameAt s q) :
    isMine s1 q = isMine s q := by
  unfold frameAt at h
  unfold isMine
  cases h1 : tileAt s1 q with
  | none =>
    cases h0 : tileAt s q with
    | none => rfl
    | some t0 => simp [h1, h0] at h
  | some t1 =>
    cases h0 : tileAt s q with
    | none => simp [h1, h0] at h
    | some t0 =>
      simp only [h1, h0, Option.map_some', Option.some.injEq, Prod.mk.injEq] at h
      exact h.2.2

theorem Evolves.trans {s s1 s2 : Minesweeper} (h1 : Evolves s s1) (h2 : Evolves s1 s2) :
    Evolves s s2 := by
  refine ⟨fun q => (h2.1 q).trans (h1.1 q), fun q => ?_⟩
  have hm : isMine s1 q = isMine s q := isMine_eq_of_frameAt s s1 q (h1.1 q)
  rcases h1.2 q with e1 | ⟨hh, e1⟩
  · rcases h2.2 q with e2 | ⟨hh2, e2⟩
    · exact Or.inl (e2.trans e1)
    · right
      rw [e1] at hh2
      rw [hm] at e2
      exact ⟨hh2, e2⟩
  · rcases h2.2 q with e2 | ⟨hh2, e2⟩
    · right
      rw [e2]
      exact ⟨hh, e1⟩
    · rcases e1 with ⟨e1, _⟩ | ⟨e1, _⟩ <;> rw [e1] at hh2 <;> cases hh2

theorem statusAt_modifyTile (s : Minesweeper) (r q : Ref) (f : Tile → Tile) :
    statusAt (modifyTile s r f) q =
      if q = r then (tileAt s q).map (fun t => (f t).status) else statusAt s q := by
  unfold statusAt
  rw [tileAt_modifyTile]
  by_cases hq : q = r
  · rw [if_pos hq, if_pos hq]
    cases tileAt s q <;> rfl
  · rw [if_neg hq, if_neg hq]

theorem frameAt_modifyTile (s : Minesweeper) (r q : Ref) (f : Tile → Tile)
    (hf : ∀ t, ((f t).x, (f t).y, (f t).mine) = (t.x, t.y, t.mine)) :
    frameAt (modifyTile s r f) q = frameAt s q := by
  unfold frameAt
  rw [tileAt_modifyTile]
  by_cases hq : q = r
  · rw [if_pos hq]
    cases tileAt s q with
    | none => rfl
    | some t => exact congrArg some (hf t)
  · rw [if_neg hq]

theorem statusAt_disableBoard (s : Minesweeper) (q : Ref) :
    statusAt (disableBoard s) q = statusAt s q := by
  unfold statusAt
  rw [tileAt_disableBoard]
  cases tileAt s q <;> rfl

theorem frameAt_disableBoard (s : Minesweeper) (q : Ref) :
    frameAt (disableBoard s) q = frameAt s q := by
  unfold frameAt
  rw [tileAt_disableBoard]
  cases tileAt s q <;> rfl

theorem isMine_disableBoard (s : Minesweeper) (q : Ref) :
    isMine (disableBoard s) q = isMine s q :=
  isMine_eq_of_frameAt _ _ q (frameAt_disableBoard s q)

theorem evolves_setStatus (s : Minesweeper) (r : Ref) (tile : Tile)
    (ht : tileAt s r = some tile) (hh : tile.status = HIDDEN) :
    Evolves s (setStatus s r (if tile.mine then MINE else NUMBER)) := by
  refine ⟨fun q => frameAt_modifyTile s r q _ (fun _ => rfl), fun q => ?_⟩
  unfold setStatus
  rw [statusAt_modifyTile]
  by_cases hq : q = r
  · subst hq
    right
    rw [if_pos rfl, ht]
    refine ⟨by simp [statusAt, ht, hh], ?_⟩
    cases hm : tile.mine with
    | true => exact Or.inr ⟨by simp, by simp [isMine, ht, hm]⟩
    | false => exact Or.inl ⟨by simp, by simp [isMine, ht, hm]⟩
  · left
    rw [if_neg hq]

theorem evolves_setMineCount (s : Minesweeper) (r : Ref) (k : Nat) :
    Evolves s (setMineCount s r k) := by
  refine ⟨fun q => frameAt_modifyTile s r q _ (fun _ => rfl), fun q => Or.inl ?_⟩
  unfold setMineCount
  rw [statusAt_modifyTile]
  by_cases hq : q = r
  · rw [if_pos hq]
    rfl
  · rw [if_neg hq]

theorem evolves_disableBoard (s : Minesweeper) : Evolves s (disableBoard s) :=
  ⟨frameAt_disableBoard s, fun q => Or.inl (statusAt_disableBoard s q)⟩

theorem evolves_subtitle (s : Minesweeper) (txt : String) :
    Evolves s { s with subtitle := txt } :=
  ⟨fun _ => rfl, fun _ => Or.inl rfl⟩

/-- Every call of `revealTile` evolves the board. -/
theorem revealTile_evolves (fuel : Nat) (s s1 : Minesweeper) (r : Ref)
    (h : revealTile fuel s r = some s1) : Evolves s s1 := by
  refine revealTile_preserves (fun s2 => Evolves s s2) ?_ ?_ ?_ ?_ ?_ ?_ fuel s r s1
    (Evolves.refl s) h
  · intro s2 r tile hs ht hh hm
    have := evolves_setStatus s2 r tile ht hh
    rw [hm] at this
    exact hs.trans this
  · intro s2 r tile hs ht hh hm
    have := evolves_setStatus s2 r tile ht hh
    rw [hm] at this
    exact hs.trans this
  · intro s2 r k hs
    exact hs.trans (evolves_setMineCount s2 r k)
  · intro s2 hs _
    exact hs.trans ((evolves_subtitle s2 _).trans (evolves_disableBoard _))
  · intro s2 hs _ _
    exact hs.trans (evolves_subtitle s2 _)
  · intro s2 hs
    exact hs.trans (evolves_disableBoard s2)

theorem checkGameStatusWith_evolves (fuel : Nat) (s s1 : Minesweeper)
    (h : checkGameStatusWith (revealTile fuel) s = some s1) : Evolves s s1 := by
  refine checkGameStatusWith_preserves (fun s2 => Evolves s s2) (revealTile fuel) ?_ ?_ ?_ ?_
    s s1 (Evolves.refl s) h
  · intro s2 r s3 hs _ h3
    exact hs.trans (revealTile_evolves fuel s2 s3 r h3)
  · intro s2 hs _
    exact hs.trans ((evolves_subtitle s2 _).trans (evolves_disableBoard _))
  · intro s2 hs _ _
    exact hs.trans (evolves_subtitle s2 _)
  · intro s2 hs
    exact hs.trans (evolves_disableBoard s2)

theorem forEach_revealTile_evolves (fuel : Nat) (xs : List Ref) (s s1 : Minesweeper)
    (h : forEach xs (revealTile fuel) s = some s1) : Evolves s s1 :=
  forEach_preserves (fun s2 => Evolves s s2) xs _
    (fun s2 x s3 _ hs h3 => hs.trans (revealTile_evolves fuel s2 s3 x h3)) s s1
    (Evolves.refl s) h

theorem forEach_revealIfMine_evolves (fuel : Nat) (xs : List Ref) (s s1 : Minesweeper)
    (h : forEach xs (revealIfMine (revealTile fuel)) s = some s1) : Evolves s s1 :=
  forEach_preserves (fun s2 => Evolves s s2) xs _
    (fun s2 x s3 _ hs h3 => revealIfMine_preserves (fun s4 => Evolves s s4)
      (revealTile fuel)
      (fun s4 r s5 hs4 _ h5 => hs4.trans (revealTile_evolves fuel s4 s5 r h5)) s2 x s3 hs h3)
    s s1 (Evolves.refl s) h

/-! Consequences of `Evolves`. -/

theorem Evolves.tileAt_isSome {s s1 : Minesweeper} (h : Evolves s s1) (q : Ref) :
    (tileAt s1 q).isSome = (tileAt s q).isSome := by
  have := h.1 q
  unfold frameAt at this
  cases h1 : tileAt s1 q <;> cases h0 : tileAt s q <;> simp [h1, h0] at this ⊢

theorem Evolves.isMine {s s1 : Minesweeper} (h : Evolves s s1) (q : Ref) :
    isMine s1 q = isMine s q :=
  isMine_eq_of_frameAt s s1 q (h.1 q)

theorem Evolves.not_hidden {s s1 : Minesweeper} (h : Evolves s s1) (q : Ref)
    (hq : statusAt s q ≠ some HIDDEN) : statusAt s1 q = statusAt s q := by
  rcases h.2 q with e | ⟨hh, _⟩
  · exact e
  · exact absurd hh hq

theorem Evolves.hidden {s s1 : Minesweeper} (h : Evolves s s1) (q : Ref)
    (hq : statusAt s1 q = some HIDDEN) : statusAt s q = some HIDDEN := by
  rcases h.2 q with e | ⟨hh, _⟩
  · rw [← e]; exact hq
  · exact hh

theorem nearByTileAt_congr (s s1 : Minesweeper)
    (h : ∀ q, (tileAt s1 q).isSome = (tileAt s q).isSome) (x y : Nat) (yOffset xOffset : Int) :
    nearByTileAt s1 x y yOffset xOffset = nearByTileAt s x y yOffset xOffset := by
  rw [nearByTileAt_eq, nearByTileAt_eq]
  by_cases hc : 0 ≤ yOffset + (y : Int) ∧ 0 ≤ xOffset + (x : Int)
  · rw [if_pos hc, if_pos hc]
    have := h (Ref.mk (yOffset + (y : Int)).toNat (xOffset + (x : Int)).toNat)
    cases h1 : tileAt s1 _ <;> cases h0 : tileAt s _ <;> simp [h1, h0] at this ⊢
  · rw [if_neg hc, if_neg hc]

theorem Evolves.getNearByTiles {s s1 : Minesweeper} (h : Evolves s s1) (x y : Nat) :
    getNearByTiles s1 x y = getNearByTiles s x y := by
  rw [getNearByTiles_eq, getNearByTiles_eq]
  congr 1
  funext d
  exact nearByTileAt_congr s s1 h.tileAt_isSome x y d.1 d.2

theorem Evolves.specNeighbours {s s1 : Minesweeper} (h : Evolves s s1) (r : Ref) :
    specNeighbours s1 r = specNeighbours s r := by
  rw [specNeighbours_eq, specNeighbours_eq]
  congr 1
  funext d
  exact nearByTileAt_congr s s1 h.tileAt_isSome _ _ d.1 d.2

end Minesweeper

namespace Minesweeper

open TileStatus

/-! ## Termination: enough fuel -/

theorem forEach_total {α σ : Type} (P : σ → Prop) (xs : List α) (f : σ → α → Option σ)
    (hf : ∀ s x, x ∈ xs → P s → ∃ s1, f s x = some s1 ∧ P s1) :
    ∀ s, P s → ∃ s1, forEach xs f s = some s1 ∧ P s1 := by
  induction xs with
  | nil =>
    intro s hs
    exact ⟨s, rfl, hs⟩
  | cons x xs ih =>
    intro s hs
    obtain ⟨s1, h1, hp1⟩ := hf s x (List.mem_cons_self _ _) hs
    obtain ⟨s2, h2, hp2⟩ := ih (fun s x hx => hf s x (List.mem_cons_of_mem _ hx)) s1 hp1
    exact ⟨s2, by rw [forEach_cons, h1]; exact h2, hp2⟩

theorem hiddenCount_modifyTile (s : Minesweeper) (r : Ref) (f : Tile → Tile) (tile : Tile)
    (ht : tileAt s r = some tile) :
    hiddenCount (modifyTile s r f) + (if tile.status = HIDDEN then 1 else 0) =
      hiddenCount s + (if (f tile).status = HIDDEN then 1 else 0) := by
  rw [hiddenCount_eq, hiddenCount_eq]
  simpa using countP_modifyTile (fun t => t.status == HIDDEN) s r f tile ht

theorem hiddenCount_setStatus (s : Minesweeper) (r : Ref) (tile : Tile) (st : TileStatus)
    (ht : tileAt s r = some tile) (hh : tile.status = HIDDEN) (hst : st ≠ HIDDEN) :
    hiddenCount (setStatus s r st) + 1 = hiddenCount s := by
  have := hiddenCount_modifyTile s r (fun t => { t with status := st }) tile ht
  simp only [hh, if_true, hst, if_false] at this
  exact this

theorem hiddenCount_setMineCount (s : Minesweeper) (r : Ref) (k : Nat) :
    hiddenCount (setMineCount s r k) = hiddenCount s := by
  cases ht : tileAt s r with
  | none =>
    unfold setMineCount
    rw [modifyTile_eq_self s r _ (by simp [ht])]
  | some tile =>
    have := hiddenCount_modifyTile s r (fun t => { t with mineCount := some k }) tile ht
    simp only at this
    unfold setMineCount
    omega

theorem hiddenCount_disableBoard (s : Minesweeper) :
    hiddenCount (disableBoard s) = hiddenCount s := by
  rw [hiddenCount_eq, hiddenCount_eq]
  exact countP_disableBoard _ s (fun _ => rfl)

/-- A call of `revealTile` never adds a hidden tile. -/
theorem revealTile_hiddenCount_le (fuel : Nat) (s s1 : Minesweeper) (r : Ref)
    (h : revealTile fuel s r = some s1) : hiddenCount s1 ≤ hiddenCount s := by
  refine revealTile_preserves (fun s2 => hiddenCount s2 ≤ hiddenCount s) ?_ ?_ ?_ ?_ ?_ ?_
    fuel s r s1 (Nat.le_refl _) h
  · intro s2 r tile hs ht hh _
    have := hiddenCount_setStatus s2 r tile MINE ht hh (by decide)
    show hiddenCount (setStatus s2 r MINE) ≤ hiddenCount s
    omega
  · intro s2 r tile hs ht hh _
    have := hiddenCount_setStatus s2 r tile NUMBER ht hh (by decide)
    show hiddenCount (setStatus s2 r NUMBER) ≤ hiddenCount s
    omega
  · intro s2 r k hs
    show hiddenCount (setMineCount s2 r k) ≤ hiddenCount s
    rw [hiddenCount_setMineCount]
    exact hs
  · intro s2 hs _
    show hiddenCount (disableBoard _) ≤ hiddenCount s
    rw [hiddenCount_disableBoard]
    exact hs
  · intro s2 hs _ _
    exact hs
  · intro s2 hs
    show hiddenCount (disableBoard _) ≤ hiddenCount s
    rw [hiddenCount_disableBoard]
    exact hs

theorem mem_getNearByTiles_isSome (s : Minesweeper) (x y : Nat) (q : Ref)
    (h : q ∈ getNearByTiles s x y) : (tileAt s q).isSome = true := by
  rw [getNearByTiles_eq, List.mem_filterMap] at h
  obtain ⟨d, _, hd⟩ := h
  rw [nearByTileAt_eq] at hd
  split at hd
  · split at hd
    · rename_i t ht
      cases hd
      simp [ht]
    · cases hd
  · cases hd

/-- With the recursive calls total, `checkGameStatus` returns. -/
theorem checkGameStatusWith_total (fuel : Nat)
    (ih : ∀ s r, (tileAt s r).isSome = true → hiddenCount s < fuel →
      ∃ s1, revealTile fuel s r = some s1)
    (s : Minesweeper) (hf : hiddenCount s < fuel) :
    ∃ s1, checkGameStatusWith (revealTile fuel) s = some s1 := by
  cases hw : win s with
  | true => exact ⟨_, checkGameStatusWith_win _ s hw⟩
  | false =>
    cases hl : lose s with
    | false => exact ⟨_, checkGameStatusWith_neither _ s hw hl⟩
    | true =>
      rw [checkGameStatusWith_lose _ s hw hl]
      have hstep : ∀ s2 x, x ∈ allRefs s →
          (Evolves s s2 ∧ hiddenCount s2 ≤ hiddenCount s) →
          ∃ s3, revealIfMine (revealTile fuel) s2 x = some s3 ∧
            (Evolves s s3 ∧ hiddenCount s3 ≤ hiddenCount s) := by
        intro s2 x hx ⟨hev, hle⟩
        obtain ⟨t0, ht0⟩ := (mem_allRefs s x).mp hx
        have hsome : (tileAt s2 x).isSome = true := by
          rw [hev.tileAt_isSome, ht0]; rfl
        obtain ⟨t2, ht2⟩ := Option.isSome_iff_exists.mp hsome
        unfold revealIfMine
        rw [ht2]
        cases hm : t2.mine with
        | false => exact ⟨s2, by simp [hm], hev, hle⟩
        | true =>
          obtain ⟨s3, h3⟩ := ih s2 x hsome (by omega)
          refine ⟨s3, by simpa [hm] using h3, hev.trans (revealTile_evolves fuel s2 s3 x h3), ?_⟩
          have := revealTile_hiddenCount_le fuel s2 s3 x h3
          omega
      obtain ⟨s2, h2, _⟩ := forEach_total
        (fun s2 => Evolves s s2 ∧ hiddenCount s2 ≤ hiddenCount s) (allRefs s)
        (revealIfMine (revealTile fuel)) hstep { s with subtitle := "You Lose!" }
        ⟨evolves_subtitle s _, Nat.le_refl _⟩
      exact ⟨_, by rw [h2]; rfl⟩

/-- Termination of `revealTile`: on a tile of the board, with more fuel than there are
hidden tiles, the call returns. -/
theorem revealTile_total (fuel : Nat) :
    ∀ (s : Minesweeper) (r : Ref), (tileAt s r).isSome = true → hiddenCount s < fuel →
      ∃ s1, revealTile fuel s r = some s1 := by
  induction fuel with
  | zero => intro s r _ hf; omega
  | succ fuel ih =>
    intro s r hv hf
    obtain ⟨tile, ht⟩ := Option.isSome_iff_exists.mp hv
    by_cases hh : tile.status = HIDDEN
    · cases hm : tile.mine with
      | true =>
        rw [revealTile_mine fuel s r tile ht hh hm]
        have := hiddenCount_setStatus s r tile MINE ht hh (by decide)
        exact checkGameStatusWith_total fuel ih _ (by omega)
      | false =>
        have hc := hiddenCount_setStatus s r tile NUMBER ht hh (by decide)
        by_cases hz : ((getNearByTiles (setStatus s r NUMBER) tile.x tile.y).filter
            (isMine (setStatus s r NUMBER))).length = 0
        · rw [revealTile_cascade fuel s r tile ht hh hm hz]
          have hstep : ∀ s2 x, x ∈ getNearByTiles (setStatus s r NUMBER) tile.x tile.y →
              (Evolves (setStatus s r NUMBER) s2 ∧
                hiddenCount s2 ≤ hiddenCount (setStatus s r NUMBER)) →
              ∃ s3, revealTile fuel s2 x = some s3 ∧
                (Evolves (setStatus s r NUMBER) s3 ∧
                  hiddenCount s3 ≤ hiddenCount (setStatus s r NUMBER)) := by
            intro s2 x hx ⟨hev, hle⟩
            have hsome : (tileAt s2 x).isSome = true := by
              rw [hev.tileAt_isSome]
              exact mem_getNearByTiles_isSome _ _ _ x hx
            obtain ⟨s3, h3⟩ := ih s2 x hsome (by omega)
            refine ⟨s3, h3, hev.trans (revealTile_evolves fuel s2 s3 x h3), ?_⟩
            have := revealTile_hiddenCount_le fuel s2 s3 x h3
            omega
          obtain ⟨s2, h2, _, hle⟩ := forEach_total
            (fun s2 => Evolves (setStatus s r NUMBER) s2 ∧
              hiddenCount s2 ≤ hiddenCount (setStatus s r NUMBER))
            (getNearByTiles (setStatus s r NUMBER) tile.x tile.y) (revealTile fuel) hstep
            (setStatus s r NUMBER) ⟨Evolves.refl _, Nat.le_refl _⟩
          rw [h2]
          exact checkGameStatusWith_total fuel ih s2 (by omega)
        · rw [revealTile_number fuel s r tile ht hh hm hz]
          refine checkGameStatusWith_total fuel ih _ ?_
          rw [hiddenCount_setMineCount]
          omega
    · exact ⟨s, revealTile_not_hidden fuel s r tile ht hh⟩

/-- After a call of `revealTile` on a tile, the tile is not hidden. -/
theorem revealTile_target_not_hidden (fuel : Nat) (s s1 : Minesweeper) (r : Ref)
    (h : revealTile fuel s r = some s1) : statusAt s1 r ≠ some HIDDEN := by
  cases fuel with
  | zero => simp [revealTile] at h
  | succ fuel =>
    cases ht : tileAt s r with
    | none => rw [revealTile_none _ _ _ ht] at h; cases h
    | some tile =>
      by_cases hh : tile.status = HIDDEN
      · have hset : ∀ st, st ≠ HIDDEN → statusAt (setStatus s r st) r ≠ some HIDDEN := by
          intro st hst
          simp [statusAt, tileAt_setStatus, ht, hst]
        cases hm : tile.mine with
        | true =>
          rw [revealTile_mine fuel s r tile ht hh hm] at h
          rw [(checkGameStatusWith_evolves fuel _ _ h).not_hidden r (hset MINE (by decide))]
          exact hset MINE (by decide)
        | false =>
          by_cases hz : ((getNearByTiles (setStatus s r NUMBER) tile.x tile.y).filter
              (isMine (setStatus s r NUMBER))).length = 0
          · rw [revealTile_cascade fuel s r tile ht hh hm hz, Option.bind_eq_some] at h
            obtain ⟨s2, h2, h3⟩ := h
            have hev := (forEach_revealTile_evolves fuel _ _ _ h2).trans
              (checkGameStatusWith_evolves fuel _ _ h3)
            rw [hev.not_hidden r (hset NUMBER (by decide))]
            exact hset NUMBER (by decide)
          · rw [revealTile_number fuel s r tile ht hh hm hz] at h
            have hev := (evolves_setMineCount (setStatus s r NUMBER) r _).trans
              (checkGameStatusWith_evolves fuel _ _ h)
            rw [hev.not_hidden r (hset NUMBER (by decide))]
            exact hset NUMBER (by decide)
      · rw [revealTile_not_hidden fuel s r tile ht hh, Option.some.injEq] at h
        subst h
        simp [statusAt, ht, hh]

end Minesweeper

namespace Minesweeper

open TileStatus

/-! ## The losing move -/

theorem win_false_of_mine_status (s : Minesweeper) (q : Ref) (h : statusAt s q = some MINE) :
    win s = false := by
  cases hw : win s with
  | false => rfl
  | true =>
    unfold statusAt at h
    cases ht : tileAt s q with
    | none => simp [ht] at h
    | some tile =>
      simp only [ht, Option.map_some', Option.some.injEq] at h
      rcases (win_iff s).mp hw q tile ht with h1 | h1
      · rw [h] at h1; cases h1
      · rw [h] at h1; rcases h1.2 with h2 | h2 <;> cases h2

theorem lose_of_mine_status (s : Minesweeper) (q : Ref) (h : statusAt s q = some MINE) :
    lose s = true := by
  unfold statusAt at h
  cases ht : tileAt s q with
  | none => simp [ht] at h
  | some tile =>
    simp only [ht, Option.map_some', Option.some.injEq] at h
    exact (lose_iff s).mpr ⟨q, tile, ht, h⟩

/-- A call of `revealTile` on a mine changes the status of no tile that is not a mine. -/
theorem revealTile_mine_frame (fuel : Nat) (s s1 : Minesweeper) (r : Ref)
    (hm : isMine s r = true) (h : revealTile fuel s r = some s1) :
    ∀ q, isMine s q = false → statusAt s1 q = statusAt s q := by
  have hkey := revealTile_mine_preserves
    (fun s2 => Evolves s s2 ∧ ∀ q, isMine s q = false → statusAt s2 q = statusAt s q)
    ?_ ?_ ?_ ?_ fuel s r s1 ⟨Evolves.refl s, fun _ _ => rfl⟩ hm h
  · exact hkey.2
  · intro s2 r2 tile ⟨hev, hs⟩ ht hh hmine
    have hstep := evolves_setStatus s2 r2 tile ht hh
    rw [hmine] at hstep
    refine ⟨hev.trans hstep, fun q hq => ?_⟩
    have hne : q ≠ r2 := by
      intro hqr
      subst hqr
      have : isMine s2 q = true := by simp [isMine, ht, hmine]
      rw [hev.isMine] at this
      rw [hq] at this
      cases this
    rw [← hs q hq]
    show statusAt (modifyTile s2 r2 _) q = _
    rw [statusAt_modifyTile, if_neg hne]
  · intro s2 ⟨hev, hs⟩ _
    refine ⟨hev.trans ((evolves_subtitle s2 _).trans (evolves_disableBoard _)), fun q hq => ?_⟩
    rw [statusAt_disableBoard]
    exact hs q hq
  · intro s2 ⟨hev, hs⟩ _ _
    exact ⟨hev.trans (evolves_subtitle s2 _), hs⟩
  · intro s2 ⟨hev, hs⟩
    refine ⟨hev.trans (evolves_disableBoard _), fun q hq => ?_⟩
    rw [statusAt_disableBoard]
    exact hs q hq

/-- After the `forEach` of the losing branch no mine it visited is hidden. -/
theorem forEach_revealIfMine_not_hidden (fuel : Nat) (xs : List Ref) :
    ∀ s s1, forEach xs (revealIfMine (revealTile fuel)) s = some s1 →
      ∀ x ∈ xs, isMine s x = true → statusAt s1 x ≠ some HIDDEN := by
  induction xs with
  | nil => intro s s1 _ x hx; cases hx
  | cons y ys ih =>
    intro s s1 h x hx hmx
    rw [forEach_cons, Option.bind_eq_some] at h
    obtain ⟨s2, h2, h3⟩ := h
    have hev2 : Evolves s s2 := forEach_revealIfMine_evolves fuel [y] s s2 (by
      rw [forEach_cons, h2]; rfl)
    rcases List.mem_cons.mp hx with hxy | hxys
    · subst hxy
      have hnh : statusAt s2 x ≠ some HIDDEN := by
        unfold revealIfMine at h2
        cases ht : tileAt s x with
        | none => simp [ht] at h2
        | some tile =>
          have hm : tile.mine = true := by simpa [isMine, ht] using hmx
          simp only [ht, hm, if_true] at h2
          exact revealTile_target_not_hidden fuel s s2 x h2
      rw [(forEach_revealIfMine_evolves fuel ys s2 s1 h3).not_hidden x hnh]
      exact hnh
    · exact ih s2 s1 h3 x hxys (by rw [hev2.isMine]; exact hmx)

/-- The outcome of `revealTile` on a hidden mine. -/
theorem revealTile_hidden_mine (fuel : Nat) (s : Minesweeper) (r : Ref) (tile : Tile)
    (ht : tileAt s r = some tile) (hh : tile.status = HIDDEN) (hm : tile.mine = true)
    (hfuel : hiddenCount s < fuel) :
    ∃ s1, revealTile fuel s r = some s1 ∧ Evolves s s1 ∧ s1.subtitle = "You Lose!" ∧
      AllDisabled s1 ∧ (∀ q, isMine s q = true → statusAt s1 q ≠ some HIDDEN) := by
  obtain ⟨s1, h1⟩ := revealTile_total fuel s r (by simp [ht]) hfuel
  refine ⟨s1, h1, revealTile_evolves fuel s s1 r h1, ?_⟩
  cases fuel with
  | zero => simp [revealTile] at h1
  | succ fuel =>
    rw [revealTile_mine fuel s r tile ht hh hm] at h1
    have hst : statusAt (setStatus s r MINE) r = some MINE := by
      simp [statusAt, tileAt_setStatus, ht]
    have hw := win_false_of_mine_status _ r hst
    have hl := lose_of_mine_status _ r hst
    refine ⟨?_, checkGameStatusWith_allDisabled _ _ s1 (Or.inr hl) h1, ?_⟩
    · rw [checkGameStatusWith_lose _ _ hw hl, Option.map_eq_some'] at h1
      obtain ⟨s2, h2, rfl⟩ := h1
      exact (forEach_preserves (fun s => s.subtitle = "You Lose!" ∧ lose s = true) _ _
        (fun s x s1 _ => revealIfMine_preserves _ (revealTile fuel)
          (revealTile_mine_keeps_lost fuel) s x s1)
        { setStatus s r MINE with subtitle := "You Lose!" } s2 ⟨rfl, hl⟩ h2).1
    · intro q hq
      rw [checkGameStatusWith_lose _ _ hw hl, Option.map_eq_some'] at h1
      obtain ⟨s2, h2, rfl⟩ := h1
      rw [statusAt_disableBoard]
      have hq' : isMine { setStatus s r MINE with subtitle := "You Lose!" } q = true := by
        have : isMine (setStatus s r MINE) q = isMine s q :=
          isMine_modifyTile s r q _ (fun _ => rfl)
        exact this.trans hq
      have hmem : q ∈ allRefs (setStatus s r MINE) := by
        rw [mem_allRefs]
        apply Option.isSome_iff_exists.mp
        unfold isMine at hq'
        cases hq0 : tileAt { setStatus s r MINE with subtitle := "You Lose!" } q with
        | none => rw [hq0] at hq'; cases hq'
        | some t => exact (show tileAt (setStatus s r MINE) q = some t from hq0) ▸ rfl
      exact forEach_revealIfMine_not_hidden fuel _ _ s2 h2 q hmem hq'

/-- C4. Losing move: `revealTile` on a hidden mine returns (given more fuel than hidden
tiles); afterwards the tile has status "mine", the status line is "You Lose!", every
tile is disabled, and the status of every tile that is not a mine is what it was.  The
board need not be in progress for this. -/
theorem revealTile_mine_loses (fuel : Nat) (s : Minesweeper) (r : Ref) (tile : Tile)
    (ht : tileAt s r = some tile) (hh : tile.status = HIDDEN) (hm : tile.mine = true)
    (hfuel : hiddenCount s < fuel) :
    ∃ s1, revealTile fuel s r = some s1 ∧ statusAt s1 r = some MINE ∧
      s1.subtitle = "You Lose!" ∧ AllDisabled s1 ∧
      ∀ q, isMine s q = false → statusAt s1 q = statusAt s q := by
  obtain ⟨s1, h1, hev, hsub, hdis, hnh⟩ := revealTile_hidden_mine fuel s r tile ht hh hm hfuel
  have hmr : isMine s r = true := by simp [isMine, ht, hm]
  refine ⟨s1, h1, ?_, hsub, hdis, revealTile_mine_frame fuel s s1 r hmr h1⟩
  rcases hev.2 r with e | ⟨_, ⟨_, e⟩ | ⟨e, _⟩⟩
  · exfalso
    apply hnh r hmr
    rw [e]
    simp [statusAt, ht, hh]
  · rw [hmr] at e; cases e
  · exact e

/-- C4 at a concrete input: the mine `board[0][0]` of a fresh 2×2 board with two
mines. -/
theorem revealTile_mine_loses_witness :
    ∃ s1, revealTile 5 (initializeFrom 2 2 [⟨0, 0⟩, ⟨1, 1⟩]) ⟨0, 0⟩ = some s1 ∧
      statusAt s1 ⟨0, 0⟩ = some MINE ∧ s1.subtitle = "You Lose!" ∧ AllDisabled s1 ∧
      ∀ q, isMine (initializeFrom 2 2 [⟨0, 0⟩, ⟨1, 1⟩]) q = false →
        statusAt s1 q = statusAt (initializeFrom 2 2 [⟨0, 0⟩, ⟨1, 1⟩]) q :=
  revealTile_mine_loses 5 (initializeFrom 2 2 [⟨0, 0⟩, ⟨1, 1⟩]) ⟨0, 0⟩
    ⟨0, 0, true, HIDDEN, none, false⟩ (by decide) rfl rfl (by decide)

/-- C5, as the specification states it, fails: on a 2×2 board with mines at `(0, 0)`
and `(1, 1)`, flag the mine `board[1][1]` and then reveal the mine `board[0][0]`; the
flagged mine is still "marked" after the loss. -/
theorem flagged_mine_not_revealed :
    markTile (initializeFrom 2 2 [⟨0, 0⟩, ⟨1, 1⟩]) ⟨1, 1⟩ =
        some (updateMinesLeft (setStatus (initializeFrom 2 2 [⟨0, 0⟩, ⟨1, 1⟩]) ⟨1, 1⟩ MARKED)) ∧
      win (updateMinesLeft (setStatus (initializeFrom 2 2 [⟨0, 0⟩, ⟨1, 1⟩]) ⟨1, 1⟩ MARKED)) =
        false ∧
      lose (updateMinesLeft (setStatus (initializeFrom 2 2 [⟨0, 0⟩, ⟨1, 1⟩]) ⟨1, 1⟩ MARKED)) =
        false ∧
      (tileAt (updateMinesLeft (setStatus (initializeFrom 2 2 [⟨0, 0⟩, ⟨1, 1⟩]) ⟨1, 1⟩ MARKED))
          ⟨0, 0⟩).map (fun t => (t.mine, t.status)) = some (true, HIDDEN) ∧
      ((revealTile 5
          (updateMinesLeft (setStatus (initializeFrom 2 2 [⟨0, 0⟩, ⟨1, 1⟩]) ⟨1, 1⟩ MARKED))
          ⟨0, 0⟩).bind fun s1 => tileAt s1 ⟨1, 1⟩).map (fun t => (t.mine, t.status)) =
        some (true, MARKED) := by
  decide

/-- C5, amended. All hidden mines become visible on loss: `revealTile` on a hidden mine
returns (given more fuel than hidden tiles), and afterwards every mine that was hidden
has status "mine", so that no mine is hidden any more. -/
theorem revealTile_mine_reveals_hidden (fuel : Nat) (s : Minesweeper) (r : Ref) (tile : Tile)
    (ht : tileAt s r = some tile) (hh : tile.status = HIDDEN) (hm : tile.mine = true)
    (hfuel : hiddenCount s < fuel) :
    ∃ s1, revealTile fuel s r = some s1 ∧
      (∀ q, isMine s q = true → statusAt s q = some HIDDEN → statusAt s1 q = some MINE) ∧
      ∀ q, isMine s1 q = true → statusAt s1 q ≠ some HIDDEN := by
  obtain ⟨s1, h1, hev, _, _, hnh⟩ := revealTile_hidden_mine fuel s r tile ht hh hm hfuel
  refine ⟨s1, h1, fun q hq hqh => ?_, fun q hq => hnh q (by rw [← hev.isMine]; exact hq)⟩
  rcases hev.2 q with e | ⟨_, ⟨_, e⟩ | ⟨e, _⟩⟩
  · exfalso
    apply hnh q hq
    rw [e]
    exact hqh
  · rw [hq] at e; cases e
  · exact e

/-- C5 (amended) at a concrete input: the mine `board[0][0]` of a fresh 2×2 board with
two mines. -/
theorem revealTile_mine_reveals_hidden_witness :
    ∃ s1, revealTile 5 (initializeFrom 2 2 [⟨0, 0⟩, ⟨1, 1⟩]) ⟨0, 0⟩ = some s1 ∧
      (∀ q, isMine (initializeFrom 2 2 [⟨0, 0⟩, ⟨1, 1⟩]) q = true →
        statusAt (initializeFrom 2 2 [⟨0, 0⟩, ⟨1, 1⟩]) q = some HIDDEN →
        statusAt s1 q = some MINE) ∧
      ∀ q, isMine s1 q = true → statusAt s1 q ≠ some HIDDEN :=
  revealTile_mine_reveals_hidden 5 (initializeFrom 2 2 [⟨0, 0⟩, ⟨1, 1⟩]) ⟨0, 0⟩
    ⟨0, 0, true, HIDDEN, none, false⟩ (by decide) rfl rfl (by decide)

end Minesweeper

namespace Minesweeper

open TileStatus

/-! ## The flood fill -/

theorem isSome_eq_of_frameAt (s s0 : Minesweeper) (h : ∀ q, frameAt s q = frameAt s0 q)
    (q : Ref) : (tileAt s q).isSome = (tileAt s0 q).isSome := by
  have := h q
  unfold frameAt at this
  cases h1 : tileAt s q <;> cases h0 : tileAt s0 q <;> simp [h1, h0] at this ⊢

theorem specNeighbours_congr (s s0 : Minesweeper)
    (h : ∀ q, (tileAt s q).isSome = (tileAt s0 q).isSome) (r : Ref) :
    specNeighbours s r = specNeighbours s0 r := by
  rw [specNeighbours_eq, specNeighbours_eq]
  congr 1
  funext d
  exact nearByTileAt_congr s0 s h _ _ d.1 d.2

theorem mem_specNeighbours_isSome (s : Minesweeper) (r q : Ref)
    (h : q ∈ specNeighbours s r) : (tileAt s q).isSome = true := by
  rw [specNeighbours_eq, List.mem_filterMap] at h
  obtain ⟨d, _, hd⟩ := h
  rw [nearByTileAt_eq] at hd
  split at hd
  · split at hd
    · rename_i t ht
      cases hd
      simp [ht]
    · cases hd
  · cases hd

theorem mem_getNearByTiles_iff (s : Minesweeper) (r : Ref) (tile : Tile)
    (ht : tileAt s r = some tile) (q : Ref) :
    q ∈ getNearByTiles s r.col r.row ↔ q = r ∨ q ∈ specNeighbours s r := by
  obtain ⟨before, after, h1, h2⟩ := getNearByTiles_split s r tile ht
  rw [h1, h2]
  simp only [List.mem_append, List.mem_cons]
  tauto

theorem statusAt_setStatus (s : Minesweeper) (r q : Ref) (st : TileStatus) (tile : Tile)
    (ht : tileAt s r = some tile) :
    statusAt (setStatus s r st) q = if q = r then some st else statusAt s q := by
  unfold setStatus
  rw [statusAt_modifyTile]
  by_cases hq : q = r
  · subst hq
    rw [if_pos rfl, if_pos rfl, ht]
    rfl
  · rw [if_neg hq, if_neg hq]

theorem statusAt_setMineCount (s : Minesweeper) (r q : Ref) (k : Nat) :
    statusAt (setMineCount s r k) q = statusAt s q := by
  unfold setMineCount
  rw [statusAt_modifyTile]
  by_cases hq : q = r
  · rw [if_pos hq]
    rfl
  · rw [if_neg hq]

theorem lose_false_of_hiddenOrNumber (s : Minesweeper) (h : HiddenOrNumber s) :
    lose s = false := by
  cases hl : lose s with
  | false => rfl
  | true =>
    obtain ⟨q, tile, hq, hst⟩ := (lose_iff s).mp hl
    have hq' : statusAt s q = some MINE := by simp [statusAt, hq, hst]
    rcases h q with e | e | ⟨e, _⟩ <;> rw [hq'] at e <;> cases e

/-- Without an exploded mine `checkGameStatus` changes no status. -/
theorem checkGameStatusWith_statusAt (reveal : Minesweeper → Ref → Option Minesweeper)
    (s s1 : Minesweeper) (hl : lose s = false) (h : checkGameStatusWith reveal s = some s1) :
    (∀ q, statusAt s1 q = statusAt s q) ∧ ∀ q, frameAt s1 q = frameAt s q := by
  cases hw : win s with
  | true =>
    rw [checkGameStatusWith_win _ s hw, Option.some.injEq] at h
    subst h
    exact ⟨fun q => statusAt_disableBoard _ q, fun q => frameAt_disableBoard _ q⟩
  | false =>
    rw [checkGameStatusWith_neither _ s hw hl, Option.some.injEq] at h
    subst h
    exact ⟨fun _ => rfl, fun _ => rfl⟩

/-- After a `forEach` of `revealTile` none of the tiles it visited is hidden. -/
theorem forEach_revealTile_not_hidden (fuel : Nat) (xs : List Ref) :
    ∀ s s1, forEach xs (revealTile fuel) s = some s1 →
      ∀ x ∈ xs, statusAt s1 x ≠ some HIDDEN := by
  induction xs with
  | nil => intro s s1 _ x hx; cases hx
  | cons y ys ih =>
    intro s s1 h x hx
    rw [forEach_cons, Option.bind_eq_some] at h
    obtain ⟨s2, h2, h3⟩ := h
    rcases List.mem_cons.mp hx with hxy | hxys
    · subst hxy
      have hnh := revealTile_target_not_hidden fuel s s2 x h2
      rw [(forEach_revealTile_evolves fuel ys s2 s1 h3).not_hidden x hnh]
      exact hnh
    · exact ih s2 s1 h3 x hxys

theorem hiddenOrNumber_congr (s s1 : Minesweeper) (hst : ∀ q, statusAt s1 q = statusAt s q)
    (hfr : ∀ q, frameAt s1 q = frameAt s q) (h : HiddenOrNumber s) : HiddenOrNumber s1 := by
  intro q
  rw [hst q, isMine_eq_of_frameAt s s1 q (hfr q)]
  exact h q

theorem cascadeStep_refl (s0 : Minesweeper) (C : Ref → Prop) (s : Minesweeper)
    (hHN : HiddenOrNumber s) (hC : ∀ q, statusAt s q = some NUMBER → C q) :
    CascadeStep s0 C s s :=
  ⟨hHN, hC, fun _ hz _ _ => hz⟩

/-- The cascade over a list of tiles, given what one call achieves. -/
theorem forEach_cascadeStep (s0 : Minesweeper) (C : Ref → Prop) (fuel : Nat)
    (ih : ∀ s r s1, (∀ q, frameAt s q = frameAt s0 q) → HiddenOrNumber s →
      (∀ q, statusAt s q = some NUMBER → C q) → isMine s0 r = false → C r →
      revealTile fuel s r = some s1 → CascadeStep s0 C s s1)
    (xs : List Ref) :
    ∀ s s1, (∀ q, frameAt s q = frameAt s0 q) → HiddenOrNumber s →
      (∀ q, statusAt s q = some NUMBER → C q) →
      (∀ x ∈ xs, isMine s0 x = false ∧ C x) →
      forEach xs (revealTile fuel) s = some s1 → CascadeStep s0 C s s1 := by
  induction xs with
  | nil =>
    intro s s1 _ hHN hC _ h
    rw [forEach_nil, Option.some.injEq] at h
    subst h
    exact cascadeStep_refl s0 C s hHN hC
  | cons y ys ihl =>
    intro s s1 hfr hHN hC hxs h
    rw [forEach_cons, Option.bind_eq_some] at h
    obtain ⟨s2, h2, h3⟩ := h
    obtain ⟨hy1, hy2⟩ := hxs y (List.mem_cons_self _ _)
    obtain ⟨hHN2, hC2, hO2⟩ := ih s y s2 hfr hHN hC hy1 hy2 h2
    have hev2 := revealTile_evolves fuel s s2 y h2
    have hfr2 : ∀ q, frameAt s2 q = frameAt s0 q := fun q => (hev2.1 q).trans (hfr q)
    obtain ⟨hHN1, hC1, hO1⟩ := ihl s2 s1 hfr2 hHN2 hC2
      (fun x hx => hxs x (List.mem_cons_of_mem _ hx)) h3
    refine ⟨hHN1, hC1, fun z hz hzero hq => ?_⟩
    obtain ⟨q, hq1, hq2⟩ := hq
    have hz2 := hO1 z hz hzero ⟨q, hq1, hq2⟩
    have hq3 := (forEach_revealTile_evolves fuel ys s2 s1 h3).hidden q hq2
    exact hO2 z hz2 hzero ⟨q, hq1, hq3⟩

/-- What one call of `revealTile` achieves on a board without flags and exploded
mines, for a set `C` that contains the neighbours of its zero tiles. -/
theorem revealTile_cascadeStep (s0 : Minesweeper) (C : Ref → Prop)
    (hwf : ∀ q t, tileAt s0 q = some t → t.x = q.col ∧ t.y = q.row)
    (hclosed : ∀ z, C z → isMine s0 z = false → zeroAdjacent s0 z →
      ∀ q ∈ specNeighbours s0 z, C q) :
    ∀ fuel s r s1, (∀ q, frameAt s q = frameAt s0 q) → HiddenOrNumber s →
      (∀ q, statusAt s q = some NUMBER → C q) → isMine s0 r = false → C r →
      revealTile fuel s r = some s1 → CascadeStep s0 C s s1 := by
  intro fuel
  induction fuel with
  | zero =>
    intro s r s1 _ _ _ _ _ h
    simp [revealTile] at h
  | succ fuel ih =>
    intro s r s1 hfr hHN hC hmr hCr h
    cases ht : tileAt s r with
    | none => rw [revealTile_none _ _ _ ht] at h; cases h
    | some tile =>
      by_cases hh : tile.status = HIDDEN
      · have hsome := isSome_eq_of_frameAt s s0 hfr
        have hmines : ∀ q, isMine s q = isMine s0 q :=
          fun q => isMine_eq_of_frameAt s0 s q (hfr q)
        have hm : tile.mine = false := by
          have := hmines r
          rw [hmr] at this
          simpa [isMine, ht] using this
        have hxy : tile.x = r.col ∧ tile.y = r.row := by
          have h1 := hfr r
          unfold frameAt at h1
          cases h0 : tileAt s0 r with
          | none => simp [ht, h0] at h1
          | some t0 =>
            simp only [ht, h0, Option.map_some', Option.some.injEq, Prod.mk.injEq] at h1
            obtain ⟨hx0, hy0⟩ := hwf r t0 h0
            exact ⟨h1.1.trans hx0, h1.2.1.trans hy0⟩
        have hnbrs : specNeighbours s r = specNeighbours s0 r :=
          specNeighbours_congr s s0 hsome r
        have hlen := nearByMineTiles_length s r tile NUMBER hxy ht hm
        rw [hnbrs, funext hmines] at hlen
        -- the state after `tile.status = NUMBER`
        have hstA : ∀ q, statusAt (setStatus s r NUMBER) q =
            if q = r then some NUMBER else statusAt s q :=
          fun q => statusAt_setStatus s r q NUMBER tile ht
        have hfrA : ∀ q, frameAt (setStatus s r NUMBER) q = frameAt s0 q :=
          fun q => (frameAt_modifyTile s r q (fun t => { t with status := NUMBER })
            (fun _ => rfl)).trans (hfr q)
        have hHNA : HiddenOrNumber (setStatus s r NUMBER) := by
          intro q
          rw [hstA q, isMine_eq_of_frameAt s0 _ q (hfrA q)]
          by_cases hq : q = r
          · rw [if_pos hq, hq]
            exact Or.inr (Or.inr ⟨rfl, hmr⟩)
          · rw [if_neg hq, ← hmines q]
            exact hHN q
        have hCA : ∀ q, statusAt (setStatus s r NUMBER) q = some NUMBER → C q := by
          intro q hq
          rw [hstA q] at hq
          by_cases hqr : q = r
          · rw [hqr]; exact hCr
          · rw [if_neg hqr] at hq
            exact hC q hq
        by_cases hz : ((getNearByTiles (setStatus s r NUMBER) tile.x tile.y).filter
            (isMine (setStatus s r NUMBER))).length = 0
        · -- zero adjacent mines: the cascade
          have hzero : zeroAdjacent s0 r := by
            rw [hlen, List.countP_eq_zero] at hz
            intro n hn
            simpa using hz n hn
          rw [revealTile_cascade fuel s r tile ht hh hm hz, Option.bind_eq_some] at h
          obtain ⟨s2, h2, h3⟩ := h
          have hadj : ∀ x, x ∈ getNearByTiles (setStatus s r NUMBER) tile.x tile.y ↔
              x = r ∨ x ∈ specNeighbours s0 r := by
            intro x
            rw [hxy.1, hxy.2, setStatus, getNearByTiles_modifyTile,
              mem_getNearByTiles_iff s r tile ht, hnbrs]
          have hxs : ∀ x ∈ getNearByTiles (setStatus s r NUMBER) tile.x tile.y,
              isMine s0 x = false ∧ C x := by
            intro x hx
            rcases (hadj x).mp hx with hx | hx
            · rw [hx]; exact ⟨hmr, hCr⟩
            · exact ⟨hzero x hx, hclosed r hCr hmr hzero x hx⟩
          obtain ⟨hHN2, hC2, hO2⟩ := forEach_cascadeStep s0 C fuel ih _ _ s2 hfrA hHNA hCA
            hxs h2
          have hnh := forEach_revealTile_not_hidden fuel _ _ s2 h2
          obtain ⟨hst1, hfr1⟩ := checkGameStatusWith_statusAt _ s2 s1
            (lose_false_of_hiddenOrNumber s2 hHN2) h3
          refine ⟨hiddenOrNumber_congr s2 s1 hst1 hfr1 hHN2, fun q hq => ?_, ?_⟩
          · rw [hst1 q] at hq
            exact hC2 q hq
          · intro z hzn hzz hq
            obtain ⟨q, hq1, hq2⟩ := hq
            rw [hst1 z] at hzn
            rw [hst1 q] at hq2
            have hzA := hO2 z hzn hzz ⟨q, hq1, hq2⟩
            rw [hstA z] at hzA
            by_cases hzr : z = r
            · exfalso
              rw [hzr] at hq1
              exact hnh q ((hadj q).mpr (Or.inr hq1)) hq2
            · rw [if_neg hzr] at hzA
              exact hzA
        · -- some adjacent mine: the count is stored
          have hnz : ¬ zeroAdjacent s0 r := by
            intro hzero
            apply hz
            rw [hlen, List.countP_eq_zero]
            intro n hn
            simpa using hzero n hn
          rw [revealTile_number fuel s r tile ht hh hm hz] at h
          have hstB : ∀ q, statusAt (setMineCount (setStatus s r NUMBER) r
              ((getNearByTiles (setStatus s r NUMBER) tile.x tile.y).filter
                (isMine (setStatus s r NUMBER))).length) q =
              statusAt (setStatus s r NUMBER) q :=
            fun q => statusAt_setMineCount _ r q _
          have hfrB : ∀ q, frameAt (setMineCount (setStatus s r NUMBER) r
              ((getNearByTiles (setStatus s r NUMBER) tile.x tile.y).filter
                (isMine (setStatus s r NUMBER))).length) q =
              frameAt (setStatus s r NUMBER) q :=
            fun q => frameAt_modifyTile _ r q (fun t => { t with mineCount := some _ })
              (fun _ => rfl)
          have hHNB := hiddenOrNumber_congr _ _ hstB hfrB hHNA
          obtain ⟨hst1, hfr1⟩ := checkGameStatusWith_statusAt _ _ s1
            (lose_false_of_hiddenOrNumber _ hHNB) h
          refine ⟨hiddenOrNumber_congr _ s1 hst1 hfr1 hHNB, fun q hq => ?_, ?_⟩
          · rw [hst1 q, hstB q] at hq
            exact hCA q hq
          · intro z hzn hzz _
            rw [hst1 z, hstB z, hstA z] at hzn
            by_cases hzr : z = r
            · rw [hzr] at hzz
              exact absurd hzz hnz
            · rw [if_neg hzr] at hzn
              exact hzn
      · rw [revealTile_not_hidden fuel s r tile ht hh, Option.some.injEq] at h
        subst h
        exact cascadeStep_refl s0 C s hHN hC

/-- The region with its border contains the neighbours of its zero tiles. -/
theorem regionWithBorder_closed (s : Minesweeper) (r : Ref) :
    ∀ z, RegionWithBorder s r z → isMine s z = false → zeroAdjacent s z →
      ∀ q ∈ specNeighbours s z, RegionWithBorder s r q := by
  intro z hz _ hzero q hq
  rcases hz with hz | ⟨z1, hz1, hzz1⟩
  · exact Or.inr ⟨z, hz, hq⟩
  · exact Or.inr ⟨z, ZeroRegion.step z1 z hz1 hzz1 hzero, hq⟩

/-- C1. Flood-fill completeness and exactness: on a well-formed board where every tile
is hidden, `revealTile` on a non-mine with zero adjacent mines returns (given more fuel
than hidden tiles) and leaves the board with the same tiles, of which exactly those of
the zero-region of the tile and of its border have status "number"; every other tile is
still hidden. -/
theorem revealTile_flood_fill (fuel : Nat) (s : Minesweeper) (r : Ref) (tile : Tile)
    (hwf : WellFormed s) (hall : ∀ t ∈ s.board.flatten, t.status = HIDDEN)
    (ht : tileAt s r = some tile) (hm : tile.mine = false) (hz : zeroAdjacent s r)
    (hfuel : hiddenCount s < fuel) :
    ∃ s1, revealTile fuel s r = some s1 ∧
      (∀ q, (tileAt s1 q).isSome = (tileAt s q).isSome) ∧
      ∀ q, (tileAt s q).isSome = true →
        (RegionWithBorder s r q → statusAt s1 q = some NUMBER) ∧
        (¬ RegionWithBorder s r q → statusAt s1 q = some HIDDEN) := by
  obtain ⟨s1, h1⟩ := revealTile_total fuel s r (by simp [ht]) hfuel
  have hev := revealTile_evolves fuel s s1 r h1
  have hhid : ∀ q, statusAt s q = none ∨ statusAt s q = some HIDDEN := by
    intro q
    unfold statusAt
    cases hq : tileAt s q with
    | none => exact Or.inl rfl
    | some t =>
      right
      simp [hall t ((mem_flatten_iff s t).mpr ⟨q, hq⟩)]
  have hHN : HiddenOrNumber s := fun q => (hhid q).imp id Or.inl
  have hnoNum : ∀ q, statusAt s q ≠ some NUMBER := by
    intro q hq
    rcases hhid q with e | e <;> rw [hq] at e <;> cases e
  have hmr : isMine s r = false := by simp [isMine, ht, hm]
  obtain ⟨hHN1, hC1, hO1⟩ := revealTile_cascadeStep s (RegionWithBorder s r)
    (fun q t hq => wellFormed_coords s hwf q t hq) (regionWithBorder_closed s r)
    fuel s r s1 (fun _ => rfl) hHN (fun q hq => absurd hq (hnoNum q)) hmr
    (Or.inl (ZeroRegion.start hz)) h1
  -- a tile of the board that is not hidden any more is a number
  have hnum : ∀ q, (tileAt s q).isSome = true → statusAt s1 q ≠ some HIDDEN →
      statusAt s1 q = some NUMBER := by
    intro q hq hnh
    rcases hHN1 q with e | e | ⟨e, _⟩
    · exfalso
      rw [← hev.tileAt_isSome] at hq
      unfold statusAt at e
      cases h0 : tileAt s1 q with
      | none => simp [h0] at hq
      | some t => simp [h0] at e
    · exact absurd e hnh
    · exact e
  -- the neighbours of a zero number are numbers
  have hnbr : ∀ z, statusAt s1 z = some NUMBER → zeroAdjacent s z →
      ∀ q ∈ specNeighbours s z, statusAt s1 q = some NUMBER := by
    intro z hzn hzz q hq
    refine hnum q (mem_specNeighbours_isSome s z q hq) (fun hqh => ?_)
    exact hnoNum z (hO1 z hzn hzz ⟨q, hq, hqh⟩)
  have hregion : ∀ z, ZeroRegion s r z → statusAt s1 z = some NUMBER ∧ zeroAdjacent s z := by
    intro z hzr
    induction hzr with
    | start hz0 =>
      exact ⟨hnum r (by simp [ht]) (revealTile_target_not_hidden fuel s s1 r h1), hz0⟩
    | step q q1 _ hq1 hz1 ih => exact ⟨hnbr q ih.1 ih.2 q1 hq1, hz1⟩
  refine ⟨s1, h1, hev.tileAt_isSome, fun q hq => ⟨fun hC => ?_, fun hC => ?_⟩⟩
  · rcases hC with hC | ⟨z, hz1, hz2⟩
    · exact (hregion q hC).1
    · exact hnbr z (hregion z hz1).1 (hregion z hz1).2 q hz2
  · rcases hHN1 q with e | e | ⟨e, _⟩
    · exfalso
      rw [← hev.tileAt_isSome] at hq
      unfold statusAt at e
      cases h0 : tileAt s1 q with
      | none => simp [h0] at hq
      | some t => simp [h0] at e
    · exact e
    · exact absurd (hC1 q e) hC

/-- C1 at a concrete input: the corner `board[0][0]` of a fresh 3×3 board whose only
mine is at the opposite corner. -/
theorem revealTile_flood_fill_witness :
    ∃ s1, revealTile 10 (initializeFrom 3 1 [⟨2, 2⟩]) ⟨0, 0⟩ = some s1 ∧
      (∀ q, (tileAt s1 q).isSome = (tileAt (initializeFrom 3 1 [⟨2, 2⟩]) q).isSome) ∧
      ∀ q, (tileAt (initializeFrom 3 1 [⟨2, 2⟩]) q).isSome = true →
        (RegionWithBorder (initializeFrom 3 1 [⟨2, 2⟩]) ⟨0, 0⟩ q →
          statusAt s1 q = some NUMBER) ∧
        (¬ RegionWithBorder (initializeFrom 3 1 [⟨2, 2⟩]) ⟨0, 0⟩ q →
          statusAt s1 q = some HIDDEN) :=
  revealTile_flood_fill 10 (initializeFrom 3 1 [⟨2, 2⟩]) ⟨0, 0⟩
    ⟨0, 0, false, HIDDEN, none, false⟩ (by decide) (by decide) (by decide) rfl (by decide)
    (by decide)

end Minesweeper

namespace Minesweeper

open TileStatus

/-! ## The state machine of a tile -/

theorem markTile_isSome (s : Minesweeper) (r : Ref) (h : (tileAt s r).isSome = true) :
    (markTile s r).isSome = true := by
  obtain ⟨tile, ht⟩ := Option.isSome_iff_exists.mp h
  simp only [markTile, ht]
  split <;> rfl

/-- What `markTile` does to the statuses and to the fields written at construction. -/
theorem markTile_transitions (s s1 : Minesweeper) (r : Ref) (h : markTile s r = some s1) :
    ∀ q, frameAt s1 q = frameAt s q ∧
      (statusAt s1 q = statusAt s q ∨
        (statusAt s q = some HIDDEN ∧ statusAt s1 q = some MARKED) ∨
        (statusAt s q = some MARKED ∧ statusAt s1 q = some HIDDEN)) := by
  intro q
  cases ht : tileAt s r with
  | none => simp [markTile, ht] at h
  | some tile =>
    have hset : ∀ st, frameAt (updateMinesLeft (setStatus s r st)) q = frameAt s q ∧
        statusAt (updateMinesLeft (setStatus s r st)) q =
          if q = r then some st else statusAt s q :=
      fun st => ⟨frameAt_modifyTile s r q (fun t => { t with status := st }) (fun _ => rfl),
        statusAt_setStatus s r q st tile ht⟩
    have hr : ∀ st, tile.status = st → q = r → statusAt s q = some st := by
      intro st hst hq
      rw [hq]
      simp [statusAt, ht, hst]
    cases hst : tile.status with
    | HIDDEN =>
      rw [markTile_hidden s r tile ht hst, Option.some.injEq] at h
      subst h
      refine ⟨(hset MARKED).1, ?_⟩
      rw [(hset MARKED).2]
      by_cases hq : q = r
      · rw [if_pos hq]
        exact Or.inr (Or.inl ⟨hr HIDDEN hst hq, rfl⟩)
      · rw [if_neg hq]
        exact Or.inl rfl
    | MARKED =>
      rw [markTile_marked s r tile ht hst, Option.some.injEq] at h
      subst h
      refine ⟨(hset HIDDEN).1, ?_⟩
      rw [(hset HIDDEN).2]
      by_cases hq : q = r
      · rw [if_pos hq]
        exact Or.inr (Or.inr ⟨hr MARKED hst hq, rfl⟩)
      · rw [if_neg hq]
        exact Or.inl rfl
    | NUMBER =>
      rw [markTile_other s r tile ht (Or.inl hst), Option.some.injEq] at h
      subst h
      exact ⟨rfl, Or.inl rfl⟩
    | MINE =>
      rw [markTile_other s r tile ht (Or.inr hst), Option.some.injEq] at h
      subst h
      exact ⟨rfl, Or.inl rfl⟩

theorem Evolves.transitions {s s1 : Minesweeper} (h : Evolves s s1) :
    ∀ q, frameAt s1 q = frameAt s q ∧
      (statusAt s1 q = statusAt s q ∨
        (statusAt s q = some HIDDEN ∧
          (statusAt s1 q = some NUMBER ∨ statusAt s1 q = some MINE))) := by
  intro q
  refine ⟨h.1 q, ?_⟩
  rcases h.2 q with e | ⟨hh, ⟨e, _⟩ | ⟨e, _⟩⟩
  · exact Or.inl e
  · exact Or.inr ⟨hh, Or.inl e⟩
  · exact Or.inr ⟨hh, Or.inr e⟩

/-- C11. Per-tile state machine: every call of `revealTile` and of `checkGameStatus`
(whatever its fuel, so the nested calls too) and every call of `markTile` leaves the
coordinates and the mine flag of every tile as they are; under `revealTile` and
`checkGameStatus` a status stays or goes from "hidden" to "number" or "mine"; under
`markTile` it stays or goes from "hidden" to "marked" or back; so a "number" or "mine"
tile keeps its status.  The calls return: `markTile` always, `revealTile` with more
fuel than hidden tiles. -/
theorem tile_state_machine (s : Minesweeper) (r : Ref) :
    (∀ fuel s1, revealTile fuel s r = some s1 ∨ checkGameStatus fuel s = some s1 →
      ∀ q, frameAt s1 q = frameAt s q ∧
        (statusAt s1 q = statusAt s q ∨
          (statusAt s q = some HIDDEN ∧
            (statusAt s1 q = some NUMBER ∨ statusAt s1 q = some MINE)))) ∧
    (∀ s1, markTile s r = some s1 →
      ∀ q, frameAt s1 q = frameAt s q ∧
        (statusAt s1 q = statusAt s q ∨
          (statusAt s q = some HIDDEN ∧ statusAt s1 q = some MARKED) ∨
          (statusAt s q = some MARKED ∧ statusAt s1 q = some HIDDEN))) ∧
    (∀ fuel s1, revealTile fuel s r = some s1 ∨ checkGameStatus fuel s = some s1 ∨
        markTile s r = some s1 →
      ∀ q, statusAt s q = some NUMBER ∨ statusAt s q = some MINE →
        statusAt s1 q = statusAt s q) ∧
    ((tileAt s r).isSome = true →
      (markTile s r).isSome = true ∧
        ∀ fuel, hiddenCount s < fuel → (revealTile fuel s r).isSome = true) := by
  have hrev : ∀ fuel s1, revealTile fuel s r = some s1 ∨ checkGameStatus fuel s = some s1 →
      Evolves s s1 := by
    intro fuel s1 h
    rcases h with h | h
    · exact revealTile_evolves fuel s s1 r h
    · exact checkGameStatusWith_evolves fuel s s1 h
  refine ⟨fun fuel s1 h => (hrev fuel s1 h).transitions, fun s1 h => markTile_transitions s s1 r h, ?_, ?_⟩
  · intro fuel s1 h q hq
    have hnh : statusAt s q ≠ some HIDDEN := by
      rcases hq with e | e <;> rw [e] <;> simp
    have hnm : statusAt s q ≠ some MARKED := by
      rcases hq with e | e <;> rw [e] <;> simp
    rcases h with h | h | h
    · exact (hrev fuel s1 (Or.inl h)).not_hidden q hnh
    · exact (hrev fuel s1 (Or.inr h)).not_hidden q hnh
    · rcases (markTile_transitions s s1 r h q).2 with e | ⟨e, _⟩ | ⟨e, _⟩
      · exact e
      · exact absurd e hnh
      · exact absurd e hnm
  · intro hv
    refine ⟨markTile_isSome s r hv, fun fuel hf => ?_⟩
    obtain ⟨s1, h1⟩ := revealTile_total fuel s r hv hf
    rw [h1]
    rfl

/-- C11 at a concrete input: flagging and revealing `board[0][1]` of a fresh 2×2 board
with a mine at `board[0][0]`. -/
theorem tile_state_machine_witness :
    (∀ q, frameAt (updateMinesLeft (setStatus (initializeFrom 2 1 [⟨0, 0⟩]) ⟨0, 1⟩ MARKED)) q =
        frameAt (initializeFrom 2 1 [⟨0, 0⟩]) q ∧
      (statusAt (updateMinesLeft (setStatus (initializeFrom 2 1 [⟨0, 0⟩]) ⟨0, 1⟩ MARKED)) q =
          statusAt (initializeFrom 2 1 [⟨0, 0⟩]) q ∨
        (statusAt (initializeFrom 2 1 [⟨0, 0⟩]) q = some HIDDEN ∧
          statusAt (updateMinesLeft (setStatus (initializeFrom 2 1 [⟨0, 0⟩]) ⟨0, 1⟩ MARKED)) q =
            some MARKED) ∨
        (statusAt (initializeFrom 2 1 [⟨0, 0⟩]) q = some MARKED ∧
          statusAt (updateMinesLeft (setStatus (initializeFrom 2 1 [⟨0, 0⟩]) ⟨0, 1⟩ MARKED)) q =
            some HIDDEN))) ∧
    ((markTile (initializeFrom 2 1 [⟨0, 0⟩]) ⟨0, 1⟩).isSome = true ∧
      ∀ fuel, hiddenCount (initializeFrom 2 1 [⟨0, 0⟩]) < fuel →
        (revealTile fuel (initializeFrom 2 1 [⟨0, 0⟩]) ⟨0, 1⟩).isSome = true) :=
  ⟨(tile_state_machine (initializeFrom 2 1 [⟨0, 0⟩]) ⟨0, 1⟩).2.1 _ (by decide),
    (tile_state_machine (initializeFrom 2 1 [⟨0, 0⟩]) ⟨0, 1⟩).2.2.2 (by decide)⟩

end Minesweeper

namespace Minesweeper

open TileStatus

/-! ## Repeated reveals -/

/-- C12. `revealTile` is idempotent: on a tile that is not hidden it returns the state
unchanged; hence, after a call of `revealTile` on a tile, a second call on the same
tile returns the state of the first.  With more fuel than hidden tiles both calls
return. -/
theorem revealTile_idempotent (s : Minesweeper) (r : Ref) :
    (∀ fuel tile, tileAt s r = some tile → tile.status ≠ HIDDEN →
      revealTile (fuel + 1) s r = some s) ∧
    (∀ fuel s1, revealTile fuel s r = some s1 → ∀ fuel1, revealTile (fuel1 + 1) s1 r = some s1) ∧
    ((tileAt s r).isSome = true → ∀ fuel, hiddenCount s < fuel →
      ∃ s1, revealTile fuel s r = some s1 ∧ revealTile fuel s1 r = some s1) := by
  have hsecond : ∀ fuel s1, revealTile fuel s r = some s1 →
      ∀ fuel1, revealTile (fuel1 + 1) s1 r = some s1 := by
    intro fuel s1 h fuel1
    have hnh := revealTile_target_not_hidden fuel s s1 r h
    cases ht1 : tileAt s1 r with
    | none =>
      exfalso
      have hsome := (revealTile_evolves fuel s s1 r h).tileAt_isSome r
      rw [ht1] at hsome
      cases ht : tileAt s r with
      | none => rw [revealTile_none fuel s r ht] at h; cases h
      | some tile => rw [ht] at hsome; cases hsome
    | some tile1 =>
      apply revealTile_not_hidden fuel1 s1 r tile1 ht1
      intro hh
      apply hnh
      simp [statusAt, ht1, hh]
  refine ⟨fun fuel tile ht hh => revealTile_not_hidden fuel s r tile ht hh, hsecond, ?_⟩
  intro hv fuel hf
  obtain ⟨s1, h1⟩ := revealTile_total fuel s r hv hf
  refine ⟨s1, h1, ?_⟩
  cases fuel with
  | zero => omega
  | succ fuel => exact hsecond _ s1 h1 fuel

/-- C12 at a concrete input: revealing `board[0][1]` of a fresh 2×2 board with a mine at
`board[0][0]`, twice. -/
theorem revealTile_idempotent_witness :
    ∃ s1, revealTile 5 (initializeFrom 2 1 [⟨0, 0⟩]) ⟨0, 1⟩ = some s1 ∧
      revealTile 5 s1 ⟨0, 1⟩ = some s1 :=
  (revealTile_idempotent (initializeFrom 2 1 [⟨0, 0⟩]) ⟨0, 1⟩).2.2 (by decide) 5 (by decide)

/-! ## The evaluation of a loss -/

theorem lose_iff_statusAt (s : Minesweeper) :
    lose s = true ↔ ∃ q, statusAt s q = some MINE := by
  constructor
  · intro h
    obtain ⟨q, tile, hq, hst⟩ := (lose_iff s).mp h
    exact ⟨q, by simp [statusAt, hq, hst]⟩
  · rintro ⟨q, hq⟩
    exact lose_of_mine_status s q hq

theorem win_lose_exclusive (s : Minesweeper) : ¬ (win s = true ∧ lose s = true) := by
  rintro ⟨hw, hl⟩
  obtain ⟨q, hq⟩ := (lose_iff_statusAt s).mp hl
  rw [win_false_of_mine_status s q hq] at hw
  cases hw

/-- The losing branch of `checkGameStatus` leaves "You Lose!" in the status line. -/
theorem checkGameStatusWith_lose_subtitle (fuel : Nat) (s s1 : Minesweeper)
    (hw : win s = false) (hl : lose s = true)
    (h : checkGameStatusWith (revealTile fuel) s = some s1) : s1.subtitle = "You Lose!" := by
  rw [checkGameStatusWith_lose _ s hw hl, Option.map_eq_some'] at h
  obtain ⟨s2, h2, rfl⟩ := h
  exact (forEach_preserves (fun s => s.subtitle = "You Lose!" ∧ lose s = true) _ _
    (fun s x s1 _ => revealIfMine_preserves _ (revealTile fuel)
      (revealTile_mine_keeps_lost fuel) s x s1)
    { s with subtitle := "You Lose!" } s2 ⟨rfl, hl⟩ h2).1

/-- C16. Loss evaluation, for every board: the test `lose` of `checkGameStatus` holds
exactly when some tile has status "mine"; it never holds together with the test `win`,
which comes first; when it holds, `checkGameStatus` returns (given more fuel than
hidden tiles) with "You Lose!" in the status line and every tile disabled; when it
fails, `checkGameStatus` leaves the state as it is or writes "You Win!". -/
theorem checkGameStatus_lose_iff (s : Minesweeper) :
    (lose s = true ↔ ∃ q, statusAt s q = some MINE) ∧
    ¬ (win s = true ∧ lose s = true) ∧
    (lose s = true → ∀ fuel, hiddenCount s < fuel →
      ∃ s1, checkGameStatus fuel s = some s1 ∧ s1.subtitle = "You Lose!" ∧ AllDisabled s1) ∧
    (lose s = false → ∀ fuel s1, checkGameStatus fuel s = some s1 →
      s1 = s ∨ s1.subtitle = "You Win!") := by
  refine ⟨lose_iff_statusAt s, win_lose_exclusive s, ?_, ?_⟩
  · intro hl fuel hf
    have hw : win s = false := by
      cases hw : win s with
      | false => rfl
      | true => exact absurd ⟨hw, hl⟩ (win_lose_exclusive s)
    obtain ⟨s1, h1⟩ := checkGameStatusWith_total fuel (revealTile_total fuel) s hf
    exact ⟨s1, h1, checkGameStatusWith_lose_subtitle fuel s s1 hw hl h1,
      checkGameStatusWith_allDisabled _ s s1 (Or.inr hl) h1⟩
  · intro hl fuel s1 h
    unfold checkGameStatus at h
    cases hw : win s with
    | true =>
      rw [checkGameStatusWith_win _ s hw, Option.some.injEq] at h
      subst h
      exact Or.inr rfl
    | false =>
      rw [checkGameStatusWith_neither _ s hw hl, Option.some.injEq] at h
      exact Or.inl h.symm

/-- C16 at a concrete input: a 2×2 board whose mine at `board[0][0]` has exploded. -/
theorem checkGameStatus_lose_iff_witness :
    ∃ s1, checkGameStatus 5 (setStatus (initializeFrom 2 1 [⟨0, 0⟩]) ⟨0, 0⟩ MINE) = some s1 ∧
      s1.subtitle = "You Lose!" ∧ AllDisabled s1 :=
  (checkGameStatus_lose_iff (setStatus (initializeFrom 2 1 [⟨0, 0⟩]) ⟨0, 0⟩ MINE)).2.2.1
    (by decide) 5 (by decide)

/-! ## Calls on a non-mine of a board without an exploded mine -/

theorem checkGameStatusWith_safe (Inv : Minesweeper → Prop)
    (reveal : Minesweeper → Ref → Option Minesweeper)
    (hNoLose : ∀ s, Inv s → lose s = false)
    (hWin : ∀ s, Inv s → win s = true → Inv (disableBoard { s with subtitle := "You Win!" }))
    (s s1 : Minesweeper) (hs : Inv s) (h : checkGameStatusWith reveal s = some s1) :
    Inv s1 := by
  cases hw : win s with
  | true =>
    rw [checkGameStatusWith_win _ s hw, Option.some.injEq] at h
    exact h ▸ hWin s hs hw
  | false =>
    rw [checkGameStatusWith_neither _ s hw (hNoLose s hs), Option.some.injEq] at h
    exact h ▸ hs

/-- A property that excludes an exploded mine, and that the assignments of the non-mine
path of `revealTile` and the winning branch of `checkGameStatus` keep, is kept by a
call of `revealTile` on a non-mine. -/
theorem revealTile_safe_preserves (Inv : Minesweeper → Prop)
    (hNoLose : ∀ s, Inv s → lose s = false)
    (hZero : ∀ s r tile, Inv s → tileAt s r = some tile → tile.status = HIDDEN →
      tile.mine = false →
      ((getNearByTiles (setStatus s r NUMBER) tile.x tile.y).filter
        (isMine (setStatus s r NUMBER))).length = 0 → Inv (setStatus s r NUMBER))
    (hCount : ∀ s r tile, Inv s → tileAt s r = some tile → tile.status = HIDDEN →
      tile.mine = false →
      ((getNearByTiles (setStatus s r NUMBER) tile.x tile.y).filter
        (isMine (setStatus s r NUMBER))).length ≠ 0 →
      Inv (setMineCount (setStatus s r NUMBER) r
        ((getNearByTiles (setStatus s r NUMBER) tile.x tile.y).filter
          (isMine (setStatus s r NUMBER))).length))
    (hWin : ∀ s, Inv s → win s = true → Inv (disableBoard { s with subtitle := "You Win!" })) :
    ∀ fuel s r s1, Inv s → isMine s r = false → revealTile fuel s r = some s1 → Inv s1 := by
  intro fuel
  induction fuel with
  | zero =>
    intro s r s1 _ _ h
    simp [revealTile] at h
  | succ fuel ih =>
    intro s r s1 hs hmr h
    cases ht : tileAt s r with
    | none => rw [revealTile_none _ _ _ ht] at h; cases h
    | some tile =>
      have hm : tile.mine = false := by simpa [isMine, ht] using hmr
      by_cases hh : tile.status = HIDDEN
      · by_cases hz : ((getNearByTiles (setStatus s r NUMBER) tile.x tile.y).filter
            (isMine (setStatus s r NUMBER))).length = 0
        · rw [revealTile_cascade fuel s r tile ht hh hm hz, Option.bind_eq_some] at h
          obtain ⟨s2, h2, h3⟩ := h
          have hadj : ∀ x ∈ getNearByTiles (setStatus s r NUMBER) tile.x tile.y,
              isMine (setStatus s r NUMBER) x = false := by
            intro x hx
            cases hmx : isMine (setStatus s r NUMBER) x with
            | false => rfl
            | true =>
              have : x ∈ (getNearByTiles (setStatus s r NUMBER) tile.x tile.y).filter
                  (isMine (setStatus s r NUMBER)) := List.mem_filter.mpr ⟨hx, hmx⟩
              rw [List.length_eq_zero.mp hz] at this
              cases this
          have hfold := forEach_preserves
            (fun s3 => Inv s3 ∧ Evolves (setStatus s r NUMBER) s3)
            (getNearByTiles (setStatus s r NUMBER) tile.x tile.y) (revealTile fuel)
            (fun s3 x s4 hx hs3 h4 =>
              ⟨ih s3 x s4 hs3.1 (by rw [hs3.2.isMine]; exact hadj x hx) h4,
                hs3.2.trans (revealTile_evolves fuel s3 s4 x h4)⟩)
            (setStatus s r NUMBER) s2 ⟨hZero s r tile hs ht hh hm hz, Evolves.refl _⟩ h2
          exact checkGameStatusWith_safe Inv _ hNoLose hWin s2 s1 hfold.1 h3
        · rw [revealTile_number fuel s r tile ht hh hm hz] at h
          exact checkGameStatusWith_safe Inv _ hNoLose hWin _ s1
            (hCount s r tile hs ht hh hm hz) h
      · rw [revealTile_not_hidden fuel s r tile ht hh, Option.some.injEq] at h
        exact h ▸ hs

theorem lose_setStatus_number (s : Minesweeper) (r : Ref) (hl : lose s = false) :
    lose (setStatus s r NUMBER) = false :=
  lose_modifyTile_false s r _ (fun _ _ => by simp) hl

theorem lose_setMineCount (s : Minesweeper) (r : Ref) (k : Nat) :
    lose (setMineCount s r k) = lose s := by
  rw [Bool.eq_iff_iff, lose_iff_statusAt, lose_iff_statusAt]
  simp only [statusAt_setMineCount]

theorem revealTile_safe_no_lose (fuel : Nat) (s s1 : Minesweeper) (r : Ref)
    (hl : lose s = false) (hm : isMine s r = false) (h : revealTile fuel s r = some s1) :
    lose s1 = false := by
  refine revealTile_safe_preserves (fun s => lose s = false) (fun _ h => h) ?_ ?_ ?_
    fuel s r s1 hl hm h
  · intro s r tile hs _ _ _ _
    exact lose_setStatus_number s r hs
  · intro s r tile hs _ _ _ _
    show lose (setMineCount _ _ _) = false
    rw [lose_setMineCount]
    exact lose_setStatus_number s r hs
  · intro s hs _
    show lose (disableBoard _) = false
    rw [lose_disableBoard]
    exact hs

/-- C18. A safe click stays safe: on a board without an exploded mine, `revealTile` on a
non-mine (hidden or not) returns, given more fuel than hidden tiles; every tile whose
status changed was a hidden non-mine and is a "number" now; the status of every mine
and of every flagged tile is what it was; no tile has status "mine" afterwards. -/
theorem revealTile_safe (fuel : Nat) (s : Minesweeper) (r : Ref) (tile : Tile)
    (hl : lose s = false) (ht : tileAt s r = some tile)
    (hm : tile.mine = false) (hfuel : hiddenCount s < fuel) :
    ∃ s1, revealTile fuel s r = some s1 ∧ lose s1 = false ∧
      (∀ q, statusAt s1 q ≠ some MINE) ∧
      ∀ q, frameAt s1 q = frameAt s q ∧
        (statusAt s1 q = statusAt s q ∨
          (statusAt s q = some HIDDEN ∧ isMine s q = false ∧ statusAt s1 q = some NUMBER)) ∧
        (isMine s q = true → statusAt s1 q = statusAt s q) ∧
        (statusAt s q = some MARKED → statusAt s1 q = some MARKED) := by
  obtain ⟨s1, h1⟩ := revealTile_total fuel s r (by simp [ht]) hfuel
  have hev := revealTile_evolves fuel s s1 r h1
  have hl1 := revealTile_safe_no_lose fuel s s1 r hl (by simp [isMine, ht, hm]) h1
  have hnm : ∀ q, statusAt s1 q ≠ some MINE := by
    intro q hq
    rw [lose_of_mine_status s1 q hq] at hl1
    cases hl1
  have hstep : ∀ q, statusAt s1 q = statusAt s q ∨
      (statusAt s q = some HIDDEN ∧ isMine s q = false ∧ statusAt s1 q = some NUMBER) := by
    intro q
    rcases hev.2 q with e | ⟨hq, ⟨e, hmq⟩ | ⟨e, _⟩⟩
    · exact Or.inl e
    · exact Or.inr ⟨hq, hmq, e⟩
    · exact absurd e (hnm q)
  refine ⟨s1, h1, hl1, hnm, fun q => ⟨hev.1 q, hstep q, fun hmq => ?_, fun hmk => ?_⟩⟩
  · rcases hstep q with e | ⟨_, e, _⟩
    · exact e
    · rw [hmq] at e; cases e
  · rcases hstep q with e | ⟨e, _, _⟩
    · rw [e]; exact hmk
    · rw [hmk] at e; cases e

/-- C18 at a concrete input: the hidden non-mine `board[1][1]` of a fresh 2×2 board with
a mine at `board[0][0]`. -/
theorem revealTile_safe_witness :
    ∃ s1, revealTile 5 (initializeFrom 2 1 [⟨0, 0⟩]) ⟨1, 1⟩ = some s1 ∧ lose s1 = false ∧
      (∀ q, statusAt s1 q ≠ some MINE) ∧
      ∀ q, frameAt s1 q = frameAt (initializeFrom 2 1 [⟨0, 0⟩]) q ∧
        (statusAt s1 q = statusAt (initializeFrom 2 1 [⟨0, 0⟩]) q ∨
          (statusAt (initializeFrom 2 1 [⟨0, 0⟩]) q = some HIDDEN ∧
            isMine (initializeFrom 2 1 [⟨0, 0⟩]) q = false ∧ statusAt s1 q = some NUMBER)) ∧
        (isMine (initializeFrom 2 1 [⟨0, 0⟩]) q = true →
          statusAt s1 q = statusAt (initializeFrom 2 1 [⟨0, 0⟩]) q) ∧
        (statusAt (initializeFrom 2 1 [⟨0, 0⟩]) q = some MARKED →
          statusAt s1 q = some MARKED) :=
  revealTile_safe 5 (initializeFrom 2 1 [⟨0, 0⟩]) ⟨1, 1⟩ ⟨1, 1, false, HIDDEN, none, false⟩
    (by decide) (by decide) rfl (by decide)

end Minesweeper

namespace Minesweeper

open TileStatus

/-! ## More fuel gives the same result -/

theorem forEach_mono {α σ : Type} (xs : List α) (f g : σ → α → Option σ)
    (hfg : ∀ s x s1, f s x = some s1 → g s x = some s1) :
    ∀ s s1, forEach xs f s = some s1 → forEach xs g s = some s1 := by
  induction xs with
  | nil => intro s s1 h; exact h
  | cons x xs ih =>
    intro s s1 h
    rw [forEach_cons, Option.bind_eq_some] at h
    obtain ⟨s2, h2, h3⟩ := h
    rw [forEach_cons, hfg s x s2 h2]
    exact ih s2 s1 h3

theorem checkGameStatusWith_mono (f g : Minesweeper → Ref → Option Minesweeper)
    (hfg : ∀ s x s1, f s x = some s1 → g s x = some s1) (s s1 : Minesweeper)
    (h : checkGameStatusWith f s = some s1) : checkGameStatusWith g s = some s1 := by
  cases hw : win s with
  | true =>
    rw [checkGameStatusWith_win _ s hw] at h ⊢
    exact h
  | false =>
    cases hl : lose s with
    | false =>
      rw [checkGameStatusWith_neither _ s hw hl] at h ⊢
      exact h
    | true =>
      rw [checkGameStatusWith_lose _ s hw hl, Option.map_eq_some'] at h
      obtain ⟨s2, h2, rfl⟩ := h
      rw [checkGameStatusWith_lose _ s hw hl]
      have hmono : ∀ s x s1, revealIfMine f s x = some s1 → revealIfMine g s x = some s1 := by
        intro s x s1 hx
        unfold revealIfMine at hx ⊢
        cases ht : tileAt s x with
        | none => simp [ht] at hx
        | some tile =>
          simp only [ht] at hx ⊢
          cases hm : tile.mine with
          | false => simpa [hm] using hx
          | true =>
            simp only [hm, if_true] at hx ⊢
            exact hfg s x s1 hx
      rw [forEach_mono _ _ _ hmono _ s2 h2]
      rfl

theorem revealTile_fuel_succ (fuel : Nat) :
    ∀ s r s1, revealTile fuel s r = some s1 → revealTile (fuel + 1) s r = some s1 := by
  induction fuel with
  | zero =>
    intro s r s1 h
    simp [revealTile] at h
  | succ fuel ih =>
    intro s r s1 h
    cases ht : tileAt s r with
    | none => rw [revealTile_none _ _ _ ht] at h; cases h
    | some tile =>
      by_cases hh : tile.status = HIDDEN
      · cases hm : tile.mine with
        | true =>
          rw [revealTile_mine _ s r tile ht hh hm] at h ⊢
          exact checkGameStatusWith_mono _ _ ih _ s1 h
        | false =>
          by_cases hz : ((getNearByTiles (setStatus s r NUMBER) tile.x tile.y).filter
              (isMine (setStatus s r NUMBER))).length = 0
          · rw [revealTile_cascade _ s r tile ht hh hm hz, Option.bind_eq_some] at h
            obtain ⟨s2, h2, h3⟩ := h
            rw [revealTile_cascade _ s r tile ht hh hm hz, forEach_mono _ _ _ ih _ s2 h2]
            exact checkGameStatusWith_mono _ _ ih _ s1 h3
          · rw [revealTile_number _ s r tile ht hh hm hz] at h ⊢
            exact checkGameStatusWith_mono _ _ ih _ s1 h
      · rw [revealTile_not_hidden _ s r tile ht hh] at h ⊢
        exact h

/-- The result of `revealTile` does not depend on the fuel, once there is enough. -/
theorem revealTile_fuel_le (fuel fuel1 : Nat) (hle : fuel ≤ fuel1) (s s1 : Minesweeper)
    (r : Ref) (h : revealTile fuel s r = some s1) : revealTile fuel1 s r = some s1 := by
  induction hle with
  | refl => exact h
  | step _ ih => exact revealTile_fuel_succ _ s r s1 ih

/-! ## The number of tiles that a call changes -/

theorem revealTile_hiddenCount_lt (fuel : Nat) (s s1 : Minesweeper) (r : Ref) (tile : Tile)
    (ht : tileAt s r = some tile) (hh : tile.status = HIDDEN)
    (h : revealTile fuel s r = some s1) : hiddenCount s1 < hiddenCount s := by
  have hcheck : ∀ fuel s2 s3, checkGameStatusWith (revealTile fuel) s2 = some s3 →
      hiddenCount s3 ≤ hiddenCount s2 := by
    intro fuel s2 s3 h3
    refine checkGameStatusWith_preserves (fun s4 => hiddenCount s4 ≤ hiddenCount s2)
      (revealTile fuel) ?_ ?_ ?_ ?_ s2 s3 (Nat.le_refl _) h3
    · intro s4 x s5 hs4 _ h5
      exact Nat.le_trans (revealTile_hiddenCount_le fuel s4 s5 x h5) hs4
    · intro s4 hs4 _
      show hiddenCount (disableBoard _) ≤ _
      rw [hiddenCount_disableBoard]
      exact hs4
    · intro s4 hs4 _ _
      exact hs4
    · intro s4 hs4
      show hiddenCount (disableBoard _) ≤ _
      rw [hiddenCount_disableBoard]
      exact hs4
  cases fuel with
  | zero => simp [revealTile] at h
  | succ fuel =>
    cases hm : tile.mine with
    | true =>
      rw [revealTile_mine _ s r tile ht hh hm] at h
      have h1 := hiddenCount_setStatus s r tile MINE ht hh (by decide)
      have h2 := hcheck fuel _ s1 h
      omega
    | false =>
      have h1 := hiddenCount_setStatus s r tile NUMBER ht hh (by decide)
      by_cases hz : ((getNearByTiles (setStatus s r NUMBER) tile.x tile.y).filter
          (isMine (setStatus s r NUMBER))).length = 0
      · rw [revealTile_cascade _ s r tile ht hh hm hz, Option.bind_eq_some] at h
        obtain ⟨s2, h2, h3⟩ := h
        have h4 := forEach_preserves
          (fun s3 => hiddenCount s3 ≤ hiddenCount (setStatus s r NUMBER)) _ (revealTile fuel)
          (fun s3 x s4 _ hs3 h4 =>
            Nat.le_trans (revealTile_hiddenCount_le fuel s3 s4 x h4) hs3)
          (setStatus s r NUMBER) s2 (Nat.le_refl _) h2
        have h5 := hcheck fuel s2 s1 h3
        omega
      · rw [revealTile_number _ s r tile ht hh hm hz] at h
        have h2 := hcheck fuel _ s1 h
        rw [hiddenCount_setMineCount] at h2
        omega

end Minesweeper

namespace Minesweeper

open TileStatus

theorem map_getElem?_range {α : Type} (l : List α) :
    (List.range l.length).map (fun i => l[i]?) = l.map some := by
  apply List.ext_getElem (by simp)
  intro i h1 h2
  simp at h1
  simp [List.getElem?_eq_getElem h1]

/-- The tiles of `board.flat()`, listed reference by reference. -/
theorem flatten_map_some (b : List (List Tile)) :
    ((List.range b.length).flatMap fun row =>
      (List.range ((b[row]?).getD []).length).map fun col =>
        (b[row]?).bind fun column => column[col]?) = b.flatten.map some := by
  induction b with
  | nil => rfl
  | cons c b ih =>
    rw [List.length_cons, List.range_succ_eq_map, List.flatMap_cons, List.flatMap_map,
      List.flatten_cons, List.map_append, ← ih]
    congr 1
    · simp only [List.getElem?_cons_zero, Option.getD_some, Option.some_bind]
      exact map_getElem?_range c
    · simp only [Nat.succ_eq_add_one, List.getElem?_cons_succ]

theorem allRefs_map_tileAt (s : Minesweeper) :
    (allRefs s).map (tileAt s) = s.board.flatten.map some := by
  rw [← flatten_map_some, allRefs, List.map_flatMap]
  congr 1
  funext row
  rw [List.map_map]
  congr 1
  funext col
  simp only [Function.comp_apply, tileAt]
  cases s.board[row]? <;> rfl

theorem countP_flatten_eq (s : Minesweeper) (p : Tile → Bool) :
    s.board.flatten.countP p = (allRefs s).countP fun q => (tileAt s q).any p := by
  have h1 : s.board.flatten.countP p =
      (s.board.flatten.map some).countP (fun o : Option Tile => o.any p) := by
    rw [List.countP_map]
    rfl
  rw [h1, ← allRefs_map_tileAt, List.countP_map]
  rfl

theorem hiddenCount_eq_allRefs (s : Minesweeper) :
    hiddenCount s = (allRefs s).countP fun q => statusAt s q == some HIDDEN := by
  rw [hiddenCount_eq, countP_flatten_eq]
  congr 1
  funext q
  unfold statusAt
  cases tileAt s q with
  | none => rfl
  | some t => cases hst : t.status <;> simp [hst]

theorem allRefs_modifyTile (s : Minesweeper) (r : Ref) (f : Tile → Tile) :
    allRefs (modifyTile s r f) = allRefs s := by
  unfold allRefs modifyTile
  simp only [length_modifyAt, getElem?_modifyAt]
  congr 1
  funext row
  congr 2
  by_cases hrow : row = r.row
  · rw [if_pos hrow]
    cases s.board[row]? with
    | none => rfl
    | some column => simp [length_modifyAt]
  · rw [if_neg hrow]

theorem allRefs_disableBoard (s : Minesweeper) : allRefs (disableBoard s) = allRefs s := by
  unfold allRefs disableBoard
  simp only [List.length_map, List.getElem?_map]
  congr 1
  funext row
  congr 2
  cases s.board[row]? <;> simp

/-- A call of `revealTile` keeps the list of tiles of the board. -/
theorem revealTile_allRefs (fuel : Nat) (s s1 : Minesweeper) (r : Ref)
    (h : revealTile fuel s r = some s1) : allRefs s1 = allRefs s := by
  refine revealTile_preserves (fun s2 => allRefs s2 = allRefs s) ?_ ?_ ?_ ?_ ?_ ?_
    fuel s r s1 rfl h
  · intro s2 r _ hs _ _ _
    exact (allRefs_modifyTile s2 r _).trans hs
  · intro s2 r _ hs _ _ _
    exact (allRefs_modifyTile s2 r _).trans hs
  · intro s2 r k hs
    exact (allRefs_modifyTile s2 r _).trans hs
  · intro s2 hs _
    exact (allRefs_disableBoard _).trans hs
  · intro s2 hs _ _
    exact hs
  · intro s2 hs
    exact (allRefs_disableBoard _).trans hs

theorem countP_add_of_pointwise {α : Type} (a b c : α → Bool) (l : List α)
    (h : ∀ x ∈ l, (a x).toNat + (b x).toNat = (c x).toNat) :
    l.countP a + l.countP b = l.countP c := by
  induction l with
  | nil => rfl
  | cons x l ih =>
    have hx := h x (List.mem_cons_self _ _)
    have hl := ih (fun y hy => h y (List.mem_cons_of_mem _ hy))
    simp only [List.countP_cons]
    cases ha : a x <;> cases hb : b x <;> cases hc : c x <;>
      simp [ha, hb, hc] at hx ⊢ <;> omega

/-- The tiles that a call changes are hidden tiles that it makes non-hidden. -/
theorem changedCount_add_hiddenCount (s s1 : Minesweeper) (hev : Evolves s s1)
    (hrefs : allRefs s1 = allRefs s) : changedCount s s1 + hiddenCount s1 = hiddenCount s := by
  rw [hiddenCount_eq_allRefs s1, hiddenCount_eq_allRefs s, hrefs]
  apply countP_add_of_pointwise
  intro q _
  rcases hev.2 q with e | ⟨hh, e⟩
  · rw [e]
    simp
  · rw [hh]
    rcases e with ⟨e, _⟩ | ⟨e, _⟩ <;> rw [e] <;> decide

theorem flatten_length_of_wellFormed (s : Minesweeper) (hwf : WellFormed s) :
    s.board.flatten.length = s.BOARD_SIZE ^ 2 := by
  obtain ⟨hlen, hrows, _⟩ := hwf
  have : ∀ (b : List (List Tile)) (n : Nat), (∀ c ∈ b, c.length = n) →
      b.flatten.length = b.length * n := by
    intro b n hb
    induction b with
    | nil => simp
    | cons c b ih =>
      rw [List.flatten_cons, List.length_append, hb c (List.mem_cons_self _ _),
        ih (fun d hd => hb d (List.mem_cons_of_mem _ hd)), List.length_cons]
      ring
  rw [this s.board s.BOARD_SIZE hrows, hlen]
  ring

theorem hiddenCount_le_of_wellFormed (s : Minesweeper) (hwf : WellFormed s) :
    hiddenCount s ≤ s.BOARD_SIZE ^ 2 := by
  rw [← flatten_length_of_wellFormed s hwf, hiddenCount_eq]
  exact List.countP_le_length _

/-- C13. Termination of reveal: on a well-formed board of side `BOARD_SIZE`, `revealTile`
on a tile returns one and the same state for every fuel above `BOARD_SIZE²` (and
`checkGameStatus` returns as well); the tiles whose status changed are hidden tiles
that are no longer hidden, their number is the drop of the number of hidden tiles and
is at most `BOARD_SIZE²`; and every call of `revealTile`, nested or not, either
changes nothing or strictly lowers the number of hidden tiles. -/
theorem revealTile_terminates (s : Minesweeper) (r : Ref) (hwf : WellFormed s)
    (hv : (tileAt s r).isSome = true) :
    (∃ s1, (∀ fuel, s.BOARD_SIZE ^ 2 < fuel → revealTile fuel s r = some s1) ∧
      changedCount s s1 + hiddenCount s1 = hiddenCount s ∧
      changedCount s s1 ≤ s.BOARD_SIZE ^ 2 ∧
      ∀ q, statusAt s1 q ≠ statusAt s q →
        statusAt s q = some HIDDEN ∧ statusAt s1 q ≠ some HIDDEN) ∧
    (∀ fuel, s.BOARD_SIZE ^ 2 < fuel → (checkGameStatus fuel s).isSome = true) ∧
    (∀ fuel (s2 s3 : Minesweeper) (q : Ref), revealTile fuel s2 q = some s3 →
      s3 = s2 ∨ hiddenCount s3 < hiddenCount s2) := by
  have hle := hiddenCount_le_of_wellFormed s hwf
  refine ⟨?_, ?_, ?_⟩
  · obtain ⟨s1, h1⟩ := revealTile_total (s.BOARD_SIZE ^ 2 + 1) s r hv (by omega)
    have hev := revealTile_evolves _ s s1 r h1
    have hsum := changedCount_add_hiddenCount s s1 hev (revealTile_allRefs _ s s1 r h1)
    refine ⟨s1, fun fuel hf => revealTile_fuel_le _ fuel (by omega) s s1 r h1, hsum,
      by omega, fun q hq => ?_⟩
    rcases hev.2 q with e | ⟨hh, e⟩
    · exact absurd e hq
    · refine ⟨hh, ?_⟩
      rcases e with ⟨e, _⟩ | ⟨e, _⟩ <;> rw [e] <;> simp
  · intro fuel hf
    obtain ⟨s1, h1⟩ := checkGameStatusWith_total fuel (revealTile_total fuel) s (by omega)
    unfold checkGameStatus
    rw [h1]
    rfl
  · intro fuel s2 s3 q h
    cases ht : tileAt s2 q with
    | none => rw [revealTile_none _ _ _ ht] at h; cases h
    | some tile =>
      by_cases hh : tile.status = HIDDEN
      · exact Or.inr (revealTile_hiddenCount_lt fuel s2 s3 q tile ht hh h)
      · left
        cases fuel with
        | zero => simp [revealTile] at h
        | succ fuel =>
          rw [revealTile_not_hidden fuel s2 q tile ht hh, Option.some.injEq] at h
          exact h.symm

/-- C13 at a concrete input: revealing `board[1][1]` of a fresh 2×2 board with a mine at
`board[0][0]`. -/
theorem revealTile_terminates_witness :
    ∃ s1, (∀ fuel, (initializeFrom 2 1 [⟨0, 0⟩]).BOARD_SIZE ^ 2 < fuel →
        revealTile fuel (initializeFrom 2 1 [⟨0, 0⟩]) ⟨1, 1⟩ = some s1) ∧
      changedCount (initializeFrom 2 1 [⟨0, 0⟩]) s1 + hiddenCount s1 =
        hiddenCount (initializeFrom 2 1 [⟨0, 0⟩]) ∧
      changedCount (initializeFrom 2 1 [⟨0, 0⟩]) s1 ≤
        (initializeFrom 2 1 [⟨0, 0⟩]).BOARD_SIZE ^ 2 ∧
      ∀ q, statusAt s1 q ≠ statusAt (initializeFrom 2 1 [⟨0, 0⟩]) q →
        statusAt (initializeFrom 2 1 [⟨0, 0⟩]) q = some HIDDEN ∧
          statusAt s1 q ≠ some HIDDEN :=
  (revealTile_terminates (initializeFrom 2 1 [⟨0, 0⟩]) ⟨1, 1⟩ (by decide) (by decide)).1

end Minesweeper

namespace Minesweeper

open TileStatus

/-! ## The stored count -/

/-- The invariant rule of `revealTile` with the two assignments of the counting branch
taken together. -/
theorem revealTile_preserves_count (Inv : Minesweeper → Prop)
    (hMine : ∀ s r tile, Inv s → tileAt s r = some tile → tile.status = HIDDEN →
      tile.mine = true → Inv (setStatus s r MINE))
    (hZero : ∀ s r tile, Inv s → tileAt s r = some tile → tile.status = HIDDEN →
      tile.mine = false →
      ((getNearByTiles (setStatus s r NUMBER) tile.x tile.y).filter
        (isMine (setStatus s r NUMBER))).length = 0 → Inv (setStatus s r NUMBER))
    (hCount : ∀ s r tile, Inv s → tileAt s r = some tile → tile.status = HIDDEN →
      tile.mine = false →
      ((getNearByTiles (setStatus s r NUMBER) tile.x tile.y).filter
        (isMine (setStatus s r NUMBER))).length ≠ 0 →
      Inv (setMineCount (setStatus s r NUMBER) r
        ((getNearByTiles (setStatus s r NUMBER) tile.x tile.y).filter
          (isMine (setStatus s r NUMBER))).length))
    (hWin : ∀ s, Inv s → win s = true → Inv (disableBoard { s with subtitle := "You Win!" }))
    (hLose : ∀ s, Inv s → win s = false → lose s = true →
      Inv { s with subtitle := "You Lose!" })
    (hDis : ∀ s, Inv s → Inv (disableBoard s)) :
    ∀ fuel s r s1, Inv s → revealTile fuel s r = some s1 → Inv s1 := by
  intro fuel
  induction fuel with
  | zero =>
    intro s r s1 _ h
    simp [revealTile] at h
  | succ fuel ih =>
    intro s r s1 hs h
    have hCheck := checkGameStatusWith_preserves Inv (revealTile fuel)
      (fun s r s1 hs _ => ih s r s1 hs) hWin hLose hDis
    cases ht : tileAt s r with
    | none => rw [revealTile_none _ _ _ ht] at h; cases h
    | some tile =>
      by_cases hh : tile.status = HIDDEN
      · cases hm : tile.mine with
        | true =>
          rw [revealTile_mine _ _ _ _ ht hh hm] at h
          exact hCheck _ _ (hMine s r tile hs ht hh hm) h
        | false =>
          by_cases hz : ((getNearByTiles (setStatus s r NUMBER) tile.x tile.y).filter
              (isMine (setStatus s r NUMBER))).length = 0
          · rw [revealTile_cascade _ _ _ _ ht hh hm hz, Option.bind_eq_some] at h
            obtain ⟨s2, hf, h⟩ := h
            refine hCheck _ _ ?_ h
            exact forEach_preserves Inv _ _ (fun s x s1 _ => ih s x s1) _ _
              (hZero s r tile hs ht hh hm hz) hf
          · rw [revealTile_number _ _ _ _ ht hh hm hz] at h
            exact hCheck _ _ (hCount s r tile hs ht hh hm hz) h
      · rw [revealTile_not_hidden _ _ _ _ ht hh, Option.some.injEq] at h
        exact h ▸ hs

theorem adjacentMines_congr (s s1 : Minesweeper) (h : ∀ q, frameAt s1 q = frameAt s q)
    (q : Ref) : adjacentMines s1 q = adjacentMines s q := by
  unfold adjacentMines
  rw [specNeighbours_congr s1 s (isSome_eq_of_frameAt s1 s h) q]
  congr 1
  funext n
  exact isMine_eq_of_frameAt s s1 n (h n)

theorem adjacentMines_le (s : Minesweeper) (q : Ref) : adjacentMines s q ≤ 8 :=
  Nat.le_trans (List.countP_le_length _) (length_specNeighbours_le s q)

/-- An assignment to one tile that keeps its frame keeps the invariant, if the new tile
satisfies it. -/
theorem countInvariant_modifyTile (s : Minesweeper) (r : Ref) (f : Tile → Tile)
    (hs : CountInvariant s)
    (hframe : ∀ t, ((f t).x, (f t).y, (f t).mine) = (t.x, t.y, t.mine))
    (hnew : ∀ t, tileAt s r = some t →
      ((f t).status = NUMBER → (f t).mine = false) ∧
        (f t).mineCount =
          if (f t).status = NUMBER ∧ adjacentMines s r ≠ 0 then some (adjacentMines s r)
          else none) :
    CountInvariant (modifyTile s r f) := by
  intro q tile hq
  rw [adjacentMines_congr s _ (fun n => frameAt_modifyTile s r n f hframe) q]
  rw [tileAt_modifyTile] at hq
  by_cases hqr : q = r
  · rw [if_pos hqr] at hq
    cases hq0 : tileAt s q with
    | none => simp [hq0] at hq
    | some t0 =>
      simp only [hq0, Option.map_some', Option.some.injEq] at hq
      subst hq
      have hfr := hframe t0
      simp only [Prod.mk.injEq] at hfr
      have h0 := (hs q t0 hq0).1
      subst hqr
      exact ⟨⟨hfr.1.trans h0.1, hfr.2.1.trans h0.2⟩, hnew t0 hq0⟩
  · rw [if_neg hqr] at hq
    exact hs q tile hq

theorem countInvariant_disableBoard (s : Minesweeper) (hs : CountInvariant s) :
    CountInvariant (disableBoard s) := by
  intro q tile hq
  rw [adjacentMines_congr s _ (frameAt_disableBoard s) q]
  rw [tileAt_disableBoard] at hq
  cases hq0 : tileAt s q with
  | none => simp [hq0] at hq
  | some t0 =>
    simp only [hq0, Option.map_some', Option.some.injEq] at hq
    subst hq
    exact hs q t0 hq0

theorem countInvariant_revealTile (fuel : Nat) (s s1 : Minesweeper) (r : Ref)
    (hs : CountInvariant s) (h : revealTile fuel s r = some s1) : CountInvariant s1 := by
  refine revealTile_preserves_count CountInvariant ?_ ?_ ?_ ?_ ?_ ?_ fuel s r s1 hs h
  · intro s r tile hs ht hh _
    refine countInvariant_modifyTile s r _ hs (fun _ => rfl) (fun t ht1 => ?_)
    rw [ht] at ht1
    cases ht1
    have h0 := (hs r tile ht).2.2
    simp only [hh, false_and, if_false] at h0
    refine ⟨fun hst => (by cases hst), ?_⟩
    show tile.mineCount = _
    rw [h0]
    simp
  · intro s r tile hs ht hh hm hz
    refine countInvariant_modifyTile s r _ hs (fun _ => rfl) (fun t ht1 => ?_)
    rw [ht] at ht1
    cases ht1
    have h0 := (hs r tile ht).2.2
    simp only [hh, false_and, if_false] at h0
    rw [nearByMineTiles_length s r tile NUMBER (hs r tile ht).1 ht hm] at hz
    refine ⟨fun _ => hm, ?_⟩
    show tile.mineCount = _
    rw [h0]
    simp [adjacentMines, hz]
  · intro s r tile hs ht hh hm hz
    rw [nearByMineTiles_length s r tile NUMBER (hs r tile ht).1 ht hm] at hz ⊢
    show CountInvariant (setMineCount (setStatus s r NUMBER) r _)
    unfold setMineCount setStatus
    rw [modifyTile_modifyTile]
    refine countInvariant_modifyTile s r _ hs (fun _ => rfl) (fun t ht1 => ?_)
    rw [ht] at ht1
    cases ht1
    refine ⟨fun _ => hm, ?_⟩
    show some _ = _
    simp [adjacentMines, hz]
  · intro s hs _
    exact countInvariant_disableBoard _ hs
  · intro s hs _ _
    exact hs
  · intro s hs
    exact countInvariant_disableBoard _ hs

theorem countInvariant_reachable (s : Minesweeper) (hr : Reachable s) : CountInvariant s := by
  induction hr with
  | init boardSize numberOfMines draws s _ h =>
    simp only [initializeMinesweeper, Option.map_eq_some'] at h
    obtain ⟨mines, _, rfl⟩ := h
    intro q tile hq
    rw [tileAt_initializeFrom] at hq
    split at hq
    · cases hq
      exact ⟨⟨rfl, rfl⟩, fun hst => (by cases hst), by simp⟩
    · cases hq
  | reveal fuel s s1 r _ h ih => exact countInvariant_revealTile fuel s s1 r ih h
  | mark s s1 r _ h ih =>
    cases ht : tileAt s r with
    | none => simp [markTile, ht] at h
    | some tile =>
      have h0 := (ih r tile ht).2.2
      have hset : ∀ st, st ≠ NUMBER → tile.status ≠ NUMBER →
          CountInvariant (updateMinesLeft (setStatus s r st)) := by
        intro st hst hne
        refine countInvariant_modifyTile s r _ ih (fun _ => rfl) (fun t ht1 => ?_)
        rw [ht] at ht1
        cases ht1
        simp only [hne, false_and, if_false] at h0
        refine ⟨fun h1 => absurd h1 hst, ?_⟩
        show tile.mineCount = _
        rw [h0]
        simp [hst]
      cases hst : tile.status with
      | HIDDEN =>
        rw [markTile_hidden s r tile ht hst, Option.some.injEq] at h
        subst h
        exact hset MARKED (by decide) (by rw [hst]; decide)
      | MARKED =>
        rw [markTile_marked s r tile ht hst, Option.some.injEq] at h
        subst h
        exact hset HIDDEN (by decide) (by rw [hst]; decide)
      | NUMBER =>
        rw [markTile_other s r tile ht (Or.inl hst), Option.some.injEq] at h
        exact h ▸ ih
      | MINE =>
        rw [markTile_other s r tile ht (Or.inr hst), Option.some.injEq] at h
        exact h ▸ ih

/-- C14, as the specification states it, fails: the fresh 1×1 board without mines is
reachable, and after `revealTile` its tile is a revealed non-mine that carries no
`mineCount` (and so not the count 0). -/
theorem revealed_zero_tile_has_no_count :
    initializeMinesweeper 1 0 [] = some (initializeFrom 1 0 []) ∧
      ((revealTile 2 (initializeFrom 1 0 []) ⟨0, 0⟩).bind fun s1 => tileAt s1 ⟨0, 0⟩) =
        some ⟨0, 0, false, NUMBER, none, true⟩ := by
  decide

/-- C14, amended. Presence of the adjacent count: in every reachable state a tile
carries a `mineCount` exactly when its status is "number", it is not a mine and at
least one of its neighbours is a mine; the count is then the number of neighbouring
mines, between 1 and 8; a "number" tile without a neighbouring mine carries none. -/
theorem mineCount_present_iff (s : Minesweeper) (hr : Reachable s) (q : Ref) (tile : Tile)
    (ht : tileAt s q = some tile) :
    (tile.mineCount.isSome = true ↔
      tile.status = NUMBER ∧ tile.mine = false ∧ adjacentMines s q ≠ 0) ∧
    (∀ k, tile.mineCount = some k → k = adjacentMines s q ∧ 1 ≤ k ∧ k ≤ 8) ∧
    (tile.status = NUMBER → adjacentMines s q = 0 → tile.mineCount = none) := by
  obtain ⟨_, hmine, hcount⟩ := countInvariant_reachable s hr q tile ht
  have hle := adjacentMines_le s q
  by_cases hc : tile.status = NUMBER ∧ adjacentMines s q ≠ 0
  · rw [if_pos hc] at hcount
    refine ⟨⟨fun _ => ⟨hc.1, hmine hc.1, hc.2⟩, fun _ => by rw [hcount]; rfl⟩, ?_, ?_⟩
    · intro k hk
      rw [hcount, Option.some.injEq] at hk
      subst hk
      exact ⟨rfl, Nat.one_le_iff_ne_zero.mpr hc.2, hle⟩
    · intro _ hz
      exact absurd hz hc.2
  · rw [if_neg hc] at hcount
    refine ⟨⟨fun h => ?_, fun h => absurd ⟨h.1, h.2.2⟩ hc⟩, ?_, fun _ _ => hcount⟩
    · rw [hcount] at h
      cases h
    · intro k hk
      rw [hcount] at hk
      cases hk

/-- C14 (amended) at a concrete input: the tile `board[0][1]` after it has been revealed on
the fresh 2×2 board with a mine drawn at `(0, 0)`; it carries the count 1. -/
theorem mineCount_present_iff_witness :
    ((⟨1, 0, false, NUMBER, some 1, false⟩ : Tile).mineCount.isSome = true ↔
      (⟨1, 0, false, NUMBER, some 1, false⟩ : Tile).status = NUMBER ∧
        (⟨1, 0, false, NUMBER, some 1, false⟩ : Tile).mine = false ∧
        adjacentMines
          (setMineCount (setStatus (initializeFrom 2 1 [⟨0, 0⟩]) ⟨0, 1⟩ NUMBER) ⟨0, 1⟩ 1)
          ⟨0, 1⟩ ≠ 0) ∧
    (∀ k, (⟨1, 0, false, NUMBER, some 1, false⟩ : Tile).mineCount = some k →
      k = adjacentMines
          (setMineCount (setStatus (initializeFrom 2 1 [⟨0, 0⟩]) ⟨0, 1⟩ NUMBER) ⟨0, 1⟩ 1)
          ⟨0, 1⟩ ∧ 1 ≤ k ∧ k ≤ 8) ∧
    ((⟨1, 0, false, NUMBER, some 1, false⟩ : Tile).status = NUMBER →
      adjacentMines
          (setMineCount (setStatus (initializeFrom 2 1 [⟨0, 0⟩]) ⟨0, 1⟩ NUMBER) ⟨0, 1⟩ 1)
          ⟨0, 1⟩ = 0 →
      (⟨1, 0, false, NUMBER, some 1, false⟩ : Tile).mineCount = none) :=
  mineCount_present_iff
    (setMineCount (setStatus (initializeFrom 2 1 [⟨0, 0⟩]) ⟨0, 1⟩ NUMBER) ⟨0, 1⟩ 1)
    (Reachable.reveal 1 (initializeFrom 2 1 [⟨0, 0⟩]) _ ⟨0, 1⟩
      (Reachable.init 2 1 [⟨0, 1⟩, ⟨0, 1⟩] _ (by decide) (by decide)) (by decide))
    ⟨0, 1⟩ ⟨1, 0, false, NUMBER, some 1, false⟩ (by decide)

end Minesweeper

namespace Minesweeper

open TileStatus

/-! ## The outcome of a safe reveal -/

/-- A call of `revealTile` on a hidden non-mine ends with `checkGameStatus`, which
either finds a win and disables the board, or changes nothing. -/
theorem revealTile_safe_outcome (Inv : Minesweeper → Prop)
    (hNoLose : ∀ s, Inv s → lose s = false)
    (hZero : ∀ s r tile, Inv s → tileAt s r = some tile → tile.status = HIDDEN →
      tile.mine = false →
      ((getNearByTiles (setStatus s r NUMBER) tile.x tile.y).filter
        (isMine (setStatus s r NUMBER))).length = 0 → Inv (setStatus s r NUMBER))
    (hCount : ∀ s r tile, Inv s → tileAt s r = some tile → tile.status = HIDDEN →
      tile.mine = false →
      ((getNearByTiles (setStatus s r NUMBER) tile.x tile.y).filter
        (isMine (setStatus s r NUMBER))).length ≠ 0 →
      Inv (setMineCount (setStatus s r NUMBER) r
        ((getNearByTiles (setStatus s r NUMBER) tile.x tile.y).filter
          (isMine (setStatus s r NUMBER))).length))
    (hWin : ∀ s, Inv s → win s = true → Inv (disableBoard { s with subtitle := "You Win!" }))
    (fuel : Nat) (s s1 : Minesweeper) (r : Ref) (tile : Tile) (hs : Inv s)
    (ht : tileAt s r = some tile) (hh : tile.status = HIDDEN) (hm : tile.mine = false)
    (h : revealTile fuel s r = some s1) :
    ∃ s2, Inv s2 ∧ Evolves s s2 ∧
      ((win s2 = true ∧ s1 = disableBoard { s2 with subtitle := "You Win!" }) ∨
        (win s2 = false ∧ s1 = s2)) := by
  have hcheck : ∀ fuel s2, Inv s2 → Evolves s s2 →
      checkGameStatusWith (revealTile fuel) s2 = some s1 →
      ∃ s2, Inv s2 ∧ Evolves s s2 ∧
        ((win s2 = true ∧ s1 = disableBoard { s2 with subtitle := "You Win!" }) ∨
          (win s2 = false ∧ s1 = s2)) := by
    intro fuel s2 hs2 hev h3
    refine ⟨s2, hs2, hev, ?_⟩
    cases hw : win s2 with
    | true =>
      rw [checkGameStatusWith_win _ s2 hw, Option.some.injEq] at h3
      exact Or.inl ⟨rfl, h3.symm⟩
    | false =>
      rw [checkGameStatusWith_neither _ s2 hw (hNoLose s2 hs2), Option.some.injEq] at h3
      exact Or.inr ⟨rfl, h3.symm⟩
  have hevA : Evolves s (setStatus s r NUMBER) := by
    have := evolves_setStatus s r tile ht hh
    rw [hm] at this
    exact this
  cases fuel with
  | zero => simp [revealTile] at h
  | succ fuel =>
    by_cases hz : ((getNearByTiles (setStatus s r NUMBER) tile.x tile.y).filter
        (isMine (setStatus s r NUMBER))).length = 0
    · rw [revealTile_cascade fuel s r tile ht hh hm hz, Option.bind_eq_some] at h
      obtain ⟨s2, h2, h3⟩ := h
      have hadj : ∀ x ∈ getNearByTiles (setStatus s r NUMBER) tile.x tile.y,
          isMine (setStatus s r NUMBER) x = false := by
        intro x hx
        cases hmx : isMine (setStatus s r NUMBER) x with
        | false => rfl
        | true =>
          have : x ∈ (getNearByTiles (setStatus s r NUMBER) tile.x tile.y).filter
              (isMine (setStatus s r NUMBER)) := List.mem_filter.mpr ⟨hx, hmx⟩
          rw [List.length_eq_zero.mp hz] at this
          cases this
      have hfold := forEach_preserves
        (fun s3 => Inv s3 ∧ Evolves (setStatus s r NUMBER) s3)
        (getNearByTiles (setStatus s r NUMBER) tile.x tile.y) (revealTile fuel)
        (fun s3 x s4 hx hs3 h4 =>
          ⟨revealTile_safe_preserves Inv hNoLose hZero hCount hWin fuel s3 x s4 hs3.1
              (by rw [hs3.2.isMine]; exact hadj x hx) h4,
            hs3.2.trans (revealTile_evolves fuel s3 s4 x h4)⟩)
        (setStatus s r NUMBER) s2 ⟨hZero s r tile hs ht hh hm hz, Evolves.refl _⟩ h2
      exact hcheck fuel s2 hfold.1 (hevA.trans hfold.2) h3
    · rw [revealTile_number fuel s r tile ht hh hm hz] at h
      exact hcheck fuel _ (hCount s r tile hs ht hh hm hz)
        (hevA.trans (evolves_setMineCount _ r _)) h

/-! ## The grid -/

theorem tileAt_isSome_iff (s : Minesweeper) (hwf : WellFormed s) (q : Ref) :
    (tileAt s q).isSome = true ↔ q.row < s.BOARD_SIZE ∧ q.col < s.BOARD_SIZE := by
  obtain ⟨hlen, hrows, _⟩ := hwf
  unfold tileAt
  constructor
  · intro h
    cases hb : s.board[q.row]? with
    | none => simp [hb] at h
    | some column =>
      simp only [hb] at h
      obtain ⟨hi, hc⟩ := List.getElem?_eq_some_iff.mp hb
      have hcl := hrows column (List.mem_iff_getElem?.mpr ⟨_, hb⟩)
      obtain ⟨t, ht⟩ := Option.isSome_iff_exists.mp h
      obtain ⟨hj, _⟩ := List.getElem?_eq_some_iff.mp ht
      omega
  · rintro ⟨hi, hj⟩
    have hrow : q.row < s.board.length := by omega
    rw [List.getElem?_eq_getElem hrow]
    simp only
    have hcl := hrows s.board[q.row] (List.getElem_mem _)
    rw [List.getElem?_eq_getElem (by omega)]
    rfl

theorem nearByTileAt_some (s : Minesweeper) (x y : Nat) (yOffset xOffset : Int) (b : Ref)
    (tile : Tile) (hb : tileAt s b = some tile) (hrow : (b.row : Int) = yOffset + y)
    (hcol : (b.col : Int) = xOffset + x) : nearByTileAt s x y yOffset xOffset = some b := by
  rw [nearByTileAt_eq, if_pos ⟨by omega, by omega⟩]
  have h1 : (yOffset + (y : Int)).toNat = b.row := by omega
  have h2 : (xOffset + (x : Int)).toNat = b.col := by omega
  rw [h1, h2]
  have : Ref.mk b.row b.col = b := rfl
  rw [this, hb]

/-- A tile next to a tile in its row or in its column is one of its neighbours. -/
theorem mem_specNeighbours_of_adjacent (s : Minesweeper) (a b : Ref) (tile : Tile)
    (hb : tileAt s b = some tile)
    (hadj : (a.row = b.row ∧ (a.col + 1 = b.col ∨ b.col + 1 = a.col)) ∨
      (a.col = b.col ∧ (a.row + 1 = b.row ∨ b.row + 1 = a.row))) :
    b ∈ specNeighbours s a := by
  rw [specNeighbours_eq, List.mem_filterMap]
  rcases hadj with ⟨h1, h2 | h2⟩ | ⟨h1, h2 | h2⟩
  · exact ⟨(0, 1), by simp, nearByTileAt_some s _ _ 0 1 b tile hb (by omega) (by omega)⟩
  · exact ⟨(0, -1), by simp, nearByTileAt_some s _ _ 0 (-1) b tile hb (by omega) (by omega)⟩
  · exact ⟨(1, 0), by simp, nearByTileAt_some s _ _ 1 0 b tile hb (by omega) (by omega)⟩
  · exact ⟨(-1, 0), by simp, nearByTileAt_some s _ _ (-1) 0 b tile hb (by omega) (by omega)⟩

/-- The grid is connected: a property of one tile that passes to the tiles next to it in
the row and in the column holds of every tile. -/
theorem grid_connected (n : Nat) (P : Ref → Prop) (r : Ref) (h0 : P r)
    (hr : r.row < n ∧ r.col < n)
    (hstep : ∀ a b : Ref, a.row < n → a.col < n → b.row < n → b.col < n → P a →
      ((a.row = b.row ∧ (a.col + 1 = b.col ∨ b.col + 1 = a.col)) ∨
        (a.col = b.col ∧ (a.row + 1 = b.row ∨ b.row + 1 = a.row))) → P b) :
    ∀ q : Ref, q.row < n → q.col < n → P q := by
  have hrowAux : ∀ d c, c < n → (c + d = r.col ∨ r.col + d = c) → P ⟨r.row, c⟩ := by
    intro d
    induction d with
    | zero =>
      intro c _ hc
      have : (⟨r.row, c⟩ : Ref) = r := by
        cases r
        simp only [Ref.mk.injEq, true_and]
        simp only at hc
        omega
      rw [this]
      exact h0
    | succ d ih =>
      intro c hc hd
      rcases hd with hd | hd
      · exact hstep ⟨r.row, c + 1⟩ ⟨r.row, c⟩ hr.1 (by simp only; omega) hr.1 hc
          (ih (c + 1) (by omega) (Or.inl (by omega))) (Or.inl ⟨rfl, Or.inr rfl⟩)
      · cases c with
        | zero => omega
        | succ c =>
          exact hstep ⟨r.row, c⟩ ⟨r.row, c + 1⟩ hr.1 (by simp only; omega) hr.1 hc
            (ih c (by omega) (Or.inr (by omega))) (Or.inl ⟨rfl, Or.inl rfl⟩)
  have hrow : ∀ c, c < n → P ⟨r.row, c⟩ := by
    intro c hc
    rcases Nat.le_total c r.col with h | h
    · exact hrowAux (r.col - c) c hc (Or.inl (by omega))
    · exact hrowAux (c - r.col) c hc (Or.inr (by omega))
  have hcolAux : ∀ d i c, i < n → c < n → (i + d = r.row ∨ r.row + d = i) → P ⟨i, c⟩ := by
    intro d
    induction d with
    | zero =>
      intro i c _ hc hi
      have : i = r.row := by omega
      rw [this]
      exact hrow c hc
    | succ d ih =>
      intro i c hi hc hd
      rcases hd with hd | hd
      · exact hstep ⟨i + 1, c⟩ ⟨i, c⟩ (by simp only; omega) hc hi hc
          (ih (i + 1) c (by omega) hc (Or.inl (by omega))) (Or.inr ⟨rfl, Or.inr rfl⟩)
      · cases i with
        | zero => omega
        | succ i =>
          exact hstep ⟨i, c⟩ ⟨i + 1, c⟩ (by simp only; omega) hc hi hc
            (ih i c (by omega) hc (Or.inr (by omega))) (Or.inr ⟨rfl, Or.inl rfl⟩)
  intro q hq1 hq2
  have : q = ⟨q.row, q.col⟩ := rfl
  rw [this]
  rcases Nat.le_total q.row r.row with h | h
  · exact hcolAux (r.row - q.row) q.row q.col hq1 hq2 (Or.inl (by omega))
  · exact hcolAux (q.row - r.row) q.row q.col hq1 hq2 (Or.inr (by omega))

end Minesweeper

namespace Minesweeper

open TileStatus

/-! ## The board without mines -/

theorem forall_tile_modifyTile (P : Tile → Prop) (s : Minesweeper) (r : Ref) (f : Tile → Tile)
    (hs : ∀ q t, tileAt s q = some t → P t) (hf : ∀ t, P t → P (f t)) :
    ∀ q t, tileAt (modifyTile s r f) q = some t → P t := by
  intro q t hq
  rw [tileAt_modifyTile] at hq
  by_cases hqr : q = r
  · rw [if_pos hqr] at hq
    cases hq0 : tileAt s q with
    | none => simp [hq0] at hq
    | some t0 =>
      simp only [hq0, Option.map_some', Option.some.injEq] at hq
      subst hq
      exact hf t0 (hs q t0 hq0)
  · rw [if_neg hqr] at hq
    exact hs q t hq

theorem forall_tile_disableBoard (P : Tile → Prop) (s : Minesweeper)
    (hs : ∀ q t, tileAt s q = some t → P t)
    (hf : ∀ t : Tile, P t → P { t with disabled := true }) :
    ∀ q t, tileAt (disableBoard s) q = some t → P t := by
  intro q t hq
  rw [tileAt_disableBoard] at hq
  cases hq0 : tileAt s q with
  | none => simp [hq0] at hq
  | some t0 =>
    simp only [hq0, Option.map_some', Option.some.injEq] at hq
    subst hq
    exact hf t0 (hs q t0 hq0)

/-- On a board without mines, a call of `revealTile` stores no count, and ends with the
evaluation of the board. -/
theorem revealTile_mine_free_outcome (fuel : Nat) (s s1 : Minesweeper) (r : Ref) (tile : Tile)
    (hl : lose s = false) (hmines : ∀ q, isMine s q = false)
    (hcount : ∀ q t, tileAt s q = some t → t.mineCount = none)
    (ht : tileAt s r = some tile) (hh : tile.status = HIDDEN)
    (h : revealTile fuel s r = some s1) :
    (∀ q t, tileAt s1 q = some t → t.mineCount = none) ∧
      (win s1 = true → s1.subtitle = "You Win!" ∧ AllDisabled s1) := by
  have hm : tile.mine = false := by simpa [isMine, ht] using hmines r
  have key := revealTile_safe_outcome
    (fun s => lose s = false ∧ (∀ q, isMine s q = false) ∧
      ∀ q t, tileAt s q = some t → t.mineCount = none)
    (fun _ h => h.1) ?_ ?_ ?_ fuel s s1 r tile ⟨hl, hmines, hcount⟩ ht hh hm h
  · obtain ⟨s2, ⟨_, _, hc2⟩, _, hout⟩ := key
    rcases hout with ⟨_, rfl⟩ | ⟨hw2, rfl⟩
    · exact ⟨forall_tile_disableBoard (fun t => t.mineCount = none) _ hc2 (fun _ h => h),
        fun _ => ⟨rfl, allDisabled_disableBoard _⟩⟩
    · exact ⟨hc2, fun hw => by rw [hw2] at hw; cases hw⟩
  · intro s r tile ⟨hl, hmines, hcount⟩ _ _ _ _
    exact ⟨lose_setStatus_number s r hl,
      fun q => (isMine_modifyTile s r q (fun t => { t with status := NUMBER })
        (fun _ => rfl)).trans (hmines q),
      forall_tile_modifyTile (fun t => t.mineCount = none) s r _ hcount (fun _ h => h)⟩
  · intro s r tile ⟨_, hmines, _⟩ _ _ _ hz
    exfalso
    apply hz
    rw [List.length_eq_zero, List.filter_eq_nil_iff]
    intro x _
    rw [show isMine (setStatus s r NUMBER) x = isMine s x from
      isMine_modifyTile s r x (fun t => { t with status := NUMBER }) (fun _ => rfl), hmines x]
    simp
  · intro s ⟨hl, hmines, hcount⟩ _
    refine ⟨by rw [lose_disableBoard]; exact hl, fun q => ?_,
      forall_tile_disableBoard (fun t => t.mineCount = none) _ hcount (fun _ h => h)⟩
    rw [isMine_disableBoard]
    exact hmines q

/-- C17, as the specification states it, fails: on the fresh 2×2 board without mines
one call of `revealTile` reveals the four tiles and wins the game, but no tile is given
the count 0: the field `mineCount` is absent on every tile. -/
theorem mine_free_board_has_no_count :
    initializeMinesweeper 2 0 [] = some (initializeFrom 2 0 []) ∧
      revealTile 5 (initializeFrom 2 0 []) ⟨0, 0⟩ =
        some ⟨2, 0, [],
          [[⟨0, 0, false, NUMBER, none, true⟩, ⟨1, 0, false, NUMBER, none, true⟩],
            [⟨0, 1, false, NUMBER, none, true⟩, ⟨1, 1, false, NUMBER, none, true⟩]],
          "You Win!"⟩ ∧
      ((revealTile 5 (initializeFrom 2 0 []) ⟨0, 0⟩).map fun s1 =>
        s1.board.flatten.map fun t => t.mineCount) = some [none, none, none, none] := by
  decide

/-- C17, amended. Mine-free board: on a well-formed board without mines where every
tile is hidden and carries no count, one call of `revealTile` on any tile returns
(given more fuel than hidden tiles); afterwards every tile is a "number", has zero
neighbouring mines, carries no count (the field stays absent) and shows no text, the
board is won, the status line is "You Win!" and every tile is disabled. -/
theorem revealTile_mine_free (fuel : Nat) (s : Minesweeper) (r : Ref) (tile : Tile)
    (hwf : WellFormed s)
    (hall : ∀ t ∈ s.board.flatten, t.status = HIDDEN ∧ t.mine = false ∧ t.mineCount = none)
    (ht : tileAt s r = some tile) (hfuel : hiddenCount s < fuel) :
    ∃ s1, revealTile fuel s r = some s1 ∧
      (∀ q, (tileAt s q).isSome = true →
        ∃ t, tileAt s1 q = some t ∧ t.status = NUMBER ∧ adjacentMines s1 q = 0 ∧
          t.mineCount = none ∧ tileText t = "") ∧
      win s1 = true ∧ s1.subtitle = "You Win!" ∧ AllDisabled s1 := by
  have htile : ∀ q t, tileAt s q = some t →
      t.status = HIDDEN ∧ t.mine = false ∧ t.mineCount = none :=
    fun q t hq => hall t ((mem_flatten_iff s t).mpr ⟨q, hq⟩)
  have hmines : ∀ q, isMine s q = false := by
    intro q
    unfold isMine
    cases hq : tileAt s q with
    | none => rfl
    | some t => exact (htile q t hq).2.1
  have hhid : ∀ q, statusAt s q = none ∨ statusAt s q = some HIDDEN := by
    intro q
    unfold statusAt
    cases hq : tileAt s q with
    | none => exact Or.inl rfl
    | some t => right; simp [(htile q t hq).1]
  have hnoNum : ∀ q, statusAt s q ≠ some NUMBER := by
    intro q hq
    rcases hhid q with e | e <;> rw [hq] at e <;> cases e
  have hl : lose s = false := lose_false_of_hiddenOrNumber s (fun q => (hhid q).imp id Or.inl)
  obtain ⟨s1, h1⟩ := revealTile_total fuel s r (by simp [ht]) hfuel
  have hev := revealTile_evolves fuel s s1 r h1
  obtain ⟨hHN1, _, hO1⟩ := revealTile_cascadeStep s (fun _ => True)
    (fun q t hq => wellFormed_coords s hwf q t hq) (fun _ _ _ _ _ _ => trivial)
    fuel s r s1 (fun _ => rfl) (fun q => (hhid q).imp id Or.inl) (fun _ _ => trivial)
    (hmines r) trivial h1
  have hnum : ∀ q, (tileAt s q).isSome = true → statusAt s1 q ≠ some HIDDEN →
      statusAt s1 q = some NUMBER := by
    intro q hq hnh
    rcases hHN1 q with e | e | ⟨e, _⟩
    · exfalso
      rw [← hev.tileAt_isSome] at hq
      unfold statusAt at e
      cases h0 : tileAt s1 q with
      | none => simp [h0] at hq
      | some t => simp [h0] at e
    · exact absurd e hnh
    · exact e
  have hnbr : ∀ z, statusAt s1 z = some NUMBER → ∀ q ∈ specNeighbours s z,
      statusAt s1 q = some NUMBER := by
    intro z hzn q hq
    refine hnum q (mem_specNeighbours_isSome s z q hq) (fun hqh => ?_)
    exact hnoNum z (hO1 z hzn (fun n _ => hmines n) ⟨q, hq, hqh⟩)
  -- every tile of the grid is reached
  have hallNum : ∀ q, (tileAt s q).isSome = true → statusAt s1 q = some NUMBER := by
    intro q hq
    have hr := (tileAt_isSome_iff s hwf r).mp (by simp [ht])
    have hq' := (tileAt_isSome_iff s hwf q).mp hq
    refine grid_connected s.BOARD_SIZE (fun q => statusAt s1 q = some NUMBER) r
      (hnum r (by simp [ht]) (revealTile_target_not_hidden fuel s s1 r h1)) hr ?_ q hq'.1 hq'.2
    intro a b _ _ hb1 hb2 ha hadj
    obtain ⟨tb, htb⟩ := Option.isSome_iff_exists.mp
      ((tileAt_isSome_iff s hwf b).mpr ⟨hb1, hb2⟩)
    exact hnbr a ha b (mem_specNeighbours_of_adjacent s a b tb htb hadj)
  have hstatus : ∀ q t, tileAt s1 q = some t → t.status = NUMBER := by
    intro q t hq
    have := hallNum q (by rw [← hev.tileAt_isSome, hq]; rfl)
    simpa [statusAt, hq] using this
  have hw1 : win s1 = true := (win_iff s1).mpr (fun q t hq => Or.inl (hstatus q t hq))
  obtain ⟨hc1, hwin⟩ := revealTile_mine_free_outcome fuel s s1 r tile hl hmines
    (fun q t hq => (htile q t hq).2.2) ht (htile r tile ht).1 h1
  refine ⟨s1, h1, fun q hq => ?_, hw1, hwin hw1⟩
  obtain ⟨t, ht1⟩ := Option.isSome_iff_exists.mp
    (show (tileAt s1 q).isSome = true by rw [hev.tileAt_isSome]; exact hq)
  refine ⟨t, ht1, hstatus q t ht1, ?_, hc1 q t ht1, ?_⟩
  · unfold adjacentMines
    rw [List.countP_eq_zero]
    intro n _
    rw [hev.isMine, hmines n]
    simp
  · simp [tileText, hc1 q t ht1]

/-- C17, amended, at a concrete input: the fresh 2×2 board without mines. -/
theorem revealTile_mine_free_witness :
    ∃ s1, revealTile 5 (initializeFrom 2 0 []) ⟨1, 0⟩ = some s1 ∧
      (∀ q, (tileAt (initializeFrom 2 0 []) q).isSome = true →
        ∃ t, tileAt s1 q = some t ∧ t.status = NUMBER ∧ adjacentMines s1 q = 0 ∧
          t.mineCount = none ∧ tileText t = "") ∧
      win s1 = true ∧ s1.subtitle = "You Win!" ∧ AllDisabled s1 :=
  revealTile_mine_free 5 (initializeFrom 2 0 []) ⟨1, 0⟩ ⟨0, 1, false, HIDDEN, none, false⟩
    (by decide) (by decide) (by decide) (by decide)

end Minesweeper

namespace Minesweeper

open TileStatus

/-! ## The phases of a game -/

theorem win_modifyTile (s : Minesweeper) (r : Ref) (f : Tile → Tile)
    (hf : ∀ t, tileAt s r = some t →
      (((f t).status = NUMBER ∨ ((f t).mine = true ∧ ((f t).status = MARKED ∨
          (f t).status = HIDDEN))) ↔
        (t.status = NUMBER ∨ (t.mine = true ∧ (t.status = MARKED ∨ t.status = HIDDEN))))) :
    win (modifyTile s r f) = win s := by
  rw [Bool.eq_iff_iff, win_iff, win_iff]
  constructor
  · intro h q t hq
    by_cases hqr : q = r
    · subst hqr
      exact (hf t hq).mp (h q (f t) (by rw [tileAt_modifyTile, if_pos rfl, hq]; rfl))
    · exact h q t (by rw [tileAt_modifyTile, if_neg hqr]; exact hq)
  · intro h q t hq
    rw [tileAt_modifyTile] at hq
    by_cases hqr : q = r
    · rw [if_pos hqr] at hq
      cases hq0 : tileAt s q with
      | none => simp [hq0] at hq
      | some t0 =>
        simp only [hq0, Option.map_some', Option.some.injEq] at hq
        subst hq
        subst hqr
        exact (hf t0 hq0).mpr (h q t0 hq0)
    · rw [if_neg hqr] at hq
      exact h q t hq

theorem lose_setStatus_of_not_mine (s : Minesweeper) (r : Ref) (tile : Tile) (st : TileStatus)
    (ht : tileAt s r = some tile) (h1 : tile.status ≠ MINE) (h2 : st ≠ MINE) :
    lose (setStatus s r st) = lose s := by
  rw [Bool.eq_iff_iff, lose_iff_statusAt, lose_iff_statusAt]
  have hr : statusAt s r = some tile.status := by simp [statusAt, ht]
  constructor
  · rintro ⟨q, hq⟩
    rw [statusAt_setStatus s r q st tile ht] at hq
    by_cases hqr : q = r
    · rw [if_pos hqr] at hq
      exact absurd (Option.some.inj hq) h2
    · rw [if_neg hqr] at hq
      exact ⟨q, hq⟩
  · rintro ⟨q, hq⟩
    refine ⟨q, ?_⟩
    rw [statusAt_setStatus s r q st tile ht]
    by_cases hqr : q = r
    · rw [hqr, hr] at hq
      exact absurd (Option.some.inj hq) h1
    · rw [if_neg hqr]
      exact hq

/-- `markTile` changes neither the truth of the win test nor that of the lose test. -/
theorem markTile_win_lose (s s1 : Minesweeper) (r : Ref) (h : markTile s r = some s1) :
    win s1 = win s ∧ lose s1 = lose s := by
  cases ht : tileAt s r with
  | none => simp [markTile, ht] at h
  | some tile =>
    cases hst : tile.status with
    | HIDDEN =>
      rw [markTile_hidden s r tile ht hst, Option.some.injEq] at h
      subst h
      refine ⟨win_modifyTile s r _ (fun t ht1 => ?_),
        lose_setStatus_of_not_mine s r tile MARKED ht (by rw [hst]; decide) (by decide)⟩
      rw [ht] at ht1
      cases ht1
      simp [hst]
    | MARKED =>
      rw [markTile_marked s r tile ht hst, Option.some.injEq] at h
      subst h
      refine ⟨win_modifyTile s r _ (fun t ht1 => ?_),
        lose_setStatus_of_not_mine s r tile HIDDEN ht (by rw [hst]; decide) (by decide)⟩
      rw [ht] at ht1
      cases ht1
      simp [hst]
    | NUMBER =>
      rw [markTile_other s r tile ht (Or.inl hst), Option.some.injEq] at h
      subst h
      exact ⟨rfl, rfl⟩
    | MINE =>
      rw [markTile_other s r tile ht (Or.inr hst), Option.some.injEq] at h
      subst h
      exact ⟨rfl, rfl⟩

/-- `revealTile` never changes the number of flagged tiles. -/
theorem revealTile_markedTilesCount (fuel : Nat) (s s1 : Minesweeper) (r : Ref)
    (h : revealTile fuel s r = some s1) : markedTilesCount s1 = markedTilesCount s := by
  refine revealTile_preserves (fun s2 => markedTilesCount s2 = markedTilesCount s)
    ?_ ?_ ?_ ?_ ?_ ?_ fuel s r s1 rfl h
  · intro s2 r tile hs ht hh _
    refine (markedTilesCount_modifyTile s2 r _ (fun t ht1 => ?_)).trans hs
    rw [ht] at ht1
    cases ht1
    simp [hh]
  · intro s2 r tile hs ht hh _
    refine (markedTilesCount_modifyTile s2 r _ (fun t ht1 => ?_)).trans hs
    rw [ht] at ht1
    cases ht1
    simp [hh]
  · intro s2 r k hs
    exact (markedTilesCount_modifyTile s2 r (fun t => { t with mineCount := some k })
      (fun _ _ => Iff.rfl)).trans hs
  · intro s2 hs _
    exact (markedTilesCount_disableBoard _).trans hs
  · intro s2 hs _ _
    exact hs
  · intro s2 hs
    exact (markedTilesCount_disableBoard _).trans hs

/-- A fresh board with fewer mines than tiles is in the playing phase. -/
theorem phaseInvariant_init (boardSize numberOfMines : Nat) (draws : List Draw)
    (s : Minesweeper) (hcount : numberOfMines < boardSize ^ 2)
    (h : initializeMinesweeper boardSize numberOfMines draws = some s) :
    PhaseInvariant s := by
  simp only [initializeMinesweeper, Option.map_eq_some'] at h
  obtain ⟨mines, hmines, rfl⟩ := h
  have hpos : 0 < boardSize := by
    rcases Nat.eq_zero_or_pos boardSize with h0 | h0
    · subst h0
      simp at hcount
    · exact h0
  obtain ⟨hlen, hnd, _⟩ := getMinesPositionsLoop_spec boardSize numberOfMines
    (fun _ => True) draws.length draws [] mines rfl (fun _ _ => trivial) List.nodup_nil
    (by simp) (Nat.zero_le _) hmines
  -- some tile is not a mine
  have hflat : (initializeBoard boardSize mines).flatten.length = boardSize ^ 2 :=
    flatten_length_of_wellFormed _ (wellFormed_initializeFrom boardSize numberOfMines mines)
  have hcnt := count_mines_initializeBoard_le boardSize mines
  have hex : ∃ t ∈ (initializeBoard boardSize mines).flatten, t.mine = false := by
    by_contra hno
    have hall : ∀ t ∈ (initializeBoard boardSize mines).flatten, t.mine = true := by
      intro t ht
      cases hm : t.mine with
      | true => rfl
      | false => exact absurd ⟨t, ht, hm⟩ hno
    rw [List.filter_eq_self.mpr hall] at hcnt
    omega
  obtain ⟨t, htmem, htm⟩ := hex
  obtain ⟨q, hq⟩ := (mem_flatten_iff (initializeFrom boardSize numberOfMines mines) t).mp htmem
  have hhidden : ∀ q t, tileAt (initializeFrom boardSize numberOfMines mines) q = some t →
      t.status = HIDDEN ∧ t.disabled = false := by
    intro q t hq
    rw [tileAt_initializeFrom] at hq
    split at hq
    · cases hq
      exact ⟨rfl, rfl⟩
    · cases hq
  refine ⟨⟨q, by rw [hq]; rfl⟩, Or.inl ⟨fun q t hq => (hhidden q t hq).2, ?_, ?_, rfl⟩⟩
  · exact win_false_of_hidden _ q t hq (hhidden q t hq).1 htm
  · cases hl : lose (initializeFrom boardSize numberOfMines mines) with
    | false => rfl
    | true =>
      obtain ⟨q1, t1, hq1, hst⟩ := (lose_iff _).mp hl
      rw [(hhidden q1 t1 hq1).1] at hst
      cases hst

end Minesweeper

namespace Minesweeper

open TileStatus

theorem playing_of_not_disabled (s : Minesweeper) (r : Ref) (tile : Tile)
    (hs : PhaseInvariant s) (ht : tileAt s r = some tile) (hd : tile.disabled = false) :
    NoneDisabled s ∧ win s = false ∧ lose s = false ∧ s.subtitle = minesLeftText s := by
  rcases hs.2 with h | ⟨hall, _⟩ | ⟨hall, _⟩
  · exact h
  · rw [hall r tile ht] at hd
    cases hd
  · rw [hall r tile ht] at hd
    cases hd

theorem phaseInvariant_markTile (s s1 : Minesweeper) (r : Ref) (tile : Tile)
    (hs : PhaseInvariant s) (ht : tileAt s r = some tile) (hd : tile.disabled = false)
    (h : markTile s r = some s1) : PhaseInvariant s1 := by
  obtain ⟨hnone, hw, hl, hsub⟩ := playing_of_not_disabled s r tile hs ht hd
  obtain ⟨hw1, hl1⟩ := markTile_win_lose s s1 r h
  obtain ⟨q0, hq0⟩ := hs.1
  have hex : ∃ q, (tileAt s1 q).isSome = true :=
    ⟨q0, by
      rw [isSome_eq_of_frameAt s1 s (fun q => (markTile_transitions s s1 r h q).1)]
      exact hq0⟩
  refine ⟨hex, Or.inl ⟨?_, hw1.trans hw, hl1.trans hl, ?_⟩⟩
  · have hset : ∀ st, NoneDisabled (updateMinesLeft (setStatus s r st)) := fun st =>
      forall_tile_modifyTile (fun t => t.disabled = false) s r _ hnone (fun _ h => h)
    cases hst : tile.status with
    | HIDDEN =>
      rw [markTile_hidden s r tile ht hst, Option.some.injEq] at h
      exact h ▸ hset MARKED
    | MARKED =>
      rw [markTile_marked s r tile ht hst, Option.some.injEq] at h
      exact h ▸ hset HIDDEN
    | NUMBER =>
      rw [markTile_other s r tile ht (Or.inl hst), Option.some.injEq] at h
      exact h ▸ hnone
    | MINE =>
      rw [markTile_other s r tile ht (Or.inr hst), Option.some.injEq] at h
      exact h ▸ hnone
  · cases hst : tile.status with
    | HIDDEN =>
      rw [markTile_hidden s r tile ht hst, Option.some.injEq] at h
      subst h
      rfl
    | MARKED =>
      rw [markTile_marked s r tile ht hst, Option.some.injEq] at h
      subst h
      rfl
    | NUMBER =>
      rw [markTile_other s r tile ht (Or.inl hst), Option.some.injEq] at h
      exact h ▸ hsub
    | MINE =>
      rw [markTile_other s r tile ht (Or.inr hst), Option.some.injEq] at h
      exact h ▸ hsub

/-- What a safe cascade keeps while the board is not won: no tile disabled and the
"Mines left" text in the status line. -/
theorem playing_safe_outcome (fuel : Nat) (s s1 : Minesweeper) (r : Ref) (tile : Tile)
    (hnone : NoneDisabled s) (hl : lose s = false) (hsub : s.subtitle = minesLeftText s)
    (ht : tileAt s r = some tile) (hh : tile.status = HIDDEN) (hm : tile.mine = false)
    (h : revealTile fuel s r = some s1) :
    (NoneDisabled s1 ∧ win s1 = false ∧ lose s1 = false ∧ s1.subtitle = minesLeftText s1) ∨
      (AllDisabled s1 ∧ win s1 = true ∧ s1.subtitle = "You Win!") := by
  have hstep : ∀ (s : Minesweeper) (r : Ref) (tile : Tile) (f : Tile → Tile),
      (lose s = false ∧ (win s = false → NoneDisabled s ∧ s.subtitle = minesLeftText s)) →
      tileAt s r = some tile → tile.status = HIDDEN → tile.mine = false →
      (∀ t, (f t).disabled = t.disabled) → (f tile).status = NUMBER →
      lose (modifyTile s r f) = false →
      (lose (modifyTile s r f) = false ∧ (win (modifyTile s r f) = false →
        NoneDisabled (modifyTile s r f) ∧
          (modifyTile s r f).subtitle = minesLeftText (modifyTile s r f))) := by
    intro s r tile f hs ht hh hm hfd hfs hlose
    obtain ⟨hnone, hsub⟩ := hs.2 (win_false_of_hidden s r tile ht hh hm)
    refine ⟨hlose, fun _ => ⟨?_, ?_⟩⟩
    · exact forall_tile_modifyTile (fun t => t.disabled = false) s r f hnone
        (fun t h => (hfd t).trans h)
    · show s.subtitle = _
      rw [hsub]
      unfold minesLeftText
      rw [markedTilesCount_modifyTile s r f (fun t ht1 => by
        rw [ht] at ht1
        cases ht1
        simp [hh, hfs])]
      rfl
  have key := revealTile_safe_outcome
    (fun s => lose s = false ∧ (win s = false → NoneDisabled s ∧ s.subtitle = minesLeftText s))
    (fun _ h => h.1) ?_ ?_ ?_ fuel s s1 r tile ⟨hl, fun _ => ⟨hnone, hsub⟩⟩ ht hh hm h
  · obtain ⟨s2, ⟨hl2, hplay⟩, _, hout⟩ := key
    rcases hout with ⟨hw2, rfl⟩ | ⟨hw2, rfl⟩
    · exact Or.inr ⟨allDisabled_disableBoard _, by rw [win_disableBoard]; exact hw2, rfl⟩
    · exact Or.inl ⟨(hplay hw2).1, hw2, hl2, (hplay hw2).2⟩
  · intro s r tile hs ht hh hm _
    exact hstep s r tile _ hs ht hh hm (fun _ => rfl) rfl (lose_setStatus_number s r hs.1)
  · intro s r tile hs ht hh hm _
    show lose (setMineCount (setStatus s r NUMBER) r _) = false ∧ _
    unfold setMineCount setStatus
    rw [modifyTile_modifyTile]
    refine hstep s r tile _ hs ht hh hm (fun _ => rfl) rfl ?_
    rw [← modifyTile_modifyTile]
    show lose (setMineCount (setStatus s r NUMBER) r _) = false
    rw [lose_setMineCount]
    exact lose_setStatus_number s r hs.1
  · intro s hs _
    refine ⟨by rw [lose_disableBoard]; exact hs.1, fun hw => ?_⟩
    rw [win_disableBoard] at hw
    rename_i hwin
    rw [show win { s with subtitle := "You Win!" } = win s from rfl, hwin] at hw
    cases hw

theorem phaseInvariant_revealTile (fuel : Nat) (s s1 : Minesweeper) (r : Ref) (tile : Tile)
    (hs : PhaseInvariant s) (ht : tileAt s r = some tile) (hd : tile.disabled = false)
    (h : revealTile fuel s r = some s1) : PhaseInvariant s1 := by
  obtain ⟨hnone, hw, hl, hsub⟩ := playing_of_not_disabled s r tile hs ht hd
  have hev := revealTile_evolves fuel s s1 r h
  obtain ⟨q0, hq0⟩ := hs.1
  have hex : ∃ q, (tileAt s1 q).isSome = true := ⟨q0, by rw [hev.tileAt_isSome]; exact hq0⟩
  by_cases hh : tile.status = HIDDEN
  · cases hm : tile.mine with
    | false =>
      rcases playing_safe_outcome fuel s s1 r tile hnone hl hsub ht hh hm h with h1 | h1
      · exact ⟨hex, Or.inl h1⟩
      · exact ⟨hex, Or.inr (Or.inl h1)⟩
    | true =>
      obtain ⟨s2, h2, _, hsub2, hall2, hnh2⟩ := revealTile_hidden_mine
        (max fuel (hiddenCount s + 1)) s r tile ht hh hm (by omega)
      have h1 := revealTile_fuel_le fuel (max fuel (hiddenCount s + 1)) (by omega) s s1 r h
      rw [h1, Option.some.injEq] at h2
      subst h2
      have hmr : isMine s r = true := by simp [isMine, ht, hm]
      have hst : statusAt s1 r = some MINE := by
        rcases hev.2 r with e | ⟨_, ⟨_, e⟩ | ⟨e, _⟩⟩
        · exfalso
          apply hnh2 r hmr
          rw [e]
          simp [statusAt, ht, hh]
        · rw [hmr] at e; cases e
        · exact e
      exact ⟨hex, Or.inr (Or.inr ⟨hall2, lose_of_mine_status s1 r hst, hsub2⟩)⟩
  · cases fuel with
    | zero => simp [revealTile] at h
    | succ fuel =>
      rw [revealTile_not_hidden fuel s r tile ht hh, Option.some.injEq] at h
      exact h ▸ hs

/-- Every state that the listeners can reach satisfies the phase invariant. -/
theorem phaseInvariant_reachable (s : Minesweeper) (hr : ReachableByIntents s) :
    PhaseInvariant s := by
  induction hr with
  | init boardSize numberOfMines draws s hcount hdraws h =>
    exact phaseInvariant_init boardSize numberOfMines draws s hcount h
  | step fuel s s1 intent _ h ih =>
    cases intent with
    | click r =>
      simp only [handle, handleClick] at h
      cases ht : tileAt s r with
      | none => simp [ht] at h
      | some tile =>
        simp only [ht] at h
        cases hd : tile.disabled with
        | true =>
          simp only [hd, Bool.not_true, Bool.false_eq_true, if_false, Option.some.injEq] at h
          exact h ▸ ih
        | false =>
          simp only [hd, Bool.not_false, if_true] at h
          exact phaseInvariant_revealTile fuel s s1 r tile ih ht hd h
    | rightClick r =>
      simp only [handle, handleRightClick] at h
      cases ht : tileAt s r with
      | none => simp [ht] at h
      | some tile =>
        simp only [ht] at h
        cases hd : tile.disabled with
        | true =>
          simp only [hd, Bool.not_true, Bool.false_eq_true, if_false, Option.some.injEq] at h
          exact h ▸ ih
        | false =>
          simp only [hd, Bool.not_false, if_true] at h
          exact phaseInvariant_markTile s s1 r tile ih ht hd h

end Minesweeper

namespace Minesweeper

open TileStatus

theorem reachable_of_intents (s : Minesweeper) (hr : ReachableByIntents s) : Reachable s := by
  induction hr with
  | init boardSize numberOfMines draws s _ hdraws h =>
    exact Reachable.init boardSize numberOfMines draws s hdraws h
  | step fuel s s1 intent _ h ih =>
    cases intent with
    | click r =>
      simp only [handle, handleClick] at h
      cases ht : tileAt s r with
      | none => simp [ht] at h
      | some tile =>
        simp only [ht] at h
        split at h
        · exact Reachable.reveal fuel s s1 r ih h
        · rw [Option.some.injEq] at h
          exact h ▸ ih
    | rightClick r =>
      simp only [handle, handleRightClick] at h
      cases ht : tileAt s r with
      | none => simp [ht] at h
      | some tile =>
        simp only [ht] at h
        split at h
        · exact Reachable.mark s s1 r ih h
        · rw [Option.some.injEq] at h
          exact h ▸ ih

theorem win_iff_specWon (s : Minesweeper) (hr : Reachable s) : win s = true ↔ SpecWon s := by
  rw [win_iff]
  constructor
  · intro h q tile hq
    rcases h q tile hq with hn | ⟨hm, hst⟩
    · exact Or.inl ⟨hn, noRevealedMine_reachable s hr q tile hq hn⟩
    · exact Or.inr ⟨hm, hst.symm⟩
  · intro h q tile hq
    rcases h q tile hq with ⟨hn, _⟩ | ⟨hm, hst⟩
    · exact Or.inl hn
    · exact Or.inr ⟨hm, hst.symm⟩

theorem not_all_and_none_disabled (s : Minesweeper) (hex : ∃ q, (tileAt s q).isSome = true) :
    ¬ (AllDisabled s ∧ NoneDisabled s) := by
  rintro ⟨hall, hnone⟩
  obtain ⟨q, hq⟩ := hex
  obtain ⟨tile, ht⟩ := Option.isSome_iff_exists.mp hq
  have h1 := hall q tile ht
  rw [hnone q tile ht] at h1
  cases h1

/-- C15. In every state that clicks and right clicks reach from a fresh board with
fewer mines than tiles, the status line reads "You Win!" when the board is won (every
tile a revealed non-mine or a hidden or flagged mine), "You Lose!" when some tile has
the status "mine", and otherwise "Mines left: n" with n the number of mines minus the
number of flagged tiles; and `revealTile`, which does not rewrite the line, leaves the
number of flagged tiles as it was, in any state. -/
theorem status_line_invariant (s : Minesweeper) (hr : ReachableByIntents s) :
    (win s = true ↔ SpecWon s) ∧
    (win s = true → s.subtitle = "You Win!") ∧
    ((∃ q, statusAt s q = some MINE) → s.subtitle = "You Lose!") ∧
    (win s = false → (¬ ∃ q, statusAt s q = some MINE) →
      s.subtitle =
        "Mines left: " ++ toString ((s.NUMBER_OF_MINES : Int) - (markedTilesCount s : Int))) ∧
    (∀ fuel s0 r s1, revealTile fuel s0 r = some s1 →
      markedTilesCount s1 = markedTilesCount s0) := by
  have hp := (phaseInvariant_reachable s hr).2
  refine ⟨win_iff_specWon s (reachable_of_intents s hr), ?_, ?_, ?_,
    fun fuel s0 r s1 h => revealTile_markedTilesCount fuel s0 s1 r h⟩
  · intro hw
    rcases hp with ⟨_, hw1, _⟩ | ⟨_, _, hsub⟩ | ⟨_, hl, _⟩
    · rw [hw] at hw1; cases hw1
    · exact hsub
    · exact absurd ⟨hw, hl⟩ (win_lose_exclusive s)
  · intro hq
    have hl := (lose_iff_statusAt s).mpr hq
    rcases hp with ⟨_, _, hl1, _⟩ | ⟨_, hw, _⟩ | ⟨_, _, hsub⟩
    · rw [hl] at hl1; cases hl1
    · exact absurd ⟨hw, hl⟩ (win_lose_exclusive s)
    · exact hsub
  · intro hw hq
    rcases hp with ⟨_, _, _, hsub⟩ | ⟨_, hw1, _⟩ | ⟨_, hl, _⟩
    · exact hsub
    · rw [hw] at hw1; cases hw1
    · exact absurd ((lose_iff_statusAt s).mp hl) hq

/-- C15 at a concrete input: a fresh 2×2 board with one mine after a right click on a
tile that is not the mine. -/
theorem status_line_invariant_witness :
    ReachableByIntents (updateMinesLeft (setStatus (initializeFrom 2 1 [⟨0, 0⟩]) ⟨1, 1⟩ MARKED)) ∧
    (win (updateMinesLeft (setStatus (initializeFrom 2 1 [⟨0, 0⟩]) ⟨1, 1⟩ MARKED)) = false →
      (¬ ∃ q, statusAt (updateMinesLeft (setStatus (initializeFrom 2 1 [⟨0, 0⟩]) ⟨1, 1⟩ MARKED)) q
        = some MINE) →
      (updateMinesLeft (setStatus (initializeFrom 2 1 [⟨0, 0⟩]) ⟨1, 1⟩ MARKED)).subtitle =
        "Mines left: " ++ toString (((updateMinesLeft
          (setStatus (initializeFrom 2 1 [⟨0, 0⟩]) ⟨1, 1⟩ MARKED)).NUMBER_OF_MINES : Int) -
          (markedTilesCount (updateMinesLeft
            (setStatus (initializeFrom 2 1 [⟨0, 0⟩]) ⟨1, 1⟩ MARKED)) : Int))) :=
  ⟨ReachableByIntents.step 0 (initializeFrom 2 1 [⟨0, 0⟩]) _ (Intent.rightClick ⟨1, 1⟩)
      (ReachableByIntents.init 2 1 [⟨0, 1⟩, ⟨0, 1⟩] _ (by decide) (by decide) (by decide))
      (by decide),
    (status_line_invariant _
      (ReachableByIntents.step 0 (initializeFrom 2 1 [⟨0, 0⟩]) _ (Intent.rightClick ⟨1, 1⟩)
        (ReachableByIntents.init 2 1 [⟨0, 1⟩, ⟨0, 1⟩] _ (by decide) (by decide) (by decide))
        (by decide))).2.2.2.1⟩

/-- C19. In every state that clicks and right clicks reach from a fresh board with
fewer mines than tiles, either every tile is disabled or none is (never both), and
the tiles are disabled exactly when the test `win` or the test `lose` of
`checkGameStatus` holds on the board; and `markTile`, which does not call
`checkGameStatus`, leaves the value of both tests as it was, in any state. -/
theorem disabled_iff_game_over (s : Minesweeper) (hr : ReachableByIntents s) :
    (AllDisabled s ∨ NoneDisabled s) ∧ ¬ (AllDisabled s ∧ NoneDisabled s) ∧
    (AllDisabled s ↔ (win s = true ∨ lose s = true)) ∧
    (NoneDisabled s ↔ (win s = false ∧ lose s = false)) ∧
    (∀ s0 r s1, markTile s0 r = some s1 → win s1 = win s0 ∧ lose s1 = lose s0) := by
  obtain ⟨hex, hp⟩ := phaseInvariant_reachable s hr
  have hboth := not_all_and_none_disabled s hex
  refine ⟨?_, hboth, ?_, ?_, fun s0 r s1 h => markTile_win_lose s0 s1 r h⟩
  · rcases hp with ⟨hnone, _⟩ | ⟨hall, _⟩ | ⟨hall, _⟩
    · exact Or.inr hnone
    · exact Or.inl hall
    · exact Or.inl hall
  · rcases hp with ⟨hnone, hw, hl, _⟩ | ⟨hall, hw, _⟩ | ⟨hall, hl, _⟩
    · constructor
      · intro hall
        exact absurd ⟨hall, hnone⟩ hboth
      · rintro (h | h)
        · rw [hw] at h; cases h
        · rw [hl] at h; cases h
    · exact ⟨fun _ => Or.inl hw, fun _ => hall⟩
    · exact ⟨fun _ => Or.inr hl, fun _ => hall⟩
  · rcases hp with ⟨hnone, hw, hl, _⟩ | ⟨hall, hw, _⟩ | ⟨hall, hl, _⟩
    · exact ⟨fun _ => ⟨hw, hl⟩, fun _ => hnone⟩
    · constructor
      · intro hnone
        exact absurd ⟨hall, hnone⟩ hboth
      · rintro ⟨h, _⟩
        rw [hw] at h; cases h
    · constructor
      · intro hnone
        exact absurd ⟨hall, hnone⟩ hboth
      · rintro ⟨_, h⟩
        rw [hl] at h; cases h

/-- C19 at a concrete input: a 2×2 board with one mine after a click on the mine. -/
theorem disabled_iff_game_over_witness :
    ReachableByIntents
      (disableBoard { setStatus (initializeFrom 2 1 [⟨0, 0⟩]) ⟨0, 0⟩ MINE with
        subtitle := "You Lose!" }) ∧
    (AllDisabled (disableBoard { setStatus (initializeFrom 2 1 [⟨0, 0⟩]) ⟨0, 0⟩ MINE with
        subtitle := "You Lose!" }) ↔
      (win (disableBoard { setStatus (initializeFrom 2 1 [⟨0, 0⟩]) ⟨0, 0⟩ MINE with
        subtitle := "You Lose!" }) = true ∨
       lose (disableBoard { setStatus (initializeFrom 2 1 [⟨0, 0⟩]) ⟨0, 0⟩ MINE with
        subtitle := "You Lose!" }) = true)) :=
  ⟨ReachableByIntents.step 5 (initializeFrom 2 1 [⟨0, 0⟩]) _ (Intent.click ⟨0, 0⟩)
      (ReachableByIntents.init 2 1 [⟨0, 1⟩, ⟨0, 1⟩] _ (by decide) (by decide) (by decide))
      (by decide),
    (disabled_iff_game_over _
      (ReachableByIntents.step 5 (initializeFrom 2 1 [⟨0, 0⟩]) _ (Intent.click ⟨0, 0⟩)
        (ReachableByIntents.init 2 1 [⟨0, 1⟩, ⟨0, 1⟩] _ (by decide) (by decide) (by decide))
        (by decide))).2.2.1⟩

end Minesweeper
